import Mathlib

/-! # golox: scanner, parser and tree-walking evaluator

A shallow embedding of the Go sources under `cmd/myinterpreter`
(`value.go`, `token.go`, `expr.go`, `stmt.go`, `scanner.go`, `parser.go`).

Conventions of the embedding:

* a Go `string` is its sequence of bytes (`GoString`);
* a Go call that returns `(T, error)` returns a `Result T`; a run-time panic
  (failed type assertion, slice or index out of range) is the outcome
  `Result.panic`;
* the package-level map `globals` is passed explicitly as an `Env`;
* `float64` values are IEEE-754 binary64 bit patterns (`F64`); comparison and
  negation are defined on the bits, while rounding arithmetic, `strconv` and
  `fmt` are taken from a `Float64Lib`.
-/

namespace Golox

/-! ## Strings -/

/-- A Go `string`: a sequence of bytes. -/
abbrev GoString := List Nat

/-- The bytes of an ASCII text. -/
def ascii (s : String) : GoString := s.toList.map Char.toNat

/-! ## float64 -/

/-- An IEEE-754 binary64 bit pattern: sign bit, biased exponent, fraction. -/
structure F64 where
  sign : Bool
  expo : Fin 2048
  frac : Fin 4503599627370496
deriving DecidableEq

namespace F64

/-- Positive zero, the Go constant `0` at type `float64`. -/
def zero : F64 := ⟨false, 0, 0⟩

/-- Not-a-number: all exponent bits set and a non-zero fraction. -/
def isNaN (x : F64) : Bool := x.expo.val == 2047 && x.frac.val != 0

/-- Sign-magnitude reading of the bits; it orders all non-NaN values the way
IEEE-754 does and sends both zeros to `0`. -/
def key (x : F64) : Int :=
  if x.sign then -((x.expo.val * 4503599627370496 + x.frac.val : Nat) : Int)
  else ((x.expo.val * 4503599627370496 + x.frac.val : Nat) : Int)

/-- Go `a == b` on `float64`. -/
def eq (a b : F64) : Bool := !a.isNaN && !b.isNaN && decide (a.key = b.key)

/-- Go `a != b` on `float64`. -/
def ne (a b : F64) : Bool := !(eq a b)

/-- Go `a < b` on `float64`. -/
def lt (a b : F64) : Bool := !a.isNaN && !b.isNaN && decide (a.key < b.key)

/-- Go `a <= b` on `float64`. -/
def le (a b : F64) : Bool := !a.isNaN && !b.isNaN && decide (a.key ≤ b.key)

/-- Go `a > b` on `float64`. -/
def gt (a b : F64) : Bool := lt b a

/-- Go `a >= b` on `float64`. -/
def ge (a b : F64) : Bool := le b a

/-- Go unary `-a` on `float64`: the sign bit is flipped. -/
def neg (a : F64) : F64 := { a with sign := !a.sign }

end F64

/-- The parts of Go's `float64` support that are not defined on the bits here:
rounding arithmetic, `strconv.ParseFloat`, `fmt` verbs and integer
conversion. -/
structure Float64Lib where
  /-- Models `strconv.ParseFloat(s, 64)`: the value it returns, which is 0
  with a syntax error and an infinity with a range error, and whether the error
  it returns is not nil. -/
  ParseFloat : GoString → F64 × Bool
  /-- Go `a + b`. -/
  add : F64 → F64 → F64
  /-- Go `a - b`. -/
  sub : F64 → F64 → F64
  /-- Go `a * b`. -/
  mul : F64 → F64 → F64
  /-- Go `a / b`. -/
  div : F64 → F64 → F64
  /-- Models `fmt.Sprintf("%v", x)`. -/
  fmtV : F64 → GoString
  /-- Models `fmt.Sprintf("%.1f", x)`. -/
  fmtF1 : F64 → GoString
  /-- Models `float64(int(x))`. -/
  truncInt : F64 → F64

/-! ## value.go -/

/-- The strings returned by `Type()`: `VT_Nil`, `VT_Bool`, `VT_String`,
`VT_Number`. -/
inductive TypeName where
  | VT_Nil | VT_Bool | VT_String | VT_Number
deriving DecidableEq

/-- The implementations of the interface `ValueType`. -/
inductive ValueType where
  | NilType
  | BoolType (v : Bool)
  | StringType (v : GoString)
  | NumberType (v : F64)
deriving DecidableEq

namespace ValueType

/-- The method `Type()`, spelled `Typ`. -/
def Typ : ValueType → TypeName
  | NilType => TypeName.VT_Nil
  | BoolType _ => TypeName.VT_Bool
  | StringType _ => TypeName.VT_String
  | NumberType _ => TypeName.VT_Number

/-- The method `IsTrue()`. -/
def IsTrue : ValueType → Bool
  | NilType => false
  | BoolType v => v
  | StringType v => decide (v.length > 0)
  | NumberType v => F64.ne v F64.zero

/-- The method `String()`. -/
def String (lib : Float64Lib) : ValueType → GoString
  | NilType => ascii "nil"
  | BoolType v => if v then ascii "true" else ascii "false"
  | StringType v => v
  | NumberType v => lib.fmtV v

end ValueType

def NilValue : ValueType := ValueType.NilType
def TrueValue : ValueType := ValueType.BoolType true
def FalseValue : ValueType := ValueType.BoolType false
def EmptyStringValue : ValueType := ValueType.StringType []
def ZeroNumberValue : ValueType := ValueType.NumberType F64.zero

/-! ## token.go -/

/-- The token type constants. -/
inductive TokenType where
  | TK_LEFT_PAREN | TK_RIGHT_PAREN | TK_LEFT_BRACE | TK_RIGHT_BRACE
  | TK_STAR | TK_DOT | TK_COMMA | TK_PLUS | TK_MINUS | TK_SEMICOLON
  | TK_EQUAL | TK_EQUAL_EQUAL | TK_BANG | TK_BANG_EQUAL
  | TK_LESS | TK_LESS_EQUAL | TK_GREATER | TK_GREATER_EQUAL | TK_SLASH
  | TK_STRING | TK_NUMBER | TK_IDENTIFIER | TK_EOF | TK_INVALID
  | KW_AND | KW_CLASS | KW_ELSE | KW_FALSE | KW_TRUE | KW_FOR | KW_FUN
  | KW_IF | KW_NIL | KW_OR | KW_PRINT | KW_RETURN | KW_SUPER | KW_THIS
  | KW_VAR | KW_WHILE
deriving DecidableEq

/-- The struct `Token`; the field `Type` is spelled `Typ`. -/
structure Token where
  Line : Nat
  Lexeme : GoString
  Typ : TokenType
deriving DecidableEq

/-- The errors built with `fmt.Errorf`, one constructor per format string,
carrying the formatted arguments. -/
inductive Error where
  /-- The text "Undefined variable '%s'." -/
  | UndefinedVariable (name : GoString)
  /-- The text "Unknown unary operator: %s" -/
  | UnknownUnary (lexeme : GoString)
  /-- The text "Unknown binary operator: %s" -/
  | UnknownBinary (lexeme : GoString)
  /-- The text "Unmatch functors" -/
  | UnmatchFunctors
  /-- The text "can't convert '%v'" -/
  | CantConvert (v : ValueType)
  /-- The text "Expect a literal type" -/
  | ExpectLiteral
  /-- The text of `Parser.Expect`: its `msg` argument, verbatim. -/
  | Expected (msg : String)
  /-- The text "Invalid assignment expression." -/
  | InvalidAssignment
  /-- The text "Error: unmatched parenthesis" -/
  | UnmatchedParen
  /-- The text "[line %d] Error at '%s': Expect expression" -/
  | ExpectExpression (line : Nat) (lexeme : GoString)
deriving DecidableEq

/-- Outcome of a Go call returning `(T, error)`. -/
inductive Result (α : Type) where
  | ok (v : α)
  | error (e : Error)
  | panic
deriving DecidableEq

/-- Go slice expression `s[lo:hi]` on a string; `none` when it panics. -/
def slice (s : GoString) (lo hi : Int) : Option GoString :=
  if 0 ≤ lo ∧ lo ≤ hi ∧ hi ≤ s.length then
    some ((s.drop lo.toNat).take (hi.toNat - lo.toNat))
  else none

namespace Token

/-- The method `Token.Literal`. -/
def Literal (lib : Float64Lib) (t : Token) : Result ValueType :=
  match t.Typ with
  | TokenType.TK_STRING =>
    match slice t.Lexeme 1 ((t.Lexeme.length : Int) - 1) with
    | some s => Result.ok (ValueType.StringType s)
    | none => Result.panic
  | TokenType.TK_NUMBER =>
    match lib.ParseFloat t.Lexeme with
    | (_, true) => Result.ok NilValue
    | (v, false) => Result.ok (ValueType.NumberType v)
  | TokenType.KW_FALSE => Result.ok FalseValue
  | TokenType.KW_TRUE => Result.ok TrueValue
  | TokenType.KW_NIL => Result.ok NilValue
  | _ => Result.error Error.ExpectLiteral

/-- The method `Token.LiteralString`; `none` when the slice panics. -/
def LiteralString (lib : Float64Lib) (t : Token) : Option GoString :=
  if t.Typ = TokenType.TK_STRING then
    slice t.Lexeme 1 ((t.Lexeme.length : Int) - 1)
  else if t.Typ = TokenType.TK_NUMBER then
    -- `num, _ := strconv.ParseFloat(...)`: the value is kept, the error dropped
    let num := (lib.ParseFloat t.Lexeme).1
    if F64.eq num (lib.truncInt num) then some (lib.fmtF1 num)
    else some (lib.fmtV num)
  else some (ascii "null")

end Token

/-! ## expr.go -/

/-- The package-level map `globals` of `stmt.go`. -/
abbrev Env := GoString → Option ValueType

/-- The map with no key, `make(map[string]ValueType)`. -/
def Env.empty : Env := fun _ => none

/-- The map after `globals[k] = v`. -/
def Env.set (g : Env) (k : GoString) (v : ValueType) : Env :=
  fun k' => if k' = k then some v else g k'

/-- The implementations of the interface `Expr`. -/
inductive Expr where
  | VarExpr (token : Token)
  | AssignmentExpr (token : Token) (expr : Expr)
  | LiteralExpr (token : Token)
  | GroupExpr (expr : Expr)
  | UnaryExpr (expr : Expr) (token : Token)
  | BinaryExpr (left : Expr) (right : Expr) (optr : Token)
deriving DecidableEq

/-- The function `IsTruthy`. -/
def IsTruthy (val : ValueType) : Bool := val.IsTrue

/-- The type sets `GenericType` and `ComparableType`: the types a generic
operator function is instantiated at. -/
inductive GenericType where
  | NilType | NumberType | StringType | BoolType
deriving DecidableEq

/-- The type assertion `v.(T)`: whether it succeeds. -/
def ValueType.isA : ValueType → GenericType → Bool
  | ValueType.NilType, GenericType.NilType => true
  | ValueType.BoolType _, GenericType.BoolType => true
  | ValueType.StringType _, GenericType.StringType => true
  | ValueType.NumberType _, GenericType.NumberType => true
  | _, _ => false

/-- The function `EvalGeneric[T]`; `op` panics where one of its type
assertions fails. -/
def EvalGeneric (T : GenericType) (lhs rhs : ValueType)
    (op : ValueType → ValueType → Result ValueType) : Result ValueType :=
  if !lhs.isA T then Result.error (Error.CantConvert lhs)
  else if !rhs.isA T then Result.error (Error.CantConvert rhs)
  else op lhs rhs

/-- The function `EvalPlus[T]`. -/
def EvalPlus (lib : Float64Lib) (T : GenericType) (lhs rhs : ValueType) :
    Result ValueType :=
  EvalGeneric T lhs rhs fun v1 v2 =>
    match v1.Typ with
    | TypeName.VT_Number =>
      match v1, v2 with
      | ValueType.NumberType a, ValueType.NumberType b =>
        Result.ok (ValueType.NumberType (lib.add a b))
      | _, _ => Result.panic
    | TypeName.VT_String =>
      match v1, v2 with
      | ValueType.StringType a, ValueType.StringType b =>
        Result.ok (ValueType.StringType (a ++ b))
      | _, _ => Result.panic
    | _ => Result.ok NilValue

/-- The body shared by `EvalMinus`, `EvalMul` and `EvalDiv`: both operands are
asserted to be `NumberType`. -/
def numberOp (f : F64 → F64 → F64) (v1 v2 : ValueType) : Result ValueType :=
  match v1, v2 with
  | ValueType.NumberType a, ValueType.NumberType b =>
    Result.ok (ValueType.NumberType (f a b))
  | _, _ => Result.panic

/-- The function `EvalMinus[T]`. -/
def EvalMinus (lib : Float64Lib) (T : GenericType) (lhs rhs : ValueType) :
    Result ValueType :=
  EvalGeneric T lhs rhs (numberOp lib.sub)

/-- The function `EvalMul[T]`. -/
def EvalMul (lib : Float64Lib) (T : GenericType) (lhs rhs : ValueType) :
    Result ValueType :=
  EvalGeneric T lhs rhs (numberOp lib.mul)

/-- The function `EvalDiv[T]`. -/
def EvalDiv (lib : Float64Lib) (T : GenericType) (lhs rhs : ValueType) :
    Result ValueType :=
  EvalGeneric T lhs rhs (numberOp lib.div)

/-- Go `a < b` on `string`: byte-wise lexicographic order. -/
def strLt : GoString → GoString → Bool
  | [], [] => false
  | [], _ :: _ => true
  | _ :: _, [] => false
  | a :: as, b :: bs => if a < b then true else if b < a then false else strLt as bs

/-- Go `a <= b` on `string`: byte-wise lexicographic order. -/
def strLe : GoString → GoString → Bool
  | [], _ => true
  | _ :: _, [] => false
  | a :: as, b :: bs => if a < b then true else if b < a then false else strLe as bs

/-- Go `a > b` on `string`. -/
def strGt (a b : GoString) : Bool := strLt b a

/-- Go `a >= b` on `string`. -/
def strGe (a b : GoString) : Bool := strLe b a

/-- The body shared by `EvalLess`, `EvalLessEqual`, `EvalGreater` and
`EvalGreaterEqual`: a switch on `v1.Type()` with one comparison per case. -/
def compareOp (num : F64 → F64 → Bool) (str : GoString → GoString → Bool)
    (v1 v2 : ValueType) : Result ValueType :=
  match v1.Typ with
  | TypeName.VT_Number =>
    match v1, v2 with
    | ValueType.NumberType a, ValueType.NumberType b =>
      Result.ok (ValueType.BoolType (num a b))
    | _, _ => Result.panic
  | TypeName.VT_String =>
    match v1, v2 with
    | ValueType.StringType a, ValueType.StringType b =>
      Result.ok (ValueType.BoolType (str a b))
    | _, _ => Result.panic
  | _ => Result.ok FalseValue

/-- The function `EvalLess[T]`. -/
def EvalLess (T : GenericType) (lhs rhs : ValueType) : Result ValueType :=
  EvalGeneric T lhs rhs (compareOp F64.lt strLt)

/-- The function `EvalLessEqual[T]`. -/
def EvalLessEqual (T : GenericType) (lhs rhs : ValueType) : Result ValueType :=
  EvalGeneric T lhs rhs (compareOp F64.le strLe)

/-- The function `EvalGreater[T]`. -/
def EvalGreater (T : GenericType) (lhs rhs : ValueType) : Result ValueType :=
  EvalGeneric T lhs rhs (compareOp F64.gt strGt)

/-- The function `EvalGreaterEqual[T]`. -/
def EvalGreaterEqual (T : GenericType) (lhs rhs : ValueType) : Result ValueType :=
  EvalGeneric T lhs rhs (compareOp F64.ge strGe)

/-- The function `EvalEqualEqual[T]`. -/
def EvalEqualEqual (T : GenericType) (lhs rhs : ValueType) : Result ValueType :=
  EvalGeneric T lhs rhs fun v1 v2 =>
    match v1.Typ with
    | TypeName.VT_Nil => Result.ok FalseValue
    | TypeName.VT_Bool =>
      match v1, v2 with
      | ValueType.BoolType a, ValueType.BoolType b =>
        Result.ok (ValueType.BoolType (a == b))
      | _, _ => Result.panic
    | TypeName.VT_Number =>
      match v1, v2 with
      | ValueType.NumberType a, ValueType.NumberType b =>
        Result.ok (ValueType.BoolType (F64.eq a b))
      | _, _ => Result.panic
    | TypeName.VT_String =>
      match v1, v2 with
      | ValueType.StringType a, ValueType.StringType b =>
        Result.ok (ValueType.BoolType (a == b))
      | _, _ => Result.panic

/-- The function `EvalBangEqual[T]`. -/
def EvalBangEqual (T : GenericType) (lhs rhs : ValueType) : Result ValueType :=
  EvalGeneric T lhs rhs fun v1 v2 =>
    match v1.Typ with
    | TypeName.VT_Nil => Result.ok TrueValue
    | TypeName.VT_Bool =>
      match v1, v2 with
      | ValueType.BoolType a, ValueType.BoolType b =>
        Result.ok (ValueType.BoolType (a != b))
      | _, _ => Result.panic
    | TypeName.VT_Number =>
      match v1, v2 with
      | ValueType.NumberType a, ValueType.NumberType b =>
        Result.ok (ValueType.BoolType (F64.ne a b))
      | _, _ => Result.panic
    | TypeName.VT_String =>
      match v1, v2 with
      | ValueType.StringType a, ValueType.StringType b =>
        Result.ok (ValueType.BoolType (a != b))
      | _, _ => Result.panic

/-- The function `EvalIfMatch`: the first functor that returns no error
decides; a panic inside a functor ends the call. -/
def EvalIfMatch (lhs rhs : ValueType) :
    List (ValueType → ValueType → Result ValueType) → Result ValueType
  | [] => Result.error Error.UnmatchFunctors
  | functor :: functors =>
    match functor lhs rhs with
    | Result.ok res => Result.ok res
    | Result.error _ => EvalIfMatch lhs rhs functors
    | Result.panic => Result.panic

/-- The operator switch of `BinaryExpr.Eval`, applied to the two operand
values. -/
def BinaryExpr.apply (lib : Float64Lib) (optr : Token) (lhs rhs : ValueType) :
    Result ValueType :=
  match optr.Typ with
  | TokenType.TK_PLUS =>
    EvalIfMatch lhs rhs
      [EvalPlus lib GenericType.NumberType, EvalPlus lib GenericType.StringType]
  | TokenType.TK_MINUS =>
    EvalIfMatch lhs rhs [EvalMinus lib GenericType.NumberType]
  | TokenType.TK_STAR =>
    EvalIfMatch lhs rhs [EvalMul lib GenericType.NumberType]
  | TokenType.TK_SLASH =>
    EvalIfMatch lhs rhs [EvalDiv lib GenericType.NumberType]
  | TokenType.TK_BANG_EQUAL =>
    if lhs.Typ ≠ rhs.Typ then Result.ok TrueValue
    else EvalIfMatch lhs rhs
      [EvalBangEqual GenericType.NilType, EvalBangEqual GenericType.BoolType,
       EvalBangEqual GenericType.StringType, EvalBangEqual GenericType.NumberType]
  | TokenType.TK_EQUAL_EQUAL =>
    if lhs.Typ ≠ rhs.Typ then Result.ok FalseValue
    else EvalIfMatch lhs rhs
      [EvalEqualEqual GenericType.NilType, EvalEqualEqual GenericType.BoolType,
       EvalEqualEqual GenericType.StringType, EvalEqualEqual GenericType.NumberType]
  | TokenType.TK_LESS =>
    EvalIfMatch lhs rhs
      [EvalLess GenericType.NumberType, EvalLess GenericType.StringType]
  | TokenType.TK_LESS_EQUAL =>
    EvalIfMatch lhs rhs
      [EvalLessEqual GenericType.NumberType, EvalLessEqual GenericType.StringType]
  | TokenType.TK_GREATER =>
    EvalIfMatch lhs rhs
      [EvalGreater GenericType.NumberType, EvalGreater GenericType.StringType]
  | TokenType.TK_GREATER_EQUAL =>
    EvalIfMatch lhs rhs
      [EvalGreaterEqual GenericType.NumberType, EvalGreaterEqual GenericType.StringType]
  | _ => Result.error (Error.UnknownBinary optr.Lexeme)

/-- The operator switch of `UnaryExpr.Eval`, applied to the operand value. -/
def UnaryExpr.apply (token : Token) (val : ValueType) : Result ValueType :=
  match token.Typ with
  | TokenType.TK_MINUS =>
    match val with
    | ValueType.NumberType v => Result.ok (ValueType.NumberType (F64.neg v))
    | _ => Result.error (Error.UnknownUnary token.Lexeme)
  | TokenType.TK_BANG => Result.ok (ValueType.BoolType (!IsTruthy val))
  | _ => Result.error (Error.UnknownUnary token.Lexeme)

/-- The method `Eval` of every expression type, with `globals` before the
call as argument and `globals` after the call in the result. -/
def Expr.Eval (lib : Float64Lib) : Expr → Env → Result ValueType × Env
  | Expr.VarExpr token, globals =>
    match globals token.Lexeme with
    | some v => (Result.ok v, globals)
    | none => (Result.error (Error.UndefinedVariable token.Lexeme), globals)
  | Expr.AssignmentExpr token expr, globals =>
    match globals token.Lexeme with
    | some _ =>
      match Expr.Eval lib expr globals with
      | (Result.ok v, globals1) => (Result.ok v, globals1.set token.Lexeme v)
      | (Result.error err, globals1) => (Result.error err, globals1)
      | (Result.panic, globals1) => (Result.panic, globals1)
    | none => (Result.error (Error.UndefinedVariable token.Lexeme), globals)
  | Expr.LiteralExpr token, globals => (token.Literal lib, globals)
  | Expr.GroupExpr expr, globals => Expr.Eval lib expr globals
  | Expr.UnaryExpr expr token, globals =>
    match Expr.Eval lib expr globals with
    | (Result.ok val, globals1) => (UnaryExpr.apply token val, globals1)
    | (Result.error err, globals1) => (Result.error err, globals1)
    | (Result.panic, globals1) => (Result.panic, globals1)
  | Expr.BinaryExpr left right optr, globals =>
    match Expr.Eval lib left globals with
    | (Result.ok lhs, globals1) =>
      match Expr.Eval lib right globals1 with
      | (Result.ok rhs, globals2) => (BinaryExpr.apply lib optr lhs rhs, globals2)
      | (Result.error err, globals2) => (Result.error err, globals2)
      | (Result.panic, globals2) => (Result.panic, globals2)
    | (Result.error err, globals1) => (Result.error err, globals1)
    | (Result.panic, globals1) => (Result.panic, globals1)

/-- The method `String` of every expression type. `none` when
`LiteralString` panics on a literal of the tree: at the root the panic leaves
the call, below a `fmt.Sprintf` it is caught by `fmt` and a diagnostic text is
printed in place of the operand, which is not kept here. -/
def Expr.String (lib : Float64Lib) : Expr → Option GoString
  | Expr.VarExpr token => some (ascii "(var " ++ token.Lexeme ++ ascii ")")
  | Expr.AssignmentExpr token expr =>
    match Expr.String lib expr with
    | some e => some (ascii "(= " ++ token.Lexeme ++ ascii " " ++ e ++ ascii ")")
    | none => none
  | Expr.LiteralExpr token =>
    if token.Typ = TokenType.TK_NUMBER ∨ token.Typ = TokenType.TK_STRING then
      token.LiteralString lib
    else some token.Lexeme
  | Expr.GroupExpr expr =>
    match Expr.String lib expr with
    | some e => some (ascii "(group " ++ e ++ ascii ")")
    | none => none
  | Expr.UnaryExpr expr token =>
    match Expr.String lib expr with
    | some e => some (ascii "(" ++ token.Lexeme ++ ascii " " ++ e ++ ascii ")")
    | none => none
  | Expr.BinaryExpr left right optr =>
    match Expr.String lib left, Expr.String lib right with
    | some l, some r =>
      some (ascii "(" ++ optr.Lexeme ++ ascii " " ++ l ++ ascii " " ++ r ++ ascii ")")
    | _, _ => none

/-! ## stmt.go -/

/-- The implementations of the interface `Stmt`; a `VarStmt` without
initializer has `v = none`. -/
inductive Stmt where
  | PrintStmt (v : Expr)
  | ExprStmt (v : Expr)
  | VarStmt (v : Option Expr) (tk : Token)
  | BlockStmt (stmts : List Stmt)

/-- What a statement acts on: the map `globals` and the lines written to
standard output so far. -/
structure World where
  globals : Env
  stdout : List GoString

mutual
/-- The method `Run` of every statement type. -/
def Stmt.Run (lib : Float64Lib) : Stmt → World → Result Unit × World
  | Stmt.PrintStmt v, w =>
    match Expr.Eval lib v w.globals with
    | (Result.ok val, globals1) =>
      (Result.ok (), ⟨globals1, w.stdout ++ [val.String lib]⟩)
    | (Result.error err, globals1) => (Result.error err, ⟨globals1, w.stdout⟩)
    | (Result.panic, globals1) => (Result.panic, ⟨globals1, w.stdout⟩)
  | Stmt.ExprStmt v, w =>
    match Expr.Eval lib v w.globals with
    | (Result.ok _, globals1) => (Result.ok (), ⟨globals1, w.stdout⟩)
    | (Result.error err, globals1) => (Result.error err, ⟨globals1, w.stdout⟩)
    | (Result.panic, globals1) => (Result.panic, ⟨globals1, w.stdout⟩)
  | Stmt.VarStmt none tk, w =>
    (Result.ok (), ⟨w.globals.set tk.Lexeme NilValue, w.stdout⟩)
  | Stmt.VarStmt (some e) tk, w =>
    match Expr.Eval lib e w.globals with
    | (Result.ok v, globals1) =>
      (Result.ok (), ⟨globals1.set tk.Lexeme v, w.stdout⟩)
    | (Result.error err, globals1) => (Result.error err, ⟨globals1, w.stdout⟩)
    | (Result.panic, globals1) => (Result.panic, ⟨globals1, w.stdout⟩)
  | Stmt.BlockStmt stmts, w =>
    -- EnterBlock: `s.env` is a copy of `globals`
    let env := w.globals
    match Stmt.RunAll lib stmts w with
    -- ExitBlock: `globals = s.env`
    | (Result.ok (), w1) => (Result.ok (), ⟨env, w1.stdout⟩)
    -- `return err` inside the loop: ExitBlock is not reached
    | (Result.error err, w1) => (Result.error err, w1)
    | (Result.panic, w1) => (Result.panic, w1)
/-- The loop `for _, stmt := range stmts` of `BlockStmt.Run` and of `Run` in
`main.go`: it stops at the first error. -/
def Stmt.RunAll (lib : Float64Lib) : List Stmt → World → Result Unit × World
  | [], w => (Result.ok (), w)
  | stmt :: rest, w =>
    match Stmt.Run lib stmt w with
    | (Result.ok (), w1) => Stmt.RunAll lib rest w1
    | (Result.error err, w1) => (Result.error err, w1)
    | (Result.panic, w1) => (Result.panic, w1)
end

/-! ## scanner.go -/

/-- The struct `Scanner`; the constant field `ReservedKws` is the function
`ReservedKws` below. -/
structure Scanner where
  Source : GoString
  Start : Nat
  Current : Nat
  Line : Nat
  Tokens : List Token
  HasErr : Bool

/-- The map `ReservedKws` built by `NewScanner`; a missing key reads as the
empty string in Go and as `none` here. -/
def ReservedKws (w : GoString) : Option TokenType :=
  List.lookup w
    [(ascii "and", TokenType.KW_AND), (ascii "class", TokenType.KW_CLASS),
     (ascii "else", TokenType.KW_ELSE), (ascii "false", TokenType.KW_FALSE),
     (ascii "true", TokenType.KW_TRUE), (ascii "for", TokenType.KW_FOR),
     (ascii "fun", TokenType.KW_FUN), (ascii "if", TokenType.KW_IF),
     (ascii "nil", TokenType.KW_NIL), (ascii "or", TokenType.KW_OR),
     (ascii "print", TokenType.KW_PRINT), (ascii "return", TokenType.KW_RETURN),
     (ascii "super", TokenType.KW_SUPER), (ascii "this", TokenType.KW_THIS),
     (ascii "var", TokenType.KW_VAR), (ascii "while", TokenType.KW_WHILE)]

/-- The function `NewScanner`. -/
def NewScanner (source : GoString) : Scanner :=
  { Source := source, Start := 0, Current := 0, Line := 1, Tokens := [],
    HasErr := false }

namespace Scanner

/-- The method `HasError`. -/
def HasError (s : Scanner) : Bool := s.HasErr

/-- The method `IsEnd`. -/
def IsEnd (s : Scanner) : Bool := decide (s.Current ≥ s.Source.length)

/-- The byte `s.Source[s.Current]`, read where `IsEnd` is false. -/
def cur (s : Scanner) : Nat := s.Source.getD s.Current 0

/-- The method `Advance`: the rune read and the scanner after it. -/
def Advance (s : Scanner) : Nat × Scanner :=
  if s.IsEnd then (0, s)
  else (s.cur, { s with Current := s.Current + 1 })

/-- The method `String`: `s.Source[s.Start : s.Current]`, defined for
`Start ≤ Current ≤ len(Source)`, which every scanner state satisfies. -/
def String (s : Scanner) : GoString :=
  (s.Source.drop s.Start).take (s.Current - s.Start)

/-- The method `AddToken`. -/
def AddToken (s : Scanner) (token_type : TokenType) : Scanner :=
  { s with Tokens := s.Tokens ++ [⟨s.Line, s.String, token_type⟩] }

/-- The method `Report`: the flag is set; the line written to the standard
error stream is not kept. -/
def Report (s : Scanner) : Scanner := { s with HasErr := true }

/-- The method `Peek`. -/
def Peek (s : Scanner) : Nat := if s.IsEnd then 0 else s.cur

/-- The method `PeekNext`. -/
def PeekNext (s : Scanner) : Nat :=
  if s.Current + 1 ≥ s.Source.length then 0 else s.Source.getD (s.Current + 1) 0

/-- The method `Match`. -/
def Match (s : Scanner) (expect : GoString) : Bool × Scanner :=
  if s.Current + expect.length > s.Source.length then (false, s)
  else if expect = (s.Source.drop s.Current).take expect.length then
    (true, { s with Current := s.Current + expect.length })
  else (false, s)

/-- The loop `for p(s.Peek()) { s.Current++ }` of `ResolveIdAndKeyword` and
`ResolveNum`, run for at most `fuel` rounds; `len(Source) - Current` rounds
are enough since `Peek` is 0 at the end of the source. -/
def skipWhile (p : Nat → Bool) : Nat → Scanner → Scanner
  | 0, s => s
  | fuel + 1, s =>
    if p s.Peek then skipWhile p fuel { s with Current := s.Current + 1 } else s

/-- The closure `isIdChar` of `ResolveIdAndKeyword`. -/
def isIdChar (ch : Nat) : Bool :=
  (ch ≥ 97 && ch ≤ 122) || (ch ≥ 65 && ch ≤ 90) || (ch ≥ 48 && ch ≤ 57) || ch == 95

/-- The closure `isDigit` of `ResolveNum`. -/
def isDigit (ch : Nat) : Bool := ch ≥ 48 && ch ≤ 57

/-- The method `ResolveIdAndKeyword`. -/
def ResolveIdAndKeyword (s : Scanner) : Scanner :=
  let s1 := skipWhile isIdChar (s.Source.length - s.Current) s
  match ReservedKws s1.String with
  | some kw => s1.AddToken kw
  | none => s1.AddToken TokenType.TK_IDENTIFIER

/-- The method `ResolveNum`. -/
def ResolveNum (s : Scanner) : Scanner :=
  let s1 := skipWhile isDigit (s.Source.length - s.Current) s
  let s2 :=
    if s1.Peek == 46 && isDigit s1.PeekNext then { s1 with Current := s1.Current + 1 }
    else s1
  let s3 := skipWhile isDigit (s2.Source.length - s2.Current) s2
  s3.AddToken TokenType.TK_NUMBER

/-- The loop of `FindChar`, run for at most `fuel` rounds: whether the byte
was found, and the scanner after the loop. -/
def findLoop (ch : Nat) : Nat → Scanner → Bool × Scanner
  | 0, s => (false, s)
  | fuel + 1, s =>
    if s.IsEnd then (false, s)
    else if s.cur = ch then (true, { s with Current := s.Current + 1 })
    else findLoop ch fuel { s with Current := s.Current + 1 }

/-- The method `FindChar`. -/
def FindChar (s : Scanner) (ch : Nat) : Bool × Scanner :=
  match findLoop ch (s.Source.length - s.Current) s with
  | (true, s1) => (true, s1)
  | (false, s1) => (false, s1.Report)

/-- The loop of `SkipOneLineComment`, run for at most `fuel` rounds. -/
def commentLoop : Nat → Scanner → Scanner
  | 0, s => s
  | fuel + 1, s =>
    if s.IsEnd then s
    else if s.cur = 10 then { s with Line := s.Line + 1, Current := s.Current + 1 }
    else commentLoop fuel { s with Current := s.Current + 1 }

/-- The method `SkipOneLineComment`. -/
def SkipOneLineComment (s : Scanner) : Scanner :=
  commentLoop (s.Source.length - s.Current) s

/-- The `if s.Match(x) { AddToken(two) } else { AddToken(one) }` of the
operators that may be followed by `=`. -/
def matchToken (s : Scanner) (expect : GoString) (two one : TokenType) : Scanner :=
  match s.Match expect with
  | (true, s1) => s1.AddToken two
  | (false, s1) => s1.AddToken one

/-- The `switch` of `ScanToken` on the rune `c` read by `Advance`, run on the
scanner left by `Advance`. -/
def scanSwitch (c : Nat) (s : Scanner) : Scanner :=
  if c = 40 then s.AddToken TokenType.TK_LEFT_PAREN          -- '('
  else if c = 41 then s.AddToken TokenType.TK_RIGHT_PAREN    -- ')'
  else if c = 123 then s.AddToken TokenType.TK_LEFT_BRACE    -- left brace
  else if c = 125 then s.AddToken TokenType.TK_RIGHT_BRACE   -- right brace
  else if c = 46 then s.AddToken TokenType.TK_DOT            -- '.'
  else if c = 43 then s.AddToken TokenType.TK_PLUS           -- '+'
  else if c = 45 then s.AddToken TokenType.TK_MINUS          -- '-'
  else if c = 42 then s.AddToken TokenType.TK_STAR           -- '*'
  else if c = 44 then s.AddToken TokenType.TK_COMMA          -- ','
  else if c = 59 then s.AddToken TokenType.TK_SEMICOLON      -- ';'
  else if c = 32 then s                                      -- ' '
  else if c = 13 then s                                      -- '\r'
  else if c = 9 then s                                       -- '\t'
  else if c = 10 then { s with Line := s.Line + 1 }          -- '\n'
  else if c = 61 then                                        -- '='
    matchToken s [61] TokenType.TK_EQUAL_EQUAL TokenType.TK_EQUAL
  else if c = 33 then                                        -- '!'
    matchToken s [61] TokenType.TK_BANG_EQUAL TokenType.TK_BANG
  else if c = 62 then                                        -- '>'
    matchToken s [61] TokenType.TK_GREATER_EQUAL TokenType.TK_GREATER
  else if c = 60 then                                        -- '<'
    matchToken s [61] TokenType.TK_LESS_EQUAL TokenType.TK_LESS
  else if c = 47 then                                        -- '/'
    match s.Match [47] with
    | (true, s1) => s1.SkipOneLineComment
    | (false, s1) => s1.AddToken TokenType.TK_SLASH
  else if c = 34 then                                        -- '"'
    match s.FindChar 34 with
    | (true, s1) => s1.AddToken TokenType.TK_STRING
    | (false, s1) => s1
  else if c ≥ 48 ∧ c ≤ 57 then s.ResolveNum
  else if (c ≥ 97 ∧ c ≤ 122) ∨ (c ≥ 65 ∧ c ≤ 90) ∨ c = 95 then s.ResolveIdAndKeyword
  else s.Report

/-- The method `ScanToken`: `var c = s.Advance()`, then the `switch`. -/
def ScanToken (s : Scanner) : Scanner := scanSwitch s.Advance.1 s.Advance.2

/-- The loop `for !s.IsEnd() { s.Start = s.Current; s.ScanToken() }` of
`ScanTokens`, run for at most `fuel` rounds; `none` when the rounds run out
before the end of the source is reached. -/
def scanLoop : Nat → Scanner → Option Scanner
  | 0, s => if s.IsEnd then some s else none
  | fuel + 1, s =>
    if s.IsEnd then some s
    else scanLoop fuel (ScanToken { s with Start := s.Current })

/-- The method `ScanTokens`: the scanner after the call, whose field
`Tokens` is the slice returned. One round per byte of the source is granted
to the loop. -/
def ScanTokens (s : Scanner) : Option Scanner :=
  match scanLoop (s.Source.length - s.Current) s with
  | some s1 => some (AddToken { s1 with Start := s1.Current } TokenType.TK_EOF)
  | none => none

end Scanner

/-! ## parser.go -/

/-- The struct `Parser`. -/
structure Parser where
  Tokens : List Token
  Current : Nat
deriving DecidableEq

/-- The function `NewParser`. -/
def NewParser (tokens : List Token) : Parser := { Tokens := tokens, Current := 0 }

/-- Outcome of a recursive parser method run with a bound on the depth of
calls: `none` when the bound is reached, otherwise what the method returns
and the parser after the call. -/
abbrev PRes (α : Type) := Option (Result α × Parser)

/-- Sequencing: `f` runs on the value of a call that returned no error; an
error or a panic ends the method. -/
def andThen {α β : Type} (r : Result α × Parser) (f : α → Parser → PRes β) : PRes β :=
  match r with
  | (Result.ok a, p) => f a p
  | (Result.error e, p) => some (Result.error e, p)
  | (Result.panic, p) => some (Result.panic, p)

/-- Sequencing after a recursive call. -/
def PRes.andThen {α β : Type} (r : PRes α) (f : α → Parser → PRes β) : PRes β :=
  match r with
  | some x => Golox.andThen x f
  | none => none

namespace Parser

/-- The method `Peek`: `&p.Tokens[p.Current]`, `none` where the index is out
of range. -/
def Peek (p : Parser) : Option Token := p.Tokens.get? p.Current

/-- The method `IsEnd`. -/
def IsEnd (p : Parser) : Bool :=
  decide (p.Current ≥ p.Tokens.length) ||
    (match p.Peek with
     | some t => decide (t.Typ = TokenType.TK_EOF)
     | none => false)

/-- The method `Check`. -/
def Check (p : Parser) (token_type : TokenType) : Result Bool :=
  if p.IsEnd then Result.ok (decide (token_type = TokenType.TK_EOF))
  else
    match p.Peek with
    | some t => Result.ok (decide (t.Typ = token_type))
    | none => Result.panic

/-- The method `Advance`. -/
def Advance (p : Parser) : Result Token × Parser :=
  if p.IsEnd then
    match p.Tokens.getLast? with
    | some t => (Result.ok t, p)
    | none => (Result.panic, p)
  else
    match p.Peek with
    | some t => (Result.ok t, { p with Current := p.Current + 1 })
    | none => (Result.panic, p)

/-- The method `MatchAny`. -/
def MatchAny (p : Parser) : List TokenType → Result Bool × Parser
  | [] => (Result.ok false, p)
  | typ :: token_types =>
    match p.Check typ with
    | Result.ok true =>
      match p.Advance with
      | (Result.ok _, p1) => (Result.ok true, p1)
      | (Result.error e, p1) => (Result.error e, p1)
      | (Result.panic, p1) => (Result.panic, p1)
    | Result.ok false => MatchAny p token_types
    | Result.error e => (Result.error e, p)
    | Result.panic => (Result.panic, p)

/-- The method `Previous`: `&p.Tokens[p.Current-1]`. -/
def Previous (p : Parser) : Result Token × Parser :=
  if p.Current = 0 then (Result.panic, p)
  else
    match p.Tokens.get? (p.Current - 1) with
    | some t => (Result.ok t, p)
    | none => (Result.panic, p)

/-- The method `Expect`. -/
def Expect (p : Parser) (tk : TokenType) (msg : String) : Result Token × Parser :=
  match p.Check tk with
  | Result.ok true => p.Advance
  | Result.ok false => (Result.error (Error.Expected msg), p)
  | Result.error e => (Result.error e, p)
  | Result.panic => (Result.panic, p)

/-- The loop `for p.MatchAny(types...) { optr := p.Previous(); right, err :=
operand(); expr = BinaryExpr{...} }` shared by `ParseEquality`,
`ParseComparsion`, `ParseTerm` and `ParseFactor`. -/
def binaryLoop (types : List TokenType) (operand : Parser → PRes Expr) :
    Nat → Expr → Parser → PRes Expr
  | 0, _, _ => none
  | fuel + 1, expr, p =>
    andThen (p.MatchAny types) fun matched p1 =>
      if matched then
        andThen p1.Previous fun optr p2 =>
          (operand p2).andThen fun right p3 =>
            binaryLoop types operand fuel (Expr.BinaryExpr expr right optr) p3
      else some (Result.ok expr, p1)

mutual
/-- The method `ParseExpression`. -/
def ParseExpression : Nat → Parser → PRes Expr
  | 0, _ => none
  | fuel + 1, p => ParseAssignment fuel p
/-- The method `ParseAssignment`. -/
def ParseAssignment : Nat → Parser → PRes Expr
  | 0, _ => none
  | fuel + 1, p =>
    (ParseEquality fuel p).andThen fun expr p1 =>
      andThen (p1.MatchAny [TokenType.TK_EQUAL]) fun matched p2 =>
        if matched then
          (ParseAssignment fuel p2).andThen fun val p3 =>
            match expr with
            | Expr.VarExpr token => some (Result.ok (Expr.AssignmentExpr token val), p3)
            | _ => some (Result.error Error.InvalidAssignment, p3)
        else some (Result.ok expr, p2)
/-- The method `ParseEquality`. -/
def ParseEquality : Nat → Parser → PRes Expr
  | 0, _ => none
  | fuel + 1, p =>
    (ParseComparsion fuel p).andThen fun expr p1 =>
      binaryLoop [TokenType.TK_EQUAL_EQUAL, TokenType.TK_BANG_EQUAL]
        (ParseComparsion fuel) fuel expr p1
/-- The method `ParseComparsion`. -/
def ParseComparsion : Nat → Parser → PRes Expr
  | 0, _ => none
  | fuel + 1, p =>
    (ParseTerm fuel p).andThen fun expr p1 =>
      binaryLoop [TokenType.TK_GREATER, TokenType.TK_GREATER_EQUAL,
          TokenType.TK_LESS, TokenType.TK_LESS_EQUAL]
        (ParseTerm fuel) fuel expr p1
/-- The method `ParseTerm`. -/
def ParseTerm : Nat → Parser → PRes Expr
  | 0, _ => none
  | fuel + 1, p =>
    (ParseFactor fuel p).andThen fun expr p1 =>
      binaryLoop [TokenType.TK_MINUS, TokenType.TK_PLUS] (ParseFactor fuel) fuel expr p1
/-- The method `ParseFactor`. -/
def ParseFactor : Nat → Parser → PRes Expr
  | 0, _ => none
  | fuel + 1, p =>
    (ParseUnary fuel p).andThen fun expr p1 =>
      binaryLoop [TokenType.TK_STAR, TokenType.TK_SLASH] (ParseUnary fuel) fuel expr p1
/-- The method `ParseUnary`. -/
def ParseUnary : Nat → Parser → PRes Expr
  | 0, _ => none
  | fuel + 1, p =>
    andThen (p.MatchAny [TokenType.TK_BANG, TokenType.TK_MINUS]) fun matched p1 =>
      if matched then
        andThen p1.Previous fun optr p2 =>
          (ParseUnary fuel p2).andThen fun expr p3 =>
            some (Result.ok (Expr.UnaryExpr expr optr), p3)
      else ParsePrimary fuel p1
/-- The method `ParsePrimary`. -/
def ParsePrimary : Nat → Parser → PRes Expr
  | 0, _ => none
  | fuel + 1, p =>
    andThen (p.MatchAny [TokenType.TK_NUMBER, TokenType.TK_STRING, TokenType.KW_TRUE,
        TokenType.KW_FALSE, TokenType.KW_NIL]) fun isLiteral p1 =>
      if isLiteral then
        andThen p1.Previous fun token p2 => some (Result.ok (Expr.LiteralExpr token), p2)
      else
        andThen (p1.MatchAny [TokenType.TK_LEFT_PAREN]) fun isParen p2 =>
          if isParen then
            (ParseExpression fuel p2).andThen fun expr p3 =>
              andThen (p3.MatchAny [TokenType.TK_RIGHT_PAREN]) fun closed p4 =>
                if closed then some (Result.ok (Expr.GroupExpr expr), p4)
                else some (Result.error Error.UnmatchedParen, p4)
          else
            andThen (p2.MatchAny [TokenType.TK_IDENTIFIER]) fun isIdent p3 =>
              if isIdent then
                andThen p3.Previous fun token p4 => some (Result.ok (Expr.VarExpr token), p4)
              else
                match p3.Peek with
                | some t => some (Result.error (Error.ExpectExpression t.Line t.Lexeme), p3)
                | none => some (Result.panic, p3)
end

/-- The method `ParsePrintStatement`. -/
def ParsePrintStatement (fuel : Nat) (p : Parser) : PRes Stmt :=
  (ParseExpression fuel p).andThen fun expr p1 =>
    andThen (p1.Expect TokenType.TK_SEMICOLON "Expect ';' after value.") fun _ p2 =>
      some (Result.ok (Stmt.PrintStmt expr), p2)

/-- The method `ParseExpressionStatement`. -/
def ParseExpressionStatement (fuel : Nat) (p : Parser) : PRes Stmt :=
  (ParseExpression fuel p).andThen fun expr p1 =>
    andThen (p1.Expect TokenType.TK_SEMICOLON "Expect ';' after expression.") fun _ p2 =>
      some (Result.ok (Stmt.ExprStmt expr), p2)

/-- The method `ParseVarStatement`. -/
def ParseVarStatement (fuel : Nat) (p : Parser) : PRes Stmt :=
  andThen (p.Expect TokenType.TK_IDENTIFIER "Expect an Identifier") fun tk p1 =>
    andThen (p1.MatchAny [TokenType.TK_EQUAL]) fun matched p2 =>
      if matched then
        (ParseExpression fuel p2).andThen fun expr p3 =>
          andThen (p3.Expect TokenType.TK_SEMICOLON "Expect ';' after expression") fun _ p4 =>
            some (Result.ok (Stmt.VarStmt (some expr) tk), p4)
      else
        andThen (p2.Expect TokenType.TK_SEMICOLON "Expect ';' after expression") fun _ p3 =>
          some (Result.ok (Stmt.VarStmt none tk), p3)

mutual
/-- The method `ParseStatement`. -/
def ParseStatement : Nat → Parser → PRes Stmt
  | 0, _ => none
  | fuel + 1, p =>
    andThen (p.MatchAny [TokenType.KW_PRINT, TokenType.KW_VAR, TokenType.TK_LEFT_BRACE])
      fun matched p1 =>
        if matched then
          andThen p1.Previous fun prev p2 =>
            match prev.Typ with
            | TokenType.KW_PRINT => ParsePrintStatement fuel p2
            | TokenType.KW_VAR => ParseVarStatement fuel p2
            | TokenType.TK_LEFT_BRACE => ParseBlock fuel p2
            | _ => ParseExpressionStatement fuel p2
        else ParseExpressionStatement fuel p1
/-- The method `ParseBlock`. -/
def ParseBlock : Nat → Parser → PRes Stmt
  | 0, _ => none
  | fuel + 1, p =>
    (blockLoop fuel [] p).andThen fun stmts p1 =>
      andThen (p1.Expect TokenType.TK_RIGHT_BRACE "Expect '\x7d' after block.") fun _ p2 =>
        some (Result.ok (Stmt.BlockStmt stmts), p2)
/-- The loop `for !p.IsEnd() && !p.Check(TK_RIGHT_BRACE)` of `ParseBlock`. -/
def blockLoop : Nat → List Stmt → Parser → PRes (List Stmt)
  | 0, _, _ => none
  | fuel + 1, stmts, p =>
    if p.IsEnd then some (Result.ok stmts, p)
    else
      andThen (p.Check TokenType.TK_RIGHT_BRACE, p) fun atBrace p1 =>
        if atBrace then some (Result.ok stmts, p1)
        else
          (ParseStatement fuel p1).andThen fun stmt p2 =>
            blockLoop fuel (stmts ++ [stmt]) p2
end

/-- The method `Parse`; `fuel` bounds the rounds of its loop and the depth
of calls below it. -/
def Parse : Nat → List Stmt → Parser → PRes (List Stmt)
  | 0, _, _ => none
  | fuel + 1, stmts, p =>
    if p.IsEnd then some (Result.ok stmts, p)
    else
      (ParseStatement fuel p).andThen fun stmt p1 => Parse fuel (stmts ++ [stmt]) p1

/-- The depth of calls granted to the parser on a token slice. -/
def budget (tokens : List Token) : Nat := 16 * tokens.length + 16

end Parser

/-! ## main.go -/

/-- The scanning and parsing steps of `Parse` and `Evaluate` in `main.go`:
`NewScanner`, `ScanTokens`, `NewParser`, `ParseExpression`. -/
def parseSource (source : GoString) : PRes Expr :=
  match (NewScanner source).ScanTokens with
  | some s => Parser.ParseExpression (Parser.budget s.Tokens) (NewParser s.Tokens)
  | none => none

/-- The scanning and parsing steps of `Run` in `main.go`. -/
def parseProgram (source : GoString) : PRes (List Stmt) :=
  match (NewScanner source).ScanTokens with
  | some s => Parser.Parse (Parser.budget s.Tokens) [] (NewParser s.Tokens)
  | none => none

/-- The function `Run` of `main.go` from the source text on: scanning,
parsing, and the loop over the statements, started with `globals` empty. A
syntax error ends it before any statement runs. -/
def runSource (lib : Float64Lib) (source : GoString) : Option (Result Unit × World) :=
  match parseProgram source with
  | some (Result.ok stmts, _) => some (Stmt.RunAll lib stmts ⟨Env.empty, []⟩)
  | some (Result.error err, _) => some (Result.error err, ⟨Env.empty, []⟩)
  | some (Result.panic, _) => some (Result.panic, ⟨Env.empty, []⟩)
  | none => none

/-! ## A small `Float64Lib` for running examples -/

namespace F64

/-- The quiet NaN `0x7FF8000000000000`. -/
def nan : F64 := ⟨false, 2047, 2251799813685248⟩

/-- Positive infinity `0x7FF0000000000000`. -/
def inf : F64 := ⟨false, 2047, 0⟩

/-- Position of the highest set bit of `n`, for `n` below `2 ^ fuel`. -/
def topBit : Nat → Nat → Nat
  | 0, _ => 0
  | fuel + 1, n => if n ≤ 1 then 0 else topBit fuel (n / 2) + 1

/-- The binary64 value of a natural number below `2 ^ 53` (exact). -/
def ofNat (n : Nat) : F64 :=
  if n = 0 then zero
  else
    ⟨false, Fin.ofNat (1023 + topBit 64 n),
      Fin.ofNat (n * 2 ^ (52 - topBit 64 n) - 4503599627370496)⟩

/-- The natural number a bit pattern stands for, when it is one. -/
def toNat? (x : F64) : Option Nat :=
  if x.sign then none
  else if x.expo.val = 0 ∧ x.frac.val = 0 then some 0
  else if 1023 ≤ x.expo.val ∧ x.expo.val ≤ 1075 then
    if (4503599627370496 + x.frac.val) % 2 ^ (1075 - x.expo.val) = 0 then
      some ((4503599627370496 + x.frac.val) / 2 ^ (1075 - x.expo.val))
    else none
  else none

end F64

/-- The number written by a string of decimal digits; `none` for the empty
string and for a string with another byte. -/
def decimal? (s : GoString) : Option Nat :=
  if s = [] ∨ ¬ s.all (fun c => decide (48 ≤ c ∧ c ≤ 57)) then none
  else some (s.foldl (fun acc c => 10 * acc + (c - 48)) 0)

/-- Decimal digits of a natural number below `10 ^ fuel`, most significant
first, in front of `acc`. -/
def digitsAux : Nat → Nat → GoString → GoString
  | 0, _, acc => acc
  | fuel + 1, n, acc =>
    if n < 10 then (48 + n) :: acc else digitsAux fuel (n / 10) ((48 + n % 10) :: acc)

/-- Decimal digits of a natural number below `10 ^ 20`. -/
def digits (n : Nat) : GoString := digitsAux 20 n []

/-- The digits without the zeros at their end. -/
def stripZeros (ds : GoString) : GoString :=
  (ds.reverse.dropWhile (fun c => c == 48)).reverse

/-- The verb `%v` on the `float64` of a natural number below `2 ^ 53`: the
digits below `10 ^ 6`, and from there on the shortest digits in exponent form
with an exponent of two digits, as in `1e+06` and `1.234567e+06`. -/
def fmtNatV (n : Nat) : GoString :=
  if (digits n).length ≤ 6 then digits n
  else
    match stripZeros (digits n) with
    | [] => digits n
    | d :: rest =>
      (if rest = [] then [d] else d :: 46 :: rest) ++ ascii "e+" ++
        (if (digits n).length - 1 < 10 then [48, 48 + ((digits n).length - 1)]
         else digits ((digits n).length - 1))

/-- An instance of `Float64Lib` covering the natural numbers below `2 ^ 53`
only: literals that are digit strings, and sums, differences, products and
quotients of such numbers when the result is again one of them; such a
number divided by zero gives positive infinity, or NaN for `0 / 0`.
Everywhere else its fields do not follow Go: `ParseFloat` reports an error
with the value 0, and the other fields return NaN. -/
def natLib : Float64Lib where
  ParseFloat s :=
    match decimal? s with
    | some n => if n < 9007199254740992 then (F64.ofNat n, false) else (F64.zero, true)
    | none => (F64.zero, true)
  add a b :=
    match a.toNat?, b.toNat? with
    | some x, some y => if x + y < 9007199254740992 then F64.ofNat (x + y) else F64.nan
    | _, _ => F64.nan
  sub a b :=
    match a.toNat?, b.toNat? with
    | some x, some y => if y ≤ x then F64.ofNat (x - y) else F64.nan
    | _, _ => F64.nan
  mul a b :=
    match a.toNat?, b.toNat? with
    | some x, some y => if x * y < 9007199254740992 then F64.ofNat (x * y) else F64.nan
    | _, _ => F64.nan
  div a b :=
    match a.toNat?, b.toNat? with
    | some x, some y =>
      if y = 0 then (if x = 0 then F64.nan else F64.inf)
      else if x % y = 0 then F64.ofNat (x / y) else F64.nan
    | _, _ => F64.nan
  fmtV x :=
    match x.toNat? with
    | some n => fmtNatV n
    | none => ascii "NaN"
  fmtF1 x :=
    match x.toNat? with
    | some n => digits n ++ ascii ".0"
    | none => ascii "NaN"
  truncInt x :=
    match x.toNat? with
    | some n => F64.ofNat n
    | none => F64.nan

/-! ## Tokens and expressions used in examples -/

/-- A token on line 1 with the given type and ASCII lexeme. -/
def tok (typ : TokenType) (lexeme : String) : Token := ⟨1, ascii lexeme, typ⟩

/-- The literal `1`. -/
def litOne : Expr := Expr.LiteralExpr (tok TokenType.TK_NUMBER "1")

/-- A string literal with the given text between the quotes. -/
def litStr (text : String) : Expr :=
  Expr.LiteralExpr ⟨1, [34] ++ ascii text ++ [34], TokenType.TK_STRING⟩

/-- An identifier token. -/
def ident (name : String) : Token := tok TokenType.TK_IDENTIFIER name

/-- The environment in which `a` is bound to Nil and nothing else is bound,
as after `var a;`. -/
def envA : Env := Env.empty.set (ascii "a") NilValue

/-- Whether an `AssignmentExpr` node occurs in the tree. -/
def Expr.hasAssignment : Expr → Bool
  | Expr.VarExpr _ => false
  | Expr.AssignmentExpr _ _ => true
  | Expr.LiteralExpr _ => false
  | Expr.GroupExpr expr => expr.hasAssignment
  | Expr.UnaryExpr expr _ => expr.hasAssignment
  | Expr.BinaryExpr left right _ => left.hasAssignment || right.hasAssignment

/-- The scanner `s1` is a later state of the scanner `s0`: same source, the
cursor not moved back and still inside the source, and tokens appended to
`Tokens`, none of them of type EOF. -/
def Scanner.Extends (s0 s1 : Scanner) : Prop :=
  s1.Source = s0.Source ∧ s0.Current ≤ s1.Current ∧
    (s0.Current ≤ s0.Source.length → s1.Current ≤ s0.Source.length) ∧
    ∃ new, s1.Tokens = s0.Tokens ++ new ∧ ∀ t ∈ new, t.Typ ≠ TokenType.TK_EOF

/-- Trees of the keyword literals `true`, `false`, `nil` under the unary
operators `!` and `-`, with the token types and lexemes the scanner gives
them. -/
def Expr.keywordUnary : Expr → Bool
  | Expr.LiteralExpr t =>
    decide ((t.Typ = TokenType.KW_TRUE ∧ t.Lexeme = ascii "true") ∨
      (t.Typ = TokenType.KW_FALSE ∧ t.Lexeme = ascii "false") ∨
      (t.Typ = TokenType.KW_NIL ∧ t.Lexeme = ascii "nil"))
  | Expr.UnaryExpr e t =>
    decide ((t.Typ = TokenType.TK_BANG ∧ t.Lexeme = [33]) ∨
      (t.Typ = TokenType.TK_MINUS ∧ t.Lexeme = [45])) && e.keywordUnary
  | _ => false

/-- The tree without its `GroupExpr` nodes and with every token on line 0:
what two trees share when they differ in parentheses and positions only. -/
def Expr.skeleton : Expr → Expr
  | Expr.VarExpr t => Expr.VarExpr { t with Line := 0 }
  | Expr.AssignmentExpr t e => Expr.AssignmentExpr { t with Line := 0 } e.skeleton
  | Expr.LiteralExpr t => Expr.LiteralExpr { t with Line := 0 }
  | Expr.GroupExpr e => e.skeleton
  | Expr.UnaryExpr e t => Expr.UnaryExpr e.skeleton { t with Line := 0 }
  | Expr.BinaryExpr l r t => Expr.BinaryExpr l.skeleton r.skeleton { t with Line := 0 }

/-- The text `String` gives for a tree of keyword literals and unary
operators: the keyword, or `(op operand)`. -/
def Expr.prefixText : Expr → GoString
  | Expr.LiteralExpr t => t.Lexeme
  | Expr.UnaryExpr e t => [40] ++ t.Lexeme ++ [32] ++ e.prefixText ++ [41]
  | _ => []

/-- The tokens of `prefixText`, all on one line. -/
def Expr.prefixTokens (line : Nat) : Expr → List Token
  | Expr.LiteralExpr t => [⟨line, t.Lexeme, t.Typ⟩]
  | Expr.UnaryExpr e t =>
    [⟨line, [40], TokenType.TK_LEFT_PAREN⟩, ⟨line, t.Lexeme, t.Typ⟩] ++
      e.prefixTokens line ++ [⟨line, [41], TokenType.TK_RIGHT_PAREN⟩]
  | _ => []

/-- The tree the parser builds from `prefixTokens`: every unary node inside a
grouping. -/
def Expr.regrouped (line : Nat) : Expr → Expr
  | Expr.UnaryExpr e t => Expr.GroupExpr (Expr.UnaryExpr (e.regrouped line) ⟨line, t.Lexeme, t.Typ⟩)
  | Expr.LiteralExpr t => Expr.LiteralExpr ⟨line, t.Lexeme, t.Typ⟩
  | e => e

/-- A depth of calls at which `ParseUnary` parses `prefixTokens`. -/
def Expr.prefixFuel : Expr → Nat
  | Expr.UnaryExpr e _ => e.prefixFuel + 9
  | _ => 2

/-- The scanner `s1` is `s` after `k` rounds of the loop of `ScanTokens`, in
which `n` bytes were read and the tokens `toks` appended, with the line and the
error flag as before. -/
def Scanner.Scans (s : Scanner) (k n : Nat) (toks : List Token) (s1 : Scanner) : Prop :=
  (∀ m, Scanner.scanLoop (m + k) s = Scanner.scanLoop m s1) ∧ s1.Source = s.Source ∧
    s1.Current = s.Current + n ∧ s1.Tokens = s.Tokens ++ toks ∧ s1.Line = s.Line ∧
    s1.HasErr = s.HasErr

/-- Decimal digits of a natural number: the verb `%d`. -/
def decimalText (n : Nat) : GoString := digitsAux (n + 1) n []

/-- The text of an error: the format string of its `fmt.Errorf` call with the
arguments filled in. -/
def Error.text (lib : Float64Lib) : Error → GoString
  | Error.UndefinedVariable name => ascii "Undefined variable '" ++ name ++ ascii "'."
  | Error.UnknownUnary lexeme => ascii "Unknown unary operator: " ++ lexeme
  | Error.UnknownBinary lexeme => ascii "Unknown binary operator: " ++ lexeme
  | Error.UnmatchFunctors => ascii "Unmatch functors"
  | Error.CantConvert v => ascii "can't convert '" ++ v.String lib ++ ascii "'"
  | Error.ExpectLiteral => ascii "Expect a literal type"
  | Error.Expected msg => ascii msg
  | Error.InvalidAssignment => ascii "Invalid assignment expression."
  | Error.UnmatchedParen => ascii "Error: unmatched parenthesis"
  | Error.ExpectExpression line lexeme =>
    ascii "[line " ++ decimalText line ++ ascii "] Error at '" ++ lexeme ++
      ascii "': Expect expression"

/-- The text of the error a parser call returned, `none` when it returned no
error. -/
def errorText {α : Type} (lib : Float64Lib) : PRes α → Option GoString
  | some (Result.error err, _) => some (err.text lib)
  | _ => none

/-- A lexeme of the shape digits, or digits `.` digits. -/
def isNumberLexeme (l : GoString) : Prop :=
  ∃ d e : GoString, d ≠ [] ∧ (∀ x ∈ d, Scanner.isDigit x = true) ∧
    (∀ x ∈ e, Scanner.isDigit x = true) ∧ (l = d ∨ (e ≠ [] ∧ l = d ++ 46 :: e))

/-- The fraction `ResolveNum` reads where the digits of a number stop: a `.`
and the digits after it when a digit follows the `.`, nothing otherwise. -/
def fractionPart : GoString → GoString
  | 46 :: x :: xs =>
    if Scanner.isDigit x then 46 :: (x :: xs).takeWhile Scanner.isDigit else []
  | _ => []

/-- What `ResolveNum` reads after the first digit, given the rest of the
source: the digits that follow, and the fraction after them. -/
def numberTail (rest : GoString) : GoString :=
  rest.takeWhile Scanner.isDigit ++ fractionPart (rest.dropWhile Scanner.isDigit)

/-- The scanner `s1` has the tokens of `s0` and after them tokens that all
satisfy `P`. -/
def Scanner.Adds (P : Token → Prop) (s0 s1 : Scanner) : Prop :=
  ∃ new, s1.Tokens = s0.Tokens ++ new ∧ ∀ t ∈ new, P t

/-- The precedence level of a binary operator, by the method whose loop reads
it: 4 for `ParseFactor`, 3 for `ParseTerm`, 2 for `ParseComparsion`, 1 for
`ParseEquality`. -/
def binaryLevel : TokenType → Option Nat
  | TokenType.TK_STAR => some 4
  | TokenType.TK_SLASH => some 4
  | TokenType.TK_MINUS => some 3
  | TokenType.TK_PLUS => some 3
  | TokenType.TK_GREATER => some 2
  | TokenType.TK_GREATER_EQUAL => some 2
  | TokenType.TK_LESS => some 2
  | TokenType.TK_LESS_EQUAL => some 2
  | TokenType.TK_EQUAL_EQUAL => some 1
  | TokenType.TK_BANG_EQUAL => some 1
  | _ => none

/-- The operator types passed to `MatchAny` by the loop of each level. -/
def levelOps : Nat → List TokenType
  | 1 => [TokenType.TK_EQUAL_EQUAL, TokenType.TK_BANG_EQUAL]
  | 2 => [TokenType.TK_GREATER, TokenType.TK_GREATER_EQUAL, TokenType.TK_LESS,
      TokenType.TK_LESS_EQUAL]
  | 3 => [TokenType.TK_MINUS, TokenType.TK_PLUS]
  | 4 => [TokenType.TK_STAR, TokenType.TK_SLASH]
  | _ => []

/-- The method of each level, with the depth of calls at which it reaches
`ParsePrimary` at depth `u`: level 5 is `ParseUnary`. -/
def levelParser (u : Nat) : Nat → Parser → PRes Expr
  | 1 => Parser.ParseEquality (u + 5)
  | 2 => Parser.ParseComparsion (u + 4)
  | 3 => Parser.ParseTerm (u + 3)
  | 4 => Parser.ParseFactor (u + 2)
  | _ => Parser.ParseUnary (u + 1)

/-- The tokens of `1 + 2 * 3`. -/
def sumOfProductTokens : List Token :=
  [tok TokenType.TK_NUMBER "1", tok TokenType.TK_PLUS "+", tok TokenType.TK_NUMBER "2",
    tok TokenType.TK_STAR "*", tok TokenType.TK_NUMBER "3", tok TokenType.TK_EOF ""]

/-- The tokens of `1 - 2 - 3`. -/
def differenceTokens : List Token :=
  [tok TokenType.TK_NUMBER "1", tok TokenType.TK_MINUS "-", tok TokenType.TK_NUMBER "2",
    tok TokenType.TK_MINUS "-", tok TokenType.TK_NUMBER "3", tok TokenType.TK_EOF ""]

/-- The scanner `s` with the text `q` added at the end of its source. -/
def Scanner.withTail (s : Scanner) (q : GoString) : Scanner :=
  { s with Source := s.Source ++ q }

/-- The round of the loop of `ScanTokens` that starts at the cursor ends with
the source, inside a string or a comment: the cursor is at a `"` that no `"`
follows, or at `//` that no line feed follows. -/
def Scanner.roundOpen (s : Scanner) : Bool :=
  (s.cur == 34 && decide (34 ∉ s.Source.drop (s.Current + 1))) ||
    (s.cur == 47 && decide ((s.Source.drop (s.Current + 1)).take 1 = [47]) &&
      decide (10 ∉ s.Source.drop (s.Current + 2)))

/-- Some round of the loop of `ScanTokens`, run from `s` for at most `fuel`
rounds, ends inside a string or a comment. -/
def Scanner.endsOpen : Nat → Scanner → Bool
  | 0, _ => false
  | fuel + 1, s =>
    if s.IsEnd then false
    else if s.roundOpen then true
    else Scanner.endsOpen fuel (Scanner.ScanToken { s with Start := s.Current })

/-- The shape of the lexeme of a string literal: a `"`, bytes other than
`"`, and a `"`. -/
def isStringLexeme (l : GoString) : Prop :=
  ∃ r : GoString, 34 ∉ r ∧ l = 34 :: (r ++ [34])

/-- What one round of the loop of `ScanTokens` does, as read off the text
from the cursor on: the number of bytes read, the number of line feeds
counted, the type of the token added, if any, and whether an error is
reported. -/
structure Round where
  size : Nat
  lines : Nat
  typ : Option TokenType
  err : Bool

/-- The round of an operator that may be followed by `=`, by the text after
the operator. -/
def Round.matchRound (rest : GoString) (two one : TokenType) : Round :=
  if rest.take 1 = [61] then ⟨2, 0, some two, false⟩ else ⟨1, 0, some one, false⟩

/-- The round of a `/`, by the text after it: a comment up to and with its
line feed or up to the end of the text, or the token SLASH. -/
def Round.slashRound (rest : GoString) : Round :=
  if rest.take 1 = [47] then
    if 10 ∈ rest.drop 1 then
      ⟨2 + (((rest.drop 1).takeWhile (fun x => x != 10)).length + 1), 1, none, false⟩
    else ⟨2 + (rest.drop 1).length, 0, none, false⟩
  else ⟨1, 0, some TokenType.TK_SLASH, false⟩

/-- The round of a `"`, by the text after it: a string literal up to and
with the next `"`, or an error when there is none. -/
def Round.quoteRound (rest : GoString) : Round :=
  if 34 ∈ rest then
    ⟨1 + ((rest.takeWhile (fun x => x != 34)).length + 1), 0, some TokenType.TK_STRING, false⟩
  else ⟨1 + rest.length, 0, none, true⟩

/-- The round of a letter or underscore `c`, by the text after it. -/
def Round.wordRound (c : Nat) (rest : GoString) : Round :=
  ⟨1 + (rest.takeWhile Scanner.isIdChar).length, 0,
    some (match ReservedKws (c :: rest.takeWhile Scanner.isIdChar) with
      | some kw => kw
      | none => TokenType.TK_IDENTIFIER), false⟩

/-- The round that starts at the byte `c` followed by the text `rest`: the
`switch` of `ScanToken`, case by case. -/
def Scanner.roundOf (c : Nat) (rest : GoString) : Round :=
  if c = 40 then ⟨1, 0, some TokenType.TK_LEFT_PAREN, false⟩
  else if c = 41 then ⟨1, 0, some TokenType.TK_RIGHT_PAREN, false⟩
  else if c = 123 then ⟨1, 0, some TokenType.TK_LEFT_BRACE, false⟩
  else if c = 125 then ⟨1, 0, some TokenType.TK_RIGHT_BRACE, false⟩
  else if c = 46 then ⟨1, 0, some TokenType.TK_DOT, false⟩
  else if c = 43 then ⟨1, 0, some TokenType.TK_PLUS, false⟩
  else if c = 45 then ⟨1, 0, some TokenType.TK_MINUS, false⟩
  else if c = 42 then ⟨1, 0, some TokenType.TK_STAR, false⟩
  else if c = 44 then ⟨1, 0, some TokenType.TK_COMMA, false⟩
  else if c = 59 then ⟨1, 0, some TokenType.TK_SEMICOLON, false⟩
  else if c = 32 then ⟨1, 0, none, false⟩
  else if c = 13 then ⟨1, 0, none, false⟩
  else if c = 9 then ⟨1, 0, none, false⟩
  else if c = 10 then ⟨1, 1, none, false⟩
  else if c = 61 then
    Round.matchRound rest TokenType.TK_EQUAL_EQUAL TokenType.TK_EQUAL
  else if c = 33 then
    Round.matchRound rest TokenType.TK_BANG_EQUAL TokenType.TK_BANG
  else if c = 62 then
    Round.matchRound rest TokenType.TK_GREATER_EQUAL TokenType.TK_GREATER
  else if c = 60 then
    Round.matchRound rest TokenType.TK_LESS_EQUAL TokenType.TK_LESS
  else if c = 47 then Round.slashRound rest
  else if c = 34 then Round.quoteRound rest
  else if c ≥ 48 ∧ c ≤ 57 then ⟨1 + (numberTail rest).length, 0, some TokenType.TK_NUMBER, false⟩
  else if (c ≥ 97 ∧ c ≤ 122) ∨ (c ≥ 65 ∧ c ≤ 90) ∨ c = 95 then Round.wordRound c rest
  else ⟨1, 0, none, true⟩

/-- The scanner after a round `r` that starts at the cursor of `s`: the
lexeme of the token added is the text read. -/
def Scanner.applyRound (s : Scanner) (r : Round) : Scanner :=
  { s with
    Start := s.Current
    Current := s.Current + r.size
    Line := s.Line + r.lines
    Tokens :=
      match r.typ with
      | some typ => s.Tokens ++ [⟨s.Line, (s.Source.drop s.Current).take r.size, typ⟩]
      | none => s.Tokens
    HasErr := r.err || s.HasErr }

/-- A byte that starts no lexeme: the `default` case of the `switch` of
`ScanToken`. -/
def startsNoLexeme (c : Nat) : Bool :=
  !(decide (c ∈ [40, 41, 123, 125, 46, 43, 45, 42, 44, 59, 32, 13, 9, 10, 61, 33, 62, 60, 47, 34])
    || decide (48 ≤ c ∧ c ≤ 57) || decide (97 ≤ c ∧ c ≤ 122) || decide (65 ≤ c ∧ c ≤ 90)
    || decide (c = 95))

/-- The scanners `s1` and `s2` agree in `Start`, `Current`, `Line` and
`Tokens`: in all but the source text and the error flag. -/
def Scanner.SameScan (s1 s2 : Scanner) : Prop :=
  s2.Start = s1.Start ∧ s2.Current = s1.Current ∧ s2.Line = s1.Line ∧ s2.Tokens = s1.Tokens

/-- The last token of the slice has type EOF, as in every slice that
`ScanTokens` returns. -/
def endsWithEOF (tokens : List Token) : Prop :=
  ∃ t, tokens.get? (tokens.length - 1) = some t ∧ t.Typ = TokenType.TK_EOF

/-- The parser is on the slice `tokens` with its cursor at an index of the
slice. -/
def Parser.InRange (tokens : List Token) (p : Parser) : Prop :=
  p.Tokens = tokens ∧ p.Current < tokens.length

/-- A parser call started with the cursor at `c` returned without panic: no
index was out of range. The parser it leaves is on the same slice with its
cursor at an index of the slice, not before `c`, and at least `k` tokens after
`c` when the call returned no error. -/
def Parser.safeStep {α : Type} (tokens : List Token) (k c : Nat)
    (x : Result α × Parser) : Prop :=
  x.1 ≠ Result.panic ∧ Parser.InRange tokens x.2 ∧ c ≤ x.2.Current ∧
    ∀ v, x.1 = Result.ok v → c + k ≤ x.2.Current

/-- A recursive parser method started with the cursor at `c` returned within
the depth of calls it was given, and without panic. -/
def Parser.Safe {α : Type} (tokens : List Token) (k c : Nat) (x : PRes α) : Prop :=
  ∃ y, x = some y ∧ Parser.safeStep tokens k c y

/-! # Properties -/

/-! ## Values and operators -/

theorem F64.ne_zero_eq_false (x : F64) :
    F64.ne x F64.zero = false ↔ x.expo.val = 0 ∧ x.frac.val = 0 := by
  obtain ⟨sg, e, f⟩ := x
  cases sg <;>
    simp [F64.ne, F64.eq, F64.isNaN, F64.key, F64.zero] <;> omega

/-- C1, the claim as stated fails: the Number 0 and the empty String are
falsy. -/
theorem C1_zero_and_empty_string_are_falsy :
    IsTruthy (ValueType.NumberType F64.zero) = false ∧
      IsTruthy (ValueType.StringType []) = false := by
  decide

/-- C1, amended: a value is falsy exactly when it is Nil, Boolean false, the
empty String, or a Number equal to zero (exponent and fraction bits all
clear, either sign); every other value is truthy. -/
theorem C1_falsy_values (v : ValueType) :
    IsTruthy v = false ↔
      (v = ValueType.NilType ∨ v = ValueType.BoolType false ∨ v = ValueType.StringType [] ∨
        ∃ x : F64, v = ValueType.NumberType x ∧ x.expo.val = 0 ∧ x.frac.val = 0) := by
  cases v with
  | NilType => simp [IsTruthy, ValueType.IsTrue]
  | BoolType b => simp [IsTruthy, ValueType.IsTrue]
  | StringType s => simp [IsTruthy, ValueType.IsTrue]
  | NumberType x => simp [IsTruthy, ValueType.IsTrue, F64.ne_zero_eq_false]

/-- C2: on the source `nil == nil` the evaluator returns Boolean false, while
two Booleans and two Strings under `==` compare by value. -/
theorem C2_nil_equals_nil_is_false :
    (∃ e p, parseSource (ascii "nil == nil") = some (Result.ok e, p) ∧
      ∀ (lib : Float64Lib) (g : Env), Expr.Eval lib e g = (Result.ok FalseValue, g)) ∧
    (∀ (lib : Float64Lib) (a b : Bool),
      BinaryExpr.apply lib (tok TokenType.TK_EQUAL_EQUAL "==")
          (ValueType.BoolType a) (ValueType.BoolType b) =
        Result.ok (ValueType.BoolType (a == b))) ∧
    (∀ (lib : Float64Lib) (a b : GoString),
      BinaryExpr.apply lib (tok TokenType.TK_EQUAL_EQUAL "==")
          (ValueType.StringType a) (ValueType.StringType b) =
        Result.ok (ValueType.BoolType (a == b))) := by
  refine ⟨⟨_, _, rfl, ?_⟩, ?_, ?_⟩
  · intro lib g
    simp [Expr.Eval, Token.Literal, BinaryExpr.apply, EvalIfMatch, EvalEqualEqual,
      EvalGeneric, ValueType.isA, ValueType.Typ, NilValue]
  · intro lib a b
    simp [BinaryExpr.apply, tok, EvalIfMatch, EvalEqualEqual, EvalGeneric, ValueType.isA,
      ValueType.Typ]
  · intro lib a b
    simp [BinaryExpr.apply, tok, EvalIfMatch, EvalEqualEqual, EvalGeneric, ValueType.isA,
      ValueType.Typ]

/-- C3: when the two operands evaluate to values with different type tags,
`==` yields Boolean false and `!=` yields Boolean true, without error, whatever
the values are. -/
theorem C3_equality_across_tags (lib : Float64Lib) (left right : Expr) (optr : Token)
    (g g1 g2 : Env) (lhs rhs : ValueType)
    (hl : Expr.Eval lib left g = (Result.ok lhs, g1))
    (hr : Expr.Eval lib right g1 = (Result.ok rhs, g2))
    (htag : lhs.Typ ≠ rhs.Typ) :
    (optr.Typ = TokenType.TK_EQUAL_EQUAL →
        Expr.Eval lib (Expr.BinaryExpr left right optr) g = (Result.ok FalseValue, g2)) ∧
      (optr.Typ = TokenType.TK_BANG_EQUAL →
        Expr.Eval lib (Expr.BinaryExpr left right optr) g = (Result.ok TrueValue, g2)) := by
  constructor <;> intro h <;> simp [Expr.Eval, hl, hr, BinaryExpr.apply, h, htag]

/-- C3 at `1 == "1"` and `1 != "1"`. -/
theorem C3_equality_across_tags_witness :
    (Expr.Eval natLib
        (Expr.BinaryExpr litOne (litStr "1") (tok TokenType.TK_EQUAL_EQUAL "==")) Env.empty
        = (Result.ok FalseValue, Env.empty)) ∧
      (Expr.Eval natLib
        (Expr.BinaryExpr litOne (litStr "1") (tok TokenType.TK_BANG_EQUAL "!=")) Env.empty
        = (Result.ok TrueValue, Env.empty)) :=
  ⟨(C3_equality_across_tags natLib litOne (litStr "1") (tok TokenType.TK_EQUAL_EQUAL "==")
      Env.empty Env.empty Env.empty (ValueType.NumberType (F64.ofNat 1))
      (ValueType.StringType (ascii "1")) rfl rfl (by decide)).1 rfl,
   (C3_equality_across_tags natLib litOne (litStr "1") (tok TokenType.TK_BANG_EQUAL "!=")
      Env.empty Env.empty Env.empty (ValueType.NumberType (F64.ofNat 1))
      (ValueType.StringType (ascii "1")) rfl rfl (by decide)).2 rfl⟩

/-- C10: `+` on two Strings yields their concatenation; on operands that are
neither two Numbers nor two Strings it returns an error. -/
theorem C10_plus (lib : Float64Lib) (left right : Expr) (optr : Token)
    (g g1 g2 : Env) (lhs rhs : ValueType)
    (hop : optr.Typ = TokenType.TK_PLUS)
    (hl : Expr.Eval lib left g = (Result.ok lhs, g1))
    (hr : Expr.Eval lib right g1 = (Result.ok rhs, g2)) :
    (∀ s t : GoString, lhs = ValueType.StringType s → rhs = ValueType.StringType t →
        Expr.Eval lib (Expr.BinaryExpr left right optr) g
          = (Result.ok (ValueType.StringType (s ++ t)), g2)) ∧
      (¬ (lhs.Typ = TypeName.VT_Number ∧ rhs.Typ = TypeName.VT_Number) →
        ¬ (lhs.Typ = TypeName.VT_String ∧ rhs.Typ = TypeName.VT_String) →
        Expr.Eval lib (Expr.BinaryExpr left right optr) g
          = (Result.error Error.UnmatchFunctors, g2)) := by
  constructor
  · intro s t hs ht
    subst hs ht
    simp [Expr.Eval, hl, hr, BinaryExpr.apply, hop, EvalIfMatch, EvalPlus, EvalGeneric,
      ValueType.isA, ValueType.Typ]
  · intro hn hs
    cases lhs <;> cases rhs <;>
      simp_all [Expr.Eval, BinaryExpr.apply, EvalIfMatch, EvalPlus, EvalGeneric,
        ValueType.isA, ValueType.Typ]

/-- C10 at `"a" + "b"` and `1 + "b"`. -/
theorem C10_plus_witness :
    (Expr.Eval natLib
        (Expr.BinaryExpr (litStr "a") (litStr "b") (tok TokenType.TK_PLUS "+")) Env.empty
        = (Result.ok (ValueType.StringType (ascii "ab")), Env.empty)) ∧
      (Expr.Eval natLib
        (Expr.BinaryExpr litOne (litStr "b") (tok TokenType.TK_PLUS "+")) Env.empty
        = (Result.error Error.UnmatchFunctors, Env.empty)) :=
  ⟨(C10_plus natLib (litStr "a") (litStr "b") (tok TokenType.TK_PLUS "+")
      Env.empty Env.empty Env.empty
      (ValueType.StringType (ascii "a")) (ValueType.StringType (ascii "b")) rfl rfl rfl).1
      (ascii "a") (ascii "b") rfl rfl,
   (C10_plus natLib litOne (litStr "b") (tok TokenType.TK_PLUS "+")
      Env.empty Env.empty Env.empty
      (ValueType.NumberType (F64.ofNat 1)) (ValueType.StringType (ascii "b")) rfl rfl rfl).2
      (by decide) (by decide)⟩

/-! ## Variables -/

/-- C8: assignment to an unbound identifier fails with the undefined-variable
error and leaves the environment as it was; assignment to a bound identifier
whose right-hand side evaluates to `v`, leaving `g1`, yields `v` and the
environment `g1` with the identifier rebound to `v` and every other binding
as in `g1`. -/
theorem C8_assignment (lib : Float64Lib) (x : Token) (e : Expr) (g : Env) :
    (g x.Lexeme = none →
        Expr.Eval lib (Expr.AssignmentExpr x e) g
          = (Result.error (Error.UndefinedVariable x.Lexeme), g)) ∧
      (∀ (v : ValueType) (g1 : Env), g x.Lexeme ≠ none →
        Expr.Eval lib e g = (Result.ok v, g1) →
        ∃ g2, Expr.Eval lib (Expr.AssignmentExpr x e) g = (Result.ok v, g2) ∧
          g2 x.Lexeme = some v ∧ ∀ y, y ≠ x.Lexeme → g2 y = g1 y) := by
  constructor
  · intro h
    simp [Expr.Eval, h]
  · intro v g1 hb he
    cases hx : g x.Lexeme with
    | none => exact absurd hx hb
    | some old =>
      refine ⟨g1.set x.Lexeme v, ?_, ?_, ?_⟩
      · simp [Expr.Eval, hx, he]
      · simp [Env.set]
      · intro y hy
        simp [Env.set, hy]

/-- C8 in the environment where only `a` is bound: `b = 1` fails and changes
nothing, `a = 1` yields 1 and rebinds `a` only. -/
theorem C8_assignment_witness :
    (Expr.Eval natLib (Expr.AssignmentExpr (ident "b") litOne) envA
        = (Result.error (Error.UndefinedVariable (ascii "b")), envA)) ∧
      (∃ g2, Expr.Eval natLib (Expr.AssignmentExpr (ident "a") litOne) envA
          = (Result.ok (ValueType.NumberType (F64.ofNat 1)), g2) ∧
        g2 (ascii "a") = some (ValueType.NumberType (F64.ofNat 1)) ∧
        ∀ y, y ≠ (ident "a").Lexeme → g2 y = envA y) :=
  ⟨(C8_assignment natLib (ident "b") litOne envA).1 rfl,
   (C8_assignment natLib (ident "a") litOne envA).2 (ValueType.NumberType (F64.ofNat 1)) envA
      (by decide) rfl⟩

theorem Expr.Eval_no_assignment (lib : Float64Lib) (e : Expr) (g : Env)
    (h : e.hasAssignment = false) : (Expr.Eval lib e g).2 = g := by
  induction e generalizing g with
  | VarExpr t =>
    simp only [Expr.Eval]
    cases g t.Lexeme <;> rfl
  | AssignmentExpr t e _ => simp [Expr.hasAssignment] at h
  | LiteralExpr t => rfl
  | GroupExpr e ih => exact ih g h
  | UnaryExpr e t ih =>
    have h1 := ih g h
    simp only [Expr.Eval]
    rcases hev : Expr.Eval lib e g with ⟨r, g1⟩
    rw [hev] at h1
    cases r <;> simpa using h1
  | BinaryExpr l r t ihl ihr =>
    simp only [Expr.hasAssignment, Bool.or_eq_false_iff] at h
    have h1 := ihl g h.1
    simp only [Expr.Eval]
    rcases hl : Expr.Eval lib l g with ⟨rl, g1⟩
    rw [hl] at h1
    simp only at h1
    subst h1
    cases rl with
    | ok lhs =>
      have h2 := ihr g1 h.2
      rcases hr : Expr.Eval lib r g1 with ⟨rr, g2⟩
      rw [hr] at h2
      simp only at h2
      subst h2
      cases rr <;> simp [hr]
    | error e => rfl
    | panic => rfl

/-- C9, the claim as stated fails: run where `a` is bound to Nil, the
declaration `var b = a = 1;` also rebinds `a`, and the failing declaration
`var a = (a = 1) + nil;` rebinds `a`. -/
theorem C9_initializer_effects_remain :
    ((Stmt.Run natLib
          (Stmt.VarStmt (some (Expr.AssignmentExpr (ident "a") litOne)) (ident "b"))
          ⟨envA, []⟩).1 = Result.ok () ∧
        envA (ascii "a") = some NilValue ∧
        (Stmt.Run natLib
          (Stmt.VarStmt (some (Expr.AssignmentExpr (ident "a") litOne)) (ident "b"))
          ⟨envA, []⟩).2.globals (ascii "a") = some (ValueType.NumberType (F64.ofNat 1))) ∧
      ((Stmt.Run natLib
          (Stmt.VarStmt
            (some (Expr.BinaryExpr
              (Expr.GroupExpr (Expr.AssignmentExpr (ident "a") litOne))
              (Expr.LiteralExpr (tok TokenType.KW_NIL "nil")) (tok TokenType.TK_PLUS "+")))
            (ident "a"))
          ⟨envA, []⟩).1 = Result.error Error.UnmatchFunctors ∧
        (Stmt.Run natLib
          (Stmt.VarStmt
            (some (Expr.BinaryExpr
              (Expr.GroupExpr (Expr.AssignmentExpr (ident "a") litOne))
              (Expr.LiteralExpr (tok TokenType.KW_NIL "nil")) (tok TokenType.TK_PLUS "+")))
            (ident "a"))
          ⟨envA, []⟩).2.globals (ascii "a") = some (ValueType.NumberType (F64.ofNat 1))) := by
  decide!

/-- C9, amended: without initializer the identifier is bound to Nil; with an
initializer that evaluates to `v`, leaving `g1`, the identifier is bound to
`v` in `g1`: a prior binding of it is overwritten and every other binding is
as in `g1`; `g1` is the environment before the statement when the
initializer contains no assignment. If the initializer fails, its error is
returned and the environment is the one the failed evaluation left, again the
one before the statement when the initializer contains no assignment. -/
theorem C9_var_declaration (lib : Float64Lib) (x : Token) (w : World) :
    Stmt.Run lib (Stmt.VarStmt none x) w
        = (Result.ok (), ⟨w.globals.set x.Lexeme NilValue, w.stdout⟩) ∧
      (∀ (e : Expr) (v : ValueType) (g1 : Env),
        Expr.Eval lib e w.globals = (Result.ok v, g1) →
        Stmt.Run lib (Stmt.VarStmt (some e) x) w
          = (Result.ok (), ⟨g1.set x.Lexeme v, w.stdout⟩)) ∧
      (∀ (e : Expr) (err : Error) (g1 : Env),
        Expr.Eval lib e w.globals = (Result.error err, g1) →
        Stmt.Run lib (Stmt.VarStmt (some e) x) w = (Result.error err, ⟨g1, w.stdout⟩)) ∧
      (∀ (g : Env) (v : ValueType),
        (g.set x.Lexeme v) x.Lexeme = some v ∧
          ∀ y, y ≠ x.Lexeme → (g.set x.Lexeme v) y = g y) ∧
      (∀ e : Expr, e.hasAssignment = false → (Expr.Eval lib e w.globals).2 = w.globals) := by
  refine ⟨by simp [Stmt.Run], ?_, ?_, ?_, ?_⟩
  · intro e v g1 h
    simp [Stmt.Run, h]
  · intro e err g1 h
    simp [Stmt.Run, h]
  · intro g v
    refine ⟨by simp [Env.set], ?_⟩
    intro y hy
    simp [Env.set, hy]
  · intro e h
    exact Expr.Eval_no_assignment lib e w.globals h

/-- C9 at `var b = 1;` and `var b = c;` where only `a` is bound. -/
theorem C9_var_declaration_witness :
    Stmt.Run natLib (Stmt.VarStmt (some litOne) (ident "b")) ⟨envA, []⟩
        = (Result.ok (),
            ⟨envA.set (ascii "b") (ValueType.NumberType (F64.ofNat 1)), []⟩) ∧
      Stmt.Run natLib (Stmt.VarStmt (some (Expr.VarExpr (ident "c"))) (ident "b")) ⟨envA, []⟩
        = (Result.error (Error.UndefinedVariable (ascii "c")), ⟨envA, []⟩) ∧
      (Expr.Eval natLib litOne envA).2 = envA :=
  ⟨(C9_var_declaration natLib (ident "b") ⟨envA, []⟩).2.1 litOne
      (ValueType.NumberType (F64.ofNat 1)) envA rfl,
   (C9_var_declaration natLib (ident "b") ⟨envA, []⟩).2.2.1 (Expr.VarExpr (ident "c"))
      (Error.UndefinedVariable (ascii "c")) envA rfl,
   (C9_var_declaration natLib (ident "b") ⟨envA, []⟩).2.2.2.2 litOne rfl⟩

/-! ## Blocks -/

/-- C4: on `var a = 1; { var a = 2; print b; }` the run stops with the
undefined-variable error for `b` and leaves `a` bound to 2, the value given
inside the block; the block alone, entered where `a` is Nil, returns the
error with `a` bound to 2. -/
theorem C4_block_error_keeps_inner_binding :
    (runSource natLib (ascii "var a = 1; \x7b var a = 2; print b; \x7d")).map
        (fun r => (r.1, r.2.globals (ascii "a")))
      = some (Result.error (Error.UndefinedVariable (ascii "b")),
          some (ValueType.NumberType (F64.ofNat 2))) ∧
    (Stmt.Run natLib
        (Stmt.BlockStmt
          [Stmt.VarStmt (some (Expr.LiteralExpr (tok TokenType.TK_NUMBER "2"))) (ident "a"),
           Stmt.PrintStmt (Expr.VarExpr (ident "b"))])
        ⟨envA, []⟩).1 = Result.error (Error.UndefinedVariable (ascii "b")) ∧
    (Stmt.Run natLib
        (Stmt.BlockStmt
          [Stmt.VarStmt (some (Expr.LiteralExpr (tok TokenType.TK_NUMBER "2"))) (ident "a"),
           Stmt.PrintStmt (Expr.VarExpr (ident "b"))])
        ⟨envA, []⟩).2.globals (ascii "a") = some (ValueType.NumberType (F64.ofNat 2)) ∧
    envA (ascii "a") = some NilValue := by
  decide!

/-- C5: a block whose statements run without error leaves `globals` as it was
at block entry; what the block printed stays printed. -/
theorem C5_block_restores_globals (lib : Float64Lib) (stmts : List Stmt) (w w1 : World)
    (h : Stmt.RunAll lib stmts w = (Result.ok (), w1)) :
    Stmt.Run lib (Stmt.BlockStmt stmts) w = (Result.ok (), ⟨w.globals, w1.stdout⟩) := by
  simp [Stmt.Run, h]

/-- C5 at the block `{ var a = 2; }` entered where `a` is Nil, and on the
program `var a = 1; { var a = 2; } print a;`, which prints `1`. -/
theorem C5_block_restores_globals_witness :
    Stmt.Run natLib
        (Stmt.BlockStmt
          [Stmt.VarStmt (some (Expr.LiteralExpr (tok TokenType.TK_NUMBER "2"))) (ident "a")])
        ⟨envA, []⟩ = (Result.ok (), ⟨envA, []⟩) ∧
      (runSource natLib (ascii "var a = 1; \x7b var a = 2; \x7d print a;")).map
          (fun r => (r.1, r.2.stdout))
        = some (Result.ok (), [ascii "1"]) :=
  ⟨C5_block_restores_globals natLib _ ⟨envA, []⟩
      ⟨envA.set (ascii "a") (ValueType.NumberType (F64.ofNat 2)), []⟩ rfl,
   by decide!⟩

/-! ## Scanner -/

namespace Scanner

theorem extends_refl (s : Scanner) : Extends s s :=
  ⟨rfl, Nat.le_refl _, fun h => h, [], by simp, by simp⟩

theorem extends_trans {s0 s1 s2 : Scanner} (h1 : Extends s0 s1) (h2 : Extends s1 s2) :
    Extends s0 s2 := by
  obtain ⟨hs1, hc1, hr1, n1, ht1, hn1⟩ := h1
  obtain ⟨hs2, hc2, hr2, n2, ht2, hn2⟩ := h2
  refine ⟨hs2.trans hs1, Nat.le_trans hc1 hc2, ?_, n1 ++ n2, ?_, ?_⟩
  · intro h
    have := hr1 h
    rw [hs1] at hr2
    exact hr2 this
  · rw [ht2, ht1, List.append_assoc]
  · intro t ht
    rcases List.mem_append.1 ht with h | h
    · exact hn1 t h
    · exact hn2 t h

/-- A state that differs from `s` in `Start`, `Line` or `HasErr` only. -/
theorem extends_of_eq {s s1 : Scanner} (hs : s1.Source = s.Source)
    (hc : s1.Current = s.Current) (ht : s1.Tokens = s.Tokens) : Extends s s1 :=
  ⟨hs, by omega, fun h => by omega, [], by simp [ht], by simp⟩

theorem extends_addToken (s : Scanner) (typ : TokenType) (h : typ ≠ TokenType.TK_EOF) :
    Extends s (s.AddToken typ) :=
  ⟨rfl, Nat.le_refl _, fun h => h, _, rfl, by simpa using h⟩

theorem extends_step (s : Scanner) (n : Nat) (h : s.Current + n ≤ s.Source.length) :
    Extends s { s with Current := s.Current + n } :=
  ⟨rfl, by simp, fun _ => h, [], by simp, by simp⟩

theorem skipWhile_spec (p : Nat → Bool) (fuel : Nat) (s : Scanner) :
    (skipWhile p fuel s).Source = s.Source ∧ (skipWhile p fuel s).Tokens = s.Tokens ∧
      (skipWhile p fuel s).Start = s.Start ∧ (skipWhile p fuel s).Line = s.Line ∧
      (skipWhile p fuel s).HasErr = s.HasErr ∧
      s.Current ≤ (skipWhile p fuel s).Current ∧
      (skipWhile p fuel s).Current ≤ s.Current + fuel := by
  induction fuel generalizing s with
  | zero => simp [skipWhile]
  | succ n ih =>
    unfold skipWhile
    split
    · obtain ⟨h1, h2, h3, h4, h5, h6, h7⟩ := ih { s with Current := s.Current + 1 }
      refine ⟨h1, h2, h3, h4, h5, ?_, ?_⟩
      · simp at h6; omega
      · simp at h7; omega
    · simp

theorem extends_skipWhile (p : Nat → Bool) (s : Scanner) :
    Extends s (skipWhile p (s.Source.length - s.Current) s) := by
  obtain ⟨h1, h2, _, _, _, h6, h7⟩ := skipWhile_spec p (s.Source.length - s.Current) s
  exact ⟨h1, h6, fun h => by omega, [], by simp [h2], by simp⟩

theorem findLoop_spec (ch : Nat) (fuel : Nat) (s : Scanner) :
    (findLoop ch fuel s).2.Source = s.Source ∧ (findLoop ch fuel s).2.Tokens = s.Tokens ∧
      s.Current ≤ (findLoop ch fuel s).2.Current ∧
      (findLoop ch fuel s).2.Current ≤ s.Current + fuel := by
  induction fuel generalizing s with
  | zero => simp [findLoop]
  | succ n ih =>
    unfold findLoop
    split
    · simp
    · split
      · simp
      · obtain ⟨h1, h2, h3, h4⟩ := ih { s with Current := s.Current + 1 }
        refine ⟨h1, h2, ?_, ?_⟩
        · simp at h3; omega
        · simp at h4; omega

theorem extends_findChar (s : Scanner) (ch : Nat) : Extends s (s.FindChar ch).2 := by
  obtain ⟨h1, h2, h3, h4⟩ := findLoop_spec ch (s.Source.length - s.Current) s
  unfold FindChar
  split
  · rename_i s1 heq
    rw [heq] at h1 h2 h3 h4
    dsimp only at h1 h2 h3 h4 ⊢
    exact ⟨h1, h3, fun h => by omega, [], by simp [h2], by simp⟩
  · rename_i s1 heq
    rw [heq] at h1 h2 h3 h4
    dsimp only [Report] at h1 h2 h3 h4 ⊢
    exact ⟨h1, h3, fun h => by show s1.Current ≤ _; omega, [], by simp [h2], by simp⟩

theorem commentLoop_spec (fuel : Nat) (s : Scanner) :
    (commentLoop fuel s).Source = s.Source ∧ (commentLoop fuel s).Tokens = s.Tokens ∧
      s.Current ≤ (commentLoop fuel s).Current ∧
      (commentLoop fuel s).Current ≤ s.Current + fuel := by
  induction fuel generalizing s with
  | zero => simp [commentLoop]
  | succ n ih =>
    unfold commentLoop
    split
    · simp
    · split
      · simp
      · obtain ⟨h1, h2, h3, h4⟩ := ih { s with Current := s.Current + 1 }
        refine ⟨h1, h2, ?_, ?_⟩
        · simp at h3; omega
        · simp at h4; omega

theorem extends_skipComment (s : Scanner) : Extends s s.SkipOneLineComment := by
  obtain ⟨h1, h2, h3, h4⟩ := commentLoop_spec (s.Source.length - s.Current) s
  unfold SkipOneLineComment
  exact ⟨h1, h3, fun h => by omega, [], by simp [h2], by simp⟩

theorem extends_match (s : Scanner) (expect : GoString) : Extends s (s.Match expect).2 := by
  unfold Match
  split
  · exact extends_refl s
  · split
    · exact extends_step s _ (by omega)
    · exact extends_refl s

theorem extends_matchToken (s : Scanner) (expect : GoString) (two one : TokenType)
    (h2 : two ≠ TokenType.TK_EOF) (h1 : one ≠ TokenType.TK_EOF) :
    Extends s (matchToken s expect two one) := by
  have h := extends_match s expect
  unfold Scanner.matchToken
  split
  · rename_i s1 heq
    rw [heq] at h
    exact extends_trans h (extends_addToken _ _ h2)
  · rename_i s1 heq
    rw [heq] at h
    exact extends_trans h (extends_addToken _ _ h1)

end Scanner

theorem ReservedKws_ne_eof (w : GoString) (kw : TokenType) (h : ReservedKws w = some kw) :
    kw ≠ TokenType.TK_EOF := by
  unfold ReservedKws at h
  simp only [List.lookup] at h
  repeat' split at h
  all_goals first
    | (cases h; decide)
    | (simp at h)


namespace Scanner

theorem extends_resolveId (s : Scanner) : Extends s s.ResolveIdAndKeyword := by
  have h := extends_skipWhile isIdChar s
  unfold ResolveIdAndKeyword
  dsimp only
  split
  · rename_i kw hk
    exact extends_trans h (extends_addToken _ _ (ReservedKws_ne_eof _ _ hk))
  · exact extends_trans h (extends_addToken _ _ (by decide))

theorem extends_resolveNum (s : Scanner) : Extends s s.ResolveNum := by
  have h1 := extends_skipWhile isDigit s
  unfold ResolveNum
  dsimp only
  generalize skipWhile isDigit (s.Source.length - s.Current) s = s1 at h1 ⊢
  have h2 : Extends s1
      (if (s1.Peek == 46 && isDigit s1.PeekNext) = true then
        { s1 with Current := s1.Current + 1 } else s1) := by
    split
    · rename_i hc
      refine extends_step s1 1 ?_
      simp only [Bool.and_eq_true, beq_iff_eq] at hc
      by_contra hlt
      have hp : s1.Peek = 0 := by
        unfold Peek IsEnd
        rw [if_pos (decide_eq_true (by omega))]
      omega
    · exact extends_refl s1
  generalize (if (s1.Peek == 46 && isDigit s1.PeekNext) = true then
        { s1 with Current := s1.Current + 1 } else s1) = s2 at h2 ⊢
  exact extends_trans (extends_trans h1 h2)
    (extends_trans (extends_skipWhile isDigit s2)
      (extends_addToken _ TokenType.TK_NUMBER (by decide)))

theorem extends_ite {s a b : Scanner} (c : Prop) [Decidable c] (ha : Extends s a)
    (hb : Extends s b) : Extends s (if c then a else b) := by
  split <;> assumption

theorem extends_slash (s : Scanner) :
    Extends s
      (match s.Match [47] with
       | (true, s1) => s1.SkipOneLineComment
       | (false, s1) => s1.AddToken TokenType.TK_SLASH) := by
  have h := extends_match s [47]
  split
  · rename_i s1 heq
    rw [heq] at h
    exact extends_trans h (extends_skipComment _)
  · rename_i s1 heq
    rw [heq] at h
    exact extends_trans h (extends_addToken _ _ (by decide))

theorem extends_quote (s : Scanner) :
    Extends s
      (match s.FindChar 34 with
       | (true, s1) => s1.AddToken TokenType.TK_STRING
       | (false, s1) => s1) := by
  have h := extends_findChar s 34
  split
  · rename_i s1 heq
    rw [heq] at h
    exact extends_trans h (extends_addToken _ _ (by decide))
  · rename_i s1 heq
    rw [heq] at h
    exact h

theorem extends_scanSwitch (c : Nat) (s : Scanner) : Extends s (scanSwitch c s) := by
  unfold scanSwitch
  repeat' apply extends_ite
  all_goals first
    | exact extends_addToken _ _ (by decide)
    | exact extends_refl _
    | exact extends_of_eq rfl rfl rfl
    | exact extends_matchToken _ _ _ _ (by decide) (by decide)
    | exact extends_resolveNum _
    | exact extends_resolveId _
    | exact extends_slash _
    | exact extends_quote _

theorem extends_scanToken (s : Scanner) (h : s.Current < s.Source.length) :
    Extends s s.ScanToken ∧ s.Current < s.ScanToken.Current := by
  have hend : s.IsEnd = false := by
    unfold IsEnd
    exact decide_eq_false (by omega)
  have hadv : s.Advance = (s.cur, { s with Current := s.Current + 1 }) := by
    unfold Advance
    rw [hend]
    rfl
  have h0 : Extends s { s with Current := s.Current + 1 } := extends_step s 1 (by omega)
  have h2 := extends_scanSwitch s.cur { s with Current := s.Current + 1 }
  unfold ScanToken
  rw [hadv]
  refine ⟨extends_trans h0 h2, ?_⟩
  have := h2.2.1
  dsimp only at this ⊢
  omega

theorem scanLoop_spec (fuel : Nat) (s : Scanner) (hc : s.Current ≤ s.Source.length)
    (hf : s.Source.length - s.Current ≤ fuel) :
    ∃ s1, scanLoop fuel s = some s1 ∧ Extends s s1 ∧ s1.Current = s.Source.length := by
  induction fuel generalizing s with
  | zero =>
    refine ⟨s, ?_, extends_refl s, by omega⟩
    unfold scanLoop IsEnd
    rw [if_pos (decide_eq_true (by omega))]
  | succ n ih =>
    unfold scanLoop
    by_cases hend : s.Current ≥ s.Source.length
    · refine ⟨s, ?_, extends_refl s, by omega⟩
      unfold IsEnd
      rw [if_pos (decide_eq_true hend)]
    · have hne : s.IsEnd = false := by
        unfold IsEnd
        exact decide_eq_false hend
      rw [hne]
      have hst := extends_scanToken { s with Start := s.Current } (by dsimp only; omega)
      obtain ⟨hext, hlt⟩ := hst
      have hsrc := hext.1
      have hle := hext.2.2.1
      dsimp only at hsrc hle hlt
      obtain ⟨s1, h1, h2, h3⟩ := ih (ScanToken { s with Start := s.Current })
        (by rw [hsrc]; exact hle hc) (by rw [hsrc]; omega)
      refine ⟨s1, by simpa using h1, ?_, by rw [h3, hsrc]⟩
      exact extends_trans (extends_trans (extends_of_eq rfl rfl rfl) hext) h2

end Scanner

namespace Scanner

/-- More rounds than `len(Source) - Current` do not change what the loop of
`ResolveIdAndKeyword` and `ResolveNum` does: it has stopped by its own test. -/
theorem skipWhile_fuel (p : Nat → Bool) (hp : p 0 = false) (fuel extra : Nat) (s : Scanner)
    (h : s.Source.length - s.Current ≤ fuel) :
    skipWhile p (fuel + extra) s = skipWhile p fuel s := by
  induction fuel generalizing s with
  | zero =>
    have hend : s.Peek = 0 := by
      unfold Peek IsEnd
      rw [if_pos (decide_eq_true (by omega))]
    cases extra with
    | zero => rfl
    | succ k =>
      rw [Nat.zero_add]
      unfold skipWhile
      rw [hend, hp]
      simp
  | succ n ih =>
    rw [Nat.add_right_comm]
    unfold skipWhile
    split
    · exact ih _ (by dsimp only; omega)
    · rfl

/-- More rounds than `len(Source) - Current` do not change what the loop of
`FindChar` does. -/
theorem findLoop_fuel (ch : Nat) (fuel extra : Nat) (s : Scanner)
    (h : s.Source.length - s.Current ≤ fuel) :
    findLoop ch (fuel + extra) s = findLoop ch fuel s := by
  induction fuel generalizing s with
  | zero =>
    have hend : s.IsEnd = true := by
      unfold IsEnd
      exact decide_eq_true (by omega)
    cases extra with
    | zero => rfl
    | succ k =>
      rw [Nat.zero_add]
      unfold findLoop
      rw [hend]
      rfl
  | succ n ih =>
    rw [Nat.add_right_comm]
    unfold findLoop
    split
    · rfl
    · split
      · rfl
      · exact ih _ (by dsimp only; omega)

/-- More rounds than `len(Source) - Current` do not change what the loop of
`SkipOneLineComment` does. -/
theorem commentLoop_fuel (fuel extra : Nat) (s : Scanner)
    (h : s.Source.length - s.Current ≤ fuel) :
    commentLoop (fuel + extra) s = commentLoop fuel s := by
  induction fuel generalizing s with
  | zero =>
    have hend : s.IsEnd = true := by
      unfold IsEnd
      exact decide_eq_true (by omega)
    cases extra with
    | zero => rfl
    | succ k =>
      rw [Nat.zero_add]
      unfold commentLoop
      rw [hend]
      rfl
  | succ n ih =>
    rw [Nat.add_right_comm]
    unfold commentLoop
    split
    · rfl
    · split
      · rfl
      · exact ih _ (by dsimp only; omega)

end Scanner

/-- C7: on every source text `ScanTokens` returns; the tokens it returns are
those scanned from the text, none of them of type EOF, followed by one token
of type EOF with the empty lexeme. -/
theorem C7_tokens_end_with_one_eof (source : GoString) :
    ∃ (s : Scanner) (init : List Token) (line : Nat),
      (NewScanner source).ScanTokens = some s ∧
      s.Tokens ≠ [] ∧
      s.Tokens = init ++ [⟨line, [], TokenType.TK_EOF⟩] ∧
      ∀ t ∈ init, t.Typ ≠ TokenType.TK_EOF := by
  obtain ⟨s1, h1, h2, h3⟩ :=
    Scanner.scanLoop_spec (source.length - 0) (NewScanner source) (Nat.zero_le _)
      (Nat.le_refl _)
  obtain ⟨_, _, _, new, hnew, hall⟩ := h2
  refine ⟨Scanner.AddToken { s1 with Start := s1.Current } TokenType.TK_EOF, new, s1.Line,
    ?_, ?_, ?_, hall⟩
  · unfold Scanner.ScanTokens
    show (match Scanner.scanLoop (source.length - 0) (NewScanner source) with
      | some s1 => some (Scanner.AddToken { s1 with Start := s1.Current } TokenType.TK_EOF)
      | none => none) = _
    rw [h1]
  · simp [Scanner.AddToken]
  · simp [Scanner.AddToken, Scanner.String, hnew, NewScanner]

/-! ## Rendering and re-parsing -/

theorem getD_mid (pre : GoString) (c : Nat) (rest : GoString) :
    (pre ++ c :: rest).getD pre.length 0 = c := by
  induction pre with
  | nil => rfl
  | cons a as ih => simpa [List.getD] using ih

theorem slice_mid (pre w post : GoString) (n : Nat) (h : n = pre.length + w.length) :
    ((pre ++ w ++ post).drop pre.length).take (n - pre.length) = w := by
  subst h
  simp

namespace Scanner

theorem scanLoop_step (n : Nat) (s : Scanner) (pre rest : GoString) (c : Nat)
    (hs : s.Source = pre ++ c :: rest) (hc : s.Current = pre.length) :
    scanLoop (n + 1) s
      = scanLoop n (scanSwitch c { s with Start := s.Current, Current := s.Current + 1 }) := by
  have hend : s.IsEnd = false := by
    unfold IsEnd
    apply decide_eq_false
    rw [hs, hc]
    simp
  have hend2 : ({ s with Start := s.Current } : Scanner).IsEnd = false := hend
  have hcur : ({ s with Start := s.Current } : Scanner).cur = c := by
    unfold cur
    dsimp only
    rw [hs, hc]
    exact getD_mid pre c rest
  conv => lhs; unfold scanLoop
  rw [hend]
  unfold ScanToken Advance
  rw [hend2, hcur]
  rfl

end Scanner

namespace Scanner

theorem scans_comp {s s1 s2 : Scanner} {k1 n1 k2 n2 : Nat} {t1 t2 : List Token}
    (h1 : Scans s k1 n1 t1 s1) (h2 : Scans s1 k2 n2 t2 s2) :
    Scans s (k1 + k2) (n1 + n2) (t1 ++ t2) s2 := by
  obtain ⟨a1, b1, c1, d1, e1, f1⟩ := h1
  obtain ⟨a2, b2, c2, d2, e2, f2⟩ := h2
  refine ⟨?_, b2.trans b1, by omega, ?_, e2.trans e1, f2.trans f1⟩
  · intro m
    rw [← a2 m, ← a1 (m + k2)]
    congr 1
    omega
  · rw [d2, d1, List.append_assoc]

theorem string_one (s : Scanner) (pre rest : GoString) (c : Nat)
    (hs : s.Source = pre ++ c :: rest) (hc : s.Current = pre.length) :
    ({ s with Start := s.Current, Current := s.Current + 1 } : Scanner).String = [c] := by
  unfold String
  dsimp only
  rw [hs, hc]
  simp

/-- One round on a byte that is a token by itself. -/
theorem scans_single (s : Scanner) (pre rest : GoString) (c : Nat) (typ : TokenType)
    (hs : s.Source = pre ++ c :: rest) (hc : s.Current = pre.length)
    (hsw : ∀ s1 : Scanner, scanSwitch c s1 = s1.AddToken typ) :
    Scans s 1 1 [⟨s.Line, [c], typ⟩]
      (scanSwitch c { s with Start := s.Current, Current := s.Current + 1 }) := by
  refine ⟨fun m => scanLoop_step m s pre rest c hs hc, ?_, ?_, ?_, ?_, ?_⟩
  all_goals rw [hsw]
  · rfl
  · rfl
  · show s.Tokens ++ [_] = _
    rw [string_one s pre rest c hs hc]
  · rfl
  · rfl

/-- One round on a space. -/
theorem scans_space (s : Scanner) (pre rest : GoString)
    (hs : s.Source = pre ++ 32 :: rest) (hc : s.Current = pre.length) :
    Scans s 1 1 [] (scanSwitch 32 { s with Start := s.Current, Current := s.Current + 1 }) := by
  refine ⟨fun m => scanLoop_step m s pre rest 32 hs hc, rfl, rfl, ?_, rfl, rfl⟩
  show s.Tokens = _
  simp

/-- One round on `!` followed by a space. -/
theorem scans_bang (s : Scanner) (pre rest : GoString)
    (hs : s.Source = pre ++ 33 :: 32 :: rest) (hc : s.Current = pre.length) :
    Scans s 1 1 [⟨s.Line, [33], TokenType.TK_BANG⟩]
      (scanSwitch 33 { s with Start := s.Current, Current := s.Current + 1 }) := by
  have hm : ({ s with Start := s.Current, Current := s.Current + 1 } : Scanner).Match [61]
      = (false, { s with Start := s.Current, Current := s.Current + 1 }) := by
    unfold Match
    dsimp only
    rw [hs, hc]
    simp
  have hsw : scanSwitch 33 { s with Start := s.Current, Current := s.Current + 1 }
      = ({ s with Start := s.Current, Current := s.Current + 1 } : Scanner).AddToken
          TokenType.TK_BANG := by
    show matchToken _ [61] TokenType.TK_BANG_EQUAL TokenType.TK_BANG = _
    unfold matchToken
    rw [hm]
  refine ⟨fun m => scanLoop_step m s pre (32 :: rest) 33 hs hc, ?_, ?_, ?_, ?_, ?_⟩
  all_goals rw [hsw]
  · rfl
  · rfl
  · show s.Tokens ++ [_] = _
    rw [string_one s pre (32 :: rest) 33 hs hc]
  · rfl
  · rfl

end Scanner

namespace Scanner

/-- What follows a word: the end of the source or a byte that cannot
continue an identifier. -/
theorem peek_mid (s : Scanner) (a rest : GoString) (c : Nat)
    (hs : s.Source = a ++ c :: rest) (hc : s.Current = a.length) : s.Peek = c := by
  unfold Peek IsEnd cur
  rw [hs, hc, if_neg]
  · exact getD_mid a c rest
  · simp

theorem skipWhile_word (w : GoString) (a post : GoString) (s : Scanner) (fuel : Nat)
    (hs : s.Source = a ++ w ++ post) (hc : s.Current = a.length)
    (hw : ∀ x ∈ w, isIdChar x = true)
    (hpost : post = [] ∨ ∃ d r, post = d :: r ∧ isIdChar d = false)
    (hf : w.length ≤ fuel) :
    skipWhile isIdChar fuel s = { s with Current := s.Current + w.length } := by
  induction w generalizing a s fuel with
  | nil =>
    cases fuel with
    | zero => rfl
    | succ n =>
      unfold skipWhile
      have hp : isIdChar s.Peek = false := by
        rcases hpost with h | ⟨d, r, h, hd⟩
        · have : s.Peek = 0 := by
            unfold Peek IsEnd
            rw [if_pos]
            apply decide_eq_true
            rw [hs, hc, h]
            simp
          rw [this]
          rfl
        · rw [peek_mid s a r d (by rw [hs, h]; simp) hc]
          exact hd
      rw [hp]
      rfl
  | cons x xs ih =>
    cases fuel with
    | zero => simp at hf
    | succ n =>
      unfold skipWhile
      have hp : s.Peek = x := peek_mid s a (xs ++ post) x (by rw [hs]; simp) hc
      rw [hp, hw x (by simp), if_pos rfl]
      rw [ih (a ++ [x]) { s with Current := s.Current + 1 } n (by rw [hs]; simp)
        (by simp [hc]) (fun y hy => hw y (by simp [hy])) (by simpa using hf)]
      simp only [List.length_cons]
      congr 1
      omega

theorem scanSwitch_letter (c : Nat) (h : 97 ≤ c ∧ c ≤ 122) (s : Scanner) :
    scanSwitch c s = s.ResolveIdAndKeyword := by
  unfold scanSwitch
  repeat rw [if_neg (by omega)]
  rw [if_pos (by omega)]

/-- The rounds on a reserved word that starts with a lower-case letter. -/
theorem scans_keyword (s : Scanner) (pre post : GoString) (c : Nat) (w : GoString)
    (kw : TokenType) (hs : s.Source = pre ++ (c :: w) ++ post) (hc : s.Current = pre.length)
    (hletter : 97 ≤ c ∧ c ≤ 122) (hw : ∀ x ∈ w, isIdChar x = true)
    (hpost : post = [] ∨ ∃ d r, post = d :: r ∧ isIdChar d = false)
    (hkw : ReservedKws (c :: w) = some kw) :
    ∃ s1, Scans s 1 (c :: w).length [⟨s.Line, c :: w, kw⟩] s1 := by
  have hstep := fun m => scanLoop_step m s pre (w ++ post) c (by rw [hs]; simp) hc
  have hsk := skipWhile_word w (pre ++ [c]) post
    { s with Start := s.Current, Current := s.Current + 1 }
    (s.Source.length - (s.Current + 1)) (by rw [hs]; simp) (by simp [hc]) hw hpost
    (by rw [hs, hc]; simp; omega)
  have hstr : ({ s with Start := s.Current, Current := s.Current + 1 + w.length } :
      Scanner).String = c :: w := by
    unfold String
    dsimp only
    rw [hs, hc]
    have := slice_mid pre (c :: w) post (pre.length + 1 + w.length) (by simp; omega)
    simpa using this
  have hres : scanSwitch c { s with Start := s.Current, Current := s.Current + 1 }
      = ({ s with Start := s.Current, Current := s.Current + 1 + w.length } : Scanner).AddToken
          kw := by
    rw [scanSwitch_letter c hletter]
    unfold ResolveIdAndKeyword
    dsimp only
    rw [hsk]
    dsimp only
    rw [hstr, hkw]
  refine ⟨({ s with Start := s.Current, Current := s.Current + 1 + w.length } : Scanner).AddToken
    kw, fun m => (hstep m).trans (by rw [hres]), rfl, ?_, ?_, rfl, rfl⟩
  · show s.Current + 1 + w.length = _
    simp only [List.length_cons]
    omega
  · show s.Tokens ++ [_] = _
    rw [hstr]

end Scanner

namespace Scanner

theorem scanSwitch_paren_left (s : Scanner) :
    scanSwitch 40 s = s.AddToken TokenType.TK_LEFT_PAREN := rfl

theorem scanSwitch_paren_right (s : Scanner) :
    scanSwitch 41 s = s.AddToken TokenType.TK_RIGHT_PAREN := rfl

theorem scanSwitch_minus (s : Scanner) :
    scanSwitch 45 s = s.AddToken TokenType.TK_MINUS := rfl

/-- The rounds on a unary operator followed by a space. -/
theorem scans_operator (s : Scanner) (pre rest : GoString) (t : Token)
    (ht : (t.Typ = TokenType.TK_BANG ∧ t.Lexeme = [33]) ∨
      (t.Typ = TokenType.TK_MINUS ∧ t.Lexeme = [45]))
    (hs : s.Source = pre ++ t.Lexeme ++ 32 :: rest) (hc : s.Current = pre.length) :
    ∃ s1, Scans s 1 1 [⟨s.Line, t.Lexeme, t.Typ⟩] s1 := by
  rcases ht with ⟨h1, h2⟩ | ⟨h1, h2⟩
  · rw [h1, h2]
    exact ⟨_, scans_bang s pre rest (by rw [hs, h2]; simp) hc⟩
  · rw [h1, h2]
    exact ⟨_, scans_single s pre (32 :: rest) 45 _ (by rw [hs, h2]; simp) hc scanSwitch_minus⟩

theorem operator_length (t : Token)
    (ht : (t.Typ = TokenType.TK_BANG ∧ t.Lexeme = [33]) ∨
      (t.Typ = TokenType.TK_MINUS ∧ t.Lexeme = [45])) : t.Lexeme.length = 1 := by
  rcases ht with ⟨_, h⟩ | ⟨_, h⟩ <;> rw [h] <;> rfl

theorem scans_literal (s : Scanner) (pre post : GoString) (t : Token)
    (ht : (t.Typ = TokenType.KW_TRUE ∧ t.Lexeme = ascii "true") ∨
      (t.Typ = TokenType.KW_FALSE ∧ t.Lexeme = ascii "false") ∨
      (t.Typ = TokenType.KW_NIL ∧ t.Lexeme = ascii "nil"))
    (hs : s.Source = pre ++ t.Lexeme ++ post) (hc : s.Current = pre.length)
    (hpost : post = [] ∨ ∃ d r, post = d :: r ∧ isIdChar d = false) :
    ∃ s1, Scans s 1 t.Lexeme.length [⟨s.Line, t.Lexeme, t.Typ⟩] s1 := by
  rcases ht with ⟨h1, h2⟩ | ⟨h1, h2⟩ | ⟨h1, h2⟩
  · rw [h1, h2]
    exact scans_keyword s pre post 116 [114, 117, 101] _ (by rw [hs, h2]; rfl) hc
      (by omega) (by decide) hpost (by decide)
  · rw [h1, h2]
    exact scans_keyword s pre post 102 [97, 108, 115, 101] _ (by rw [hs, h2]; rfl) hc
      (by omega) (by decide) hpost (by decide)
  · rw [h1, h2]
    exact scans_keyword s pre post 110 [105, 108] _ (by rw [hs, h2]; rfl) hc
      (by omega) (by decide) hpost (by decide)

/-- Scanning the rendering of a tree of keyword literals and unary operators
yields its tokens. -/
theorem scans_prefixText (e : Expr) (he : e.keywordUnary = true) (s : Scanner)
    (pre post : GoString) (hs : s.Source = pre ++ e.prefixText ++ post)
    (hc : s.Current = pre.length)
    (hpost : post = [] ∨ ∃ d r, post = d :: r ∧ isIdChar d = false) :
    ∃ k s1, k ≤ e.prefixText.length ∧
      Scans s k e.prefixText.length (e.prefixTokens s.Line) s1 := by
  induction e generalizing s pre post with
  | VarExpr t => simp [Expr.keywordUnary] at he
  | AssignmentExpr t e _ => simp [Expr.keywordUnary] at he
  | GroupExpr e _ => simp [Expr.keywordUnary] at he
  | BinaryExpr l r t _ _ => simp [Expr.keywordUnary] at he
  | LiteralExpr t =>
    simp only [Expr.keywordUnary, decide_eq_true_eq] at he
    obtain ⟨s1, h1⟩ := scans_literal s pre post t he hs hc hpost
    refine ⟨1, s1, ?_, h1⟩
    show 1 ≤ t.Lexeme.length
    rcases he with ⟨_, h⟩ | ⟨_, h⟩ | ⟨_, h⟩ <;> rw [h] <;> decide
  | UnaryExpr e t ih =>
    simp only [Expr.keywordUnary, Bool.and_eq_true, decide_eq_true_eq] at he
    obtain ⟨hop, hsub⟩ := he
    have hlen := operator_length t hop
    simp only [Expr.prefixText] at hs
    -- the opening parenthesis
    have h1 := scans_single s pre (t.Lexeme ++ [32] ++ e.prefixText ++ [41] ++ post) 40
      TokenType.TK_LEFT_PAREN (by rw [hs]; simp) hc scanSwitch_paren_left
    obtain ⟨_, hs1, hc1, _, hl1, _⟩ := id h1
    -- the operator
    obtain ⟨s2, h2⟩ := scans_operator _ (pre ++ [40]) (e.prefixText ++ [41] ++ post) t hop
      (by rw [hs1, hs]; simp) (by rw [hc1, hc]; simp)
    obtain ⟨_, hs2, hc2, _, hl2, _⟩ := id h2
    -- the space
    have h3 := scans_space s2 (pre ++ [40] ++ t.Lexeme) (e.prefixText ++ [41] ++ post)
      (by rw [hs2, hs1, hs]; simp) (by rw [hc2, hc1, hc]; simp [hlen])
    obtain ⟨_, hs3, hc3, _, hl3, _⟩ := id h3
    -- the operand
    obtain ⟨k, s4, hk, h4⟩ := ih hsub _ (pre ++ [40] ++ t.Lexeme ++ [32]) (41 :: post)
      (by rw [hs3, hs2, hs1, hs]; simp) (by rw [hc3, hc2, hc1, hc]; simp [hlen])
      (Or.inr ⟨41, post, rfl, by decide⟩)
    obtain ⟨_, hs4, hc4, _, hl4, _⟩ := id h4
    -- the closing parenthesis
    obtain ⟨s5, h5⟩ : ∃ s5, Scans s4 1 1 [⟨s4.Line, [41], TokenType.TK_RIGHT_PAREN⟩] s5 :=
      ⟨_, scans_single s4 (pre ++ [40] ++ t.Lexeme ++ [32] ++ e.prefixText) post 41
        TokenType.TK_RIGHT_PAREN (by rw [hs4, hs3, hs2, hs1, hs]; simp)
        (by rw [hc4, hc3, hc2, hc1, hc]; simp [hlen]; omega) scanSwitch_paren_right⟩
    have hall := scans_comp (scans_comp (scans_comp (scans_comp h1 h2) h3) h4) h5
    rw [hl4, hl3, hl2, hl1] at hall
    refine ⟨1 + 1 + 1 + k + 1, s5, ?_, ?_⟩
    · simp [Expr.prefixText, hlen]; omega
    · simp only [Expr.prefixText, Expr.prefixTokens]
      convert hall using 1
      simp [hlen]; omega

end Scanner

/-- `ScanTokens` on the rendering of a tree of keyword literals and unary
operators returns the tokens of the rendering and the EOF token, on line 1. -/
theorem scanTokens_prefixText (e : Expr) (he : e.keywordUnary = true) :
    ∃ s, (NewScanner e.prefixText).ScanTokens = some s ∧
      s.Tokens = e.prefixTokens 1 ++ [⟨1, [], TokenType.TK_EOF⟩] := by
  obtain ⟨k, s1, hk, hloop, hsrc, hcur, htok, hline, _⟩ :=
    Scanner.scans_prefixText e he (NewScanner e.prefixText) [] []
      (by simp [NewScanner]) rfl (Or.inl rfl)
  have hend : s1.IsEnd = true := by
    unfold Scanner.IsEnd
    apply decide_eq_true
    rw [hsrc, hcur]
    simp [NewScanner]
  have hl : Scanner.scanLoop (e.prefixText.length - k) s1 = some s1 := by
    cases e.prefixText.length - k with
    | zero => unfold Scanner.scanLoop; rw [hend]; rfl
    | succ n => unfold Scanner.scanLoop; rw [hend]; rfl
  refine ⟨Scanner.AddToken { s1 with Start := s1.Current } TokenType.TK_EOF, ?_, ?_⟩
  · unfold Scanner.ScanTokens
    have : (NewScanner e.prefixText).Source.length - (NewScanner e.prefixText).Current
        = (e.prefixText.length - k) + k := by
      simp [NewScanner]; omega
    rw [this, hloop, hl]
  · simp [Scanner.AddToken, Scanner.String, htok, hline, NewScanner]


namespace Parser

theorem isEnd_of_at (p : Parser) (t : Token) (hat : p.Tokens.get? p.Current = some t) :
    p.IsEnd = decide (t.Typ = TokenType.TK_EOF) := by
  have hlt : p.Current < p.Tokens.length := by
    by_contra h
    rw [List.get?_eq_none.2 (by omega)] at hat
    cases hat
  unfold IsEnd Peek
  rw [hat, decide_eq_false (by omega)]
  rfl

theorem check_of_at (p : Parser) (t : Token) (typ : TokenType)
    (hat : p.Tokens.get? p.Current = some t) (hne : t.Typ ≠ TokenType.TK_EOF) :
    p.Check typ = Result.ok (decide (t.Typ = typ)) := by
  unfold Check
  rw [isEnd_of_at p t hat, decide_eq_false hne]
  unfold Peek
  rw [hat]
  rfl

theorem check_at_eof (p : Parser) (t : Token) (typ : TokenType)
    (hat : p.Tokens.get? p.Current = some t) (he : t.Typ = TokenType.TK_EOF) :
    p.Check typ = Result.ok (decide (typ = TokenType.TK_EOF)) := by
  unfold Check
  rw [isEnd_of_at p t hat, decide_eq_true he]
  rfl

theorem advance_of_at (p : Parser) (t : Token)
    (hat : p.Tokens.get? p.Current = some t) (hne : t.Typ ≠ TokenType.TK_EOF) :
    p.Advance = (Result.ok t, { p with Current := p.Current + 1 }) := by
  unfold Advance
  rw [isEnd_of_at p t hat, decide_eq_false hne]
  unfold Peek
  rw [hat]
  rfl

/-- `MatchAny` on a token whose type is not listed: nothing is consumed. -/
theorem matchAny_miss (p : Parser) (t : Token) (types : List TokenType)
    (hat : p.Tokens.get? p.Current = some t) (hno : t.Typ ∉ types)
    (heof : TokenType.TK_EOF ∉ types) :
    p.MatchAny types = (Result.ok false, p) := by
  induction types with
  | nil => rfl
  | cons typ rest ih =>
    have h1 : t.Typ ≠ typ := fun h => hno (by simp [h])
    have h2 : typ ≠ TokenType.TK_EOF := fun h => heof (by simp [h])
    have hck : p.Check typ = Result.ok false := by
      by_cases he : t.Typ = TokenType.TK_EOF
      · rw [check_at_eof p t typ hat he, decide_eq_false h2]
      · rw [check_of_at p t typ hat he, decide_eq_false h1]
    unfold MatchAny
    rw [hck]
    exact ih (fun h => hno (by simp [h])) (fun h => heof (by simp [h]))

/-- `MatchAny` on a token whose type is listed: the token is consumed. -/
theorem matchAny_hit (p : Parser) (t : Token) (types : List TokenType)
    (hat : p.Tokens.get? p.Current = some t) (hne : t.Typ ≠ TokenType.TK_EOF)
    (hin : t.Typ ∈ types) :
    p.MatchAny types = (Result.ok true, { p with Current := p.Current + 1 }) := by
  induction types with
  | nil => simp at hin
  | cons typ rest ih =>
    unfold MatchAny
    rw [check_of_at p t typ hat hne]
    by_cases h : t.Typ = typ
    · rw [decide_eq_true h]
      dsimp only
      rw [advance_of_at p t hat hne]
    · rw [decide_eq_false h]
      dsimp only
      exact ih (by simpa [h] using hin)

theorem previous_after (p : Parser) (t : Token) (hat : p.Tokens.get? p.Current = some t) :
    ({ p with Current := p.Current + 1 } : Parser).Previous
      = (Result.ok t, { p with Current := p.Current + 1 }) := by
  unfold Previous
  dsimp only
  rw [if_neg (by omega), Nat.add_sub_cancel, hat]

/-- The loop of a binary level on a token that is none of its operators. -/
theorem binaryLoop_miss (types : List TokenType) (operand : Parser → PRes Expr)
    (fuel : Nat) (expr : Expr) (p : Parser) (t : Token)
    (hat : p.Tokens.get? p.Current = some t) (hno : t.Typ ∉ types)
    (heof : TokenType.TK_EOF ∉ types) :
    binaryLoop types operand (fuel + 1) expr p = some (Result.ok expr, p) := by
  unfold binaryLoop
  rw [matchAny_miss p t types hat hno heof]
  rfl

/-- An expression that is one unary expression followed by `)` or the end of
the input. -/
theorem parseExpression_of_unary (m : Nat) (p q : Parser) (x : Expr) (t : Token)
    (hu : ParseUnary (m + 1) p = some (Result.ok x, q))
    (hat : q.Tokens.get? q.Current = some t)
    (ht : t.Typ = TokenType.TK_RIGHT_PAREN ∨ t.Typ = TokenType.TK_EOF) :
    ParseExpression (m + 7) p = some (Result.ok x, q) := by
  have hloop : ∀ (types : List TokenType) (operand : Parser → PRes Expr) (n : Nat),
      TokenType.TK_RIGHT_PAREN ∉ types → TokenType.TK_EOF ∉ types →
      binaryLoop types operand (n + 1) x q = some (Result.ok x, q) := by
    intro types operand n h1 h2
    refine binaryLoop_miss types operand n x q t hat ?_ h2
    rcases ht with h | h <;> rw [h] <;> assumption
  have hfactor : ParseFactor (m + 2) p = some (Result.ok x, q) := by
    unfold ParseFactor
    rw [hu]
    exact hloop _ _ m (by decide) (by decide)
  have hterm : ParseTerm (m + 3) p = some (Result.ok x, q) := by
    unfold ParseTerm
    rw [hfactor]
    exact hloop _ _ (m + 1) (by decide) (by decide)
  have hcmp : ParseComparsion (m + 4) p = some (Result.ok x, q) := by
    unfold ParseComparsion
    rw [hterm]
    exact hloop _ _ (m + 2) (by decide) (by decide)
  have heq : ParseEquality (m + 5) p = some (Result.ok x, q) := by
    unfold ParseEquality
    rw [hcmp]
    exact hloop _ _ (m + 3) (by decide) (by decide)
  have hassign : ParseAssignment (m + 6) p = some (Result.ok x, q) := by
    unfold ParseAssignment
    rw [heq]
    have hm : q.MatchAny [TokenType.TK_EQUAL] = (Result.ok false, q) := by
      refine matchAny_miss q t _ hat ?_ (by decide)
      rcases ht with h | h <;> rw [h] <;> decide
    simp only [PRes.andThen, andThen, hm]
    rfl
  unfold ParseExpression
  exact hassign

end Parser

theorem get?_mid (pre : List Token) (t : Token) (rest : List Token) :
    (pre ++ t :: rest).get? pre.length = some t := by
  induction pre with
  | nil => rfl
  | cons a as ih => simpa using ih

theorem get?_at (l pre rest : List Token) (t : Token) (n : Nat)
    (h : l = pre ++ t :: rest) (hn : n = pre.length) : l.get? n = some t := by
  subst h hn
  exact get?_mid pre t rest

namespace Parser

theorem literal_type (t : Token)
    (ht : (t.Typ = TokenType.KW_TRUE ∧ t.Lexeme = ascii "true") ∨
      (t.Typ = TokenType.KW_FALSE ∧ t.Lexeme = ascii "false") ∨
      (t.Typ = TokenType.KW_NIL ∧ t.Lexeme = ascii "nil")) :
    t.Typ ∈ [TokenType.TK_NUMBER, TokenType.TK_STRING, TokenType.KW_TRUE,
        TokenType.KW_FALSE, TokenType.KW_NIL] ∧
      t.Typ ∉ [TokenType.TK_BANG, TokenType.TK_MINUS] ∧ t.Typ ≠ TokenType.TK_EOF := by
  rcases ht with ⟨h, _⟩ | ⟨h, _⟩ | ⟨h, _⟩ <;> rw [h] <;> decide

theorem operator_type (t : Token)
    (ht : (t.Typ = TokenType.TK_BANG ∧ t.Lexeme = [33]) ∨
      (t.Typ = TokenType.TK_MINUS ∧ t.Lexeme = [45])) :
    t.Typ ∈ [TokenType.TK_BANG, TokenType.TK_MINUS] ∧ t.Typ ≠ TokenType.TK_EOF := by
  rcases ht with ⟨h, _⟩ | ⟨h, _⟩ <;> rw [h] <;> decide

/-- `ParseUnary` on the tokens of the rendering of a tree of keyword literals
and unary operators, followed by `)` or the end of the input. -/
theorem parseUnary_prefix (e : Expr) (he : e.keywordUnary = true) (line : Nat)
    (p : Parser) (pre post : List Token) (term : Token) (fuel : Nat)
    (hs : p.Tokens = pre ++ e.prefixTokens line ++ term :: post)
    (hc : p.Current = pre.length)
    (hterm : term.Typ = TokenType.TK_RIGHT_PAREN ∨ term.Typ = TokenType.TK_EOF)
    (hf : e.prefixFuel ≤ fuel) :
    ParseUnary fuel p
      = some (Result.ok (e.regrouped line),
          { p with Current := p.Current + (e.prefixTokens line).length }) := by
  induction e generalizing p pre post term fuel with
  | VarExpr t => simp [Expr.keywordUnary] at he
  | AssignmentExpr t e _ => simp [Expr.keywordUnary] at he
  | GroupExpr e _ => simp [Expr.keywordUnary] at he
  | BinaryExpr l r t _ _ => simp [Expr.keywordUnary] at he
  | LiteralExpr t =>
    simp only [Expr.keywordUnary, decide_eq_true_eq] at he
    obtain ⟨h1, h2, h3⟩ := literal_type t he
    obtain ⟨n, rfl⟩ : ∃ n, fuel = n + 2 := ⟨fuel - 2, by simp [Expr.prefixFuel] at hf; omega⟩
    have hat : p.Tokens.get? p.Current = some ⟨line, t.Lexeme, t.Typ⟩ :=
      get?_at _ pre (term :: post) _ _ (by rw [hs]; simp [Expr.prefixTokens]) hc
    unfold ParseUnary
    rw [matchAny_miss p _ _ hat h2 (by decide)]
    simp only [andThen, Bool.false_eq_true, if_false]
    unfold ParsePrimary
    rw [matchAny_hit p _ _ hat h3 h1]
    simp only [andThen, if_true]
    rw [previous_after p _ hat]
    rfl
  | UnaryExpr e t ih =>
    simp only [Expr.keywordUnary, Bool.and_eq_true, decide_eq_true_eq] at he
    obtain ⟨hop, hsub⟩ := he
    obtain ⟨ho1, ho2⟩ := operator_type t hop
    obtain ⟨m, rfl⟩ : ∃ m, fuel = m + 9 := ⟨fuel - 9, by simp [Expr.prefixFuel] at hf; omega⟩
    have hm : e.prefixFuel ≤ m := by simp [Expr.prefixFuel] at hf; omega
    simp only [Expr.prefixTokens] at hs
    -- the four positions: `(`, the operator, the operand, `)`
    have hat0 : p.Tokens.get? p.Current = some ⟨line, [40], TokenType.TK_LEFT_PAREN⟩ :=
      get?_at _ pre (⟨line, t.Lexeme, t.Typ⟩ :: (e.prefixTokens line ++
          ⟨line, [41], TokenType.TK_RIGHT_PAREN⟩ :: term :: post)) _ _
        (by rw [hs]; simp) hc
    have hat1 : ({ p with Current := p.Current + 1 } : Parser).Tokens.get? (p.Current + 1)
        = some ⟨line, t.Lexeme, t.Typ⟩ :=
      get?_at _ (pre ++ [⟨line, [40], TokenType.TK_LEFT_PAREN⟩])
        (e.prefixTokens line ++ ⟨line, [41], TokenType.TK_RIGHT_PAREN⟩ :: term :: post) _ _
        (by show p.Tokens = _; rw [hs]; simp) (by simp [hc])
    have hsub_parse := ih hsub ({ p with Current := p.Current + 1 + 1 } : Parser)
      (pre ++ [⟨line, [40], TokenType.TK_LEFT_PAREN⟩, ⟨line, t.Lexeme, t.Typ⟩])
      (term :: post) ⟨line, [41], TokenType.TK_RIGHT_PAREN⟩ m
      (by show p.Tokens = _; rw [hs]; simp) (by simp [hc]) (Or.inl rfl) hm
    have hat3 : ({ p with Current := p.Current + 1 + 1 + (e.prefixTokens line).length } :
        Parser).Tokens.get? (p.Current + 1 + 1 + (e.prefixTokens line).length)
        = some ⟨line, [41], TokenType.TK_RIGHT_PAREN⟩ :=
      get?_at _ (pre ++ [⟨line, [40], TokenType.TK_LEFT_PAREN⟩,
        ⟨line, t.Lexeme, t.Typ⟩] ++ e.prefixTokens line) (term :: post) _ _
        (by show p.Tokens = _; rw [hs]; simp) (by simp [hc]; omega)
    -- the inner unary expression
    have hinner : ParseUnary (m + 1) { p with Current := p.Current + 1 }
        = some (Result.ok (Expr.UnaryExpr (e.regrouped line) ⟨line, t.Lexeme, t.Typ⟩),
            { p with Current := p.Current + 1 + 1 + (e.prefixTokens line).length }) := by
      unfold ParseUnary
      rw [matchAny_hit _ _ _ hat1 ho2 ho1]
      simp only [andThen, if_true]
      rw [previous_after _ _ hat1]
      dsimp only
      rw [hsub_parse]
      rfl
    have hexpr := parseExpression_of_unary m _ _ _ _ hinner hat3 (Or.inl rfl)
    unfold ParseUnary
    rw [matchAny_miss p _ _ hat0 (by simp) (by decide)]
    simp only [andThen, Bool.false_eq_true, if_false]
    unfold ParsePrimary
    rw [matchAny_miss p _ _ hat0 (by simp) (by decide)]
    simp only [andThen, Bool.false_eq_true, if_false]
    rw [matchAny_hit p _ _ hat0 (by simp) (by simp)]
    simp only [if_true]
    rw [hexpr]
    simp only [PRes.andThen, andThen]
    rw [matchAny_hit _ _ _ hat3 (by simp) (by simp)]
    simp only [if_true, Expr.regrouped, Expr.prefixTokens]
    congr 3
    simp
    omega

end Parser

theorem Expr.String_keywordUnary (lib : Float64Lib) (e : Expr) (he : e.keywordUnary = true) :
    Expr.String lib e = some e.prefixText := by
  induction e with
  | VarExpr t => simp [Expr.keywordUnary] at he
  | AssignmentExpr t e _ => simp [Expr.keywordUnary] at he
  | GroupExpr e _ => simp [Expr.keywordUnary] at he
  | BinaryExpr l r t _ _ => simp [Expr.keywordUnary] at he
  | LiteralExpr t =>
    simp only [Expr.keywordUnary, decide_eq_true_eq] at he
    have h : ¬ (t.Typ = TokenType.TK_NUMBER ∨ t.Typ = TokenType.TK_STRING) := by
      rcases he with ⟨h, _⟩ | ⟨h, _⟩ | ⟨h, _⟩ <;> rw [h] <;> decide
    simp only [Expr.String, if_neg h, Expr.prefixText]
  | UnaryExpr e t ih =>
    simp only [Expr.keywordUnary, Bool.and_eq_true, decide_eq_true_eq] at he
    simp only [Expr.String, ih he.2, Expr.prefixText]
    rfl

theorem Expr.skeleton_regrouped (e : Expr) (he : e.keywordUnary = true) (line : Nat) :
    (e.regrouped line).skeleton = e.skeleton := by
  induction e with
  | VarExpr t => simp [Expr.keywordUnary] at he
  | AssignmentExpr t e _ => simp [Expr.keywordUnary] at he
  | GroupExpr e _ => simp [Expr.keywordUnary] at he
  | BinaryExpr l r t _ _ => simp [Expr.keywordUnary] at he
  | LiteralExpr t => rfl
  | UnaryExpr e t ih =>
    simp only [Expr.keywordUnary, Bool.and_eq_true, decide_eq_true_eq] at he
    simp only [Expr.regrouped, Expr.skeleton, ih he.2]

theorem Expr.prefixFuel_le (e : Expr) (he : e.keywordUnary = true) (line : Nat) :
    e.prefixFuel ≤ 9 * (e.prefixTokens line).length := by
  induction e with
  | VarExpr t => simp [Expr.keywordUnary] at he
  | AssignmentExpr t e _ => simp [Expr.keywordUnary] at he
  | GroupExpr e _ => simp [Expr.keywordUnary] at he
  | BinaryExpr l r t _ _ => simp [Expr.keywordUnary] at he
  | LiteralExpr t => simp [Expr.prefixFuel, Expr.prefixTokens]
  | UnaryExpr e t ih =>
    simp only [Expr.keywordUnary, Bool.and_eq_true, decide_eq_true_eq] at he
    have := ih he.2
    simp [Expr.prefixFuel, Expr.prefixTokens]
    omega

/-- C6, the claim as stated fails: the trees parsed from `a`, `true == nil`
and `(nil)` are rendered as `(var a)`, `(== true nil)` and `(group nil)`, none
of which parses, and the tree parsed from `"a"` is rendered as `a`, which
parses to a variable reference. -/
theorem C6_rendering_does_not_reparse :
    ((parseSource (ascii "a")).map (fun r => r.1)
        = some (Result.ok (Expr.VarExpr (ident "a"))) ∧
      Expr.String natLib (Expr.VarExpr (ident "a")) = some (ascii "(var a)") ∧
      (parseSource (ascii "(var a)")).map (fun r => r.1)
        = some (Result.error (Error.ExpectExpression 1 (ascii "var")))) ∧
    ((parseSource (ascii "true == nil")).map (fun r => r.1)
        = some (Result.ok (Expr.BinaryExpr (Expr.LiteralExpr (tok TokenType.KW_TRUE "true"))
            (Expr.LiteralExpr (tok TokenType.KW_NIL "nil"))
            (tok TokenType.TK_EQUAL_EQUAL "=="))) ∧
      Expr.String natLib (Expr.BinaryExpr (Expr.LiteralExpr (tok TokenType.KW_TRUE "true"))
            (Expr.LiteralExpr (tok TokenType.KW_NIL "nil"))
            (tok TokenType.TK_EQUAL_EQUAL "==")) = some (ascii "(== true nil)") ∧
      (parseSource (ascii "(== true nil)")).map (fun r => r.1)
        = some (Result.error (Error.ExpectExpression 1 (ascii "==")))) ∧
    ((parseSource (ascii "(nil)")).map (fun r => r.1)
        = some (Result.ok (Expr.GroupExpr (Expr.LiteralExpr (tok TokenType.KW_NIL "nil")))) ∧
      Expr.String natLib (Expr.GroupExpr (Expr.LiteralExpr (tok TokenType.KW_NIL "nil")))
        = some (ascii "(group nil)") ∧
      (parseSource (ascii "(group nil)")).map (fun r => r.1)
        = some (Result.error Error.UnmatchedParen)) ∧
    ((parseSource (ascii "\"a\"")).map (fun r => r.1) = some (Result.ok (litStr "a")) ∧
      Expr.String natLib (litStr "a") = some (ascii "a") ∧
      (parseSource (ascii "a")).map (fun r => r.1)
        = some (Result.ok (Expr.VarExpr (ident "a")))) := by
  decide!

/-- C6, amended: for a tree of the keyword literals `true`, `false`, `nil`
under the unary operators `!` and `-`, scanning and parsing the text given by
`String` succeeds and yields a tree with the same skeleton: the same tree up
to token lines and grouping nodes. -/
theorem C6_keyword_unary_round_trip (lib : Float64Lib) (e : Expr)
    (he : e.keywordUnary = true) :
    ∃ text e1 p, Expr.String lib e = some text ∧
      parseSource text = some (Result.ok e1, p) ∧ e1.skeleton = e.skeleton := by
  obtain ⟨s, hscan, htok⟩ := scanTokens_prefixText e he
  have hfuel := Expr.prefixFuel_le e he 1
  obtain ⟨m, hm⟩ : ∃ m, Parser.budget s.Tokens = m + 7 :=
    ⟨Parser.budget s.Tokens - 7, by unfold Parser.budget; omega⟩
  have hunary := Parser.parseUnary_prefix e he 1 (NewParser s.Tokens) []
    [] ⟨1, [], TokenType.TK_EOF⟩ (m + 1) (by simp [NewParser, htok]) rfl (Or.inr rfl)
    (by
      unfold Parser.budget at hm
      rw [htok] at hm
      simp only [List.length_append, List.length_singleton] at hm
      omega)
  have hexpr := Parser.parseExpression_of_unary m _ _ _ ⟨1, [], TokenType.TK_EOF⟩ hunary
    (get?_at _ (e.prefixTokens 1) [] _ _ (by simp [NewParser, htok]) (by simp [NewParser]))
    (Or.inr rfl)
  refine ⟨e.prefixText, e.regrouped 1,
    { Tokens := (NewParser s.Tokens).Tokens,
      Current := (NewParser s.Tokens).Current + (e.prefixTokens 1).length },
    Expr.String_keywordUnary lib e he, ?_, Expr.skeleton_regrouped e he 1⟩
  unfold parseSource
  rw [hscan]
  dsimp only
  rw [hm]
  exact hexpr

/-- C6 amended, at the tree of `-!true`, rendered as `(- (! true))`. -/
theorem C6_keyword_unary_round_trip_witness :
    ∃ text e1 p,
      Expr.String natLib
          (Expr.UnaryExpr
            (Expr.UnaryExpr (Expr.LiteralExpr (tok TokenType.KW_TRUE "true"))
              (tok TokenType.TK_BANG "!"))
            (tok TokenType.TK_MINUS "-")) = some text ∧
        parseSource text = some (Result.ok e1, p) ∧
        e1.skeleton =
          (Expr.UnaryExpr
            (Expr.UnaryExpr (Expr.LiteralExpr (tok TokenType.KW_TRUE "true"))
              (tok TokenType.TK_BANG "!"))
            (tok TokenType.TK_MINUS "-")).skeleton :=
  C6_keyword_unary_round_trip natLib _ (by decide)

/-! ## Arithmetic, comparison and unary operators -/

/-- C11: with the operator `-`, `*` or `/`, a binary expression whose operands
evaluate to two Numbers yields the Number computed by the operator, a zero
divisor included; with any other pair of operand values it returns the error
of `EvalIfMatch`. So it yields a value exactly when both operands are
Numbers. -/
theorem C11_arithmetic_needs_numbers (lib : Float64Lib) (left right : Expr) (optr : Token)
    (g g1 g2 : Env) (lhs rhs : ValueType)
    (hop : optr.Typ = TokenType.TK_MINUS ∨ optr.Typ = TokenType.TK_STAR ∨
      optr.Typ = TokenType.TK_SLASH)
    (hl : Expr.Eval lib left g = (Result.ok lhs, g1))
    (hr : Expr.Eval lib right g1 = (Result.ok rhs, g2)) :
    (∀ a b : F64, lhs = ValueType.NumberType a → rhs = ValueType.NumberType b →
        Expr.Eval lib (Expr.BinaryExpr left right optr) g
          = (Result.ok (ValueType.NumberType
              (if optr.Typ = TokenType.TK_MINUS then lib.sub a b
               else if optr.Typ = TokenType.TK_STAR then lib.mul a b
               else lib.div a b)), g2)) ∧
      (¬ (lhs.Typ = TypeName.VT_Number ∧ rhs.Typ = TypeName.VT_Number) →
        Expr.Eval lib (Expr.BinaryExpr left right optr) g
          = (Result.error Error.UnmatchFunctors, g2)) ∧
      ((∃ v, Expr.Eval lib (Expr.BinaryExpr left right optr) g = (Result.ok v, g2)) ↔
        (lhs.Typ = TypeName.VT_Number ∧ rhs.Typ = TypeName.VT_Number)) := by
  have h1 : ∀ a b : F64, lhs = ValueType.NumberType a → rhs = ValueType.NumberType b →
      Expr.Eval lib (Expr.BinaryExpr left right optr) g
        = (Result.ok (ValueType.NumberType
            (if optr.Typ = TokenType.TK_MINUS then lib.sub a b
             else if optr.Typ = TokenType.TK_STAR then lib.mul a b
             else lib.div a b)), g2) := by
    intro a b ha hb
    subst ha hb
    rcases hop with h | h | h <;>
      simp [Expr.Eval, hl, hr, BinaryExpr.apply, h, EvalIfMatch, EvalMinus, EvalMul, EvalDiv,
        EvalGeneric, ValueType.isA, numberOp]
  have h2 : ¬ (lhs.Typ = TypeName.VT_Number ∧ rhs.Typ = TypeName.VT_Number) →
      Expr.Eval lib (Expr.BinaryExpr left right optr) g
        = (Result.error Error.UnmatchFunctors, g2) := by
    intro hn
    rcases hop with h | h | h <;> cases lhs <;> cases rhs <;>
      simp_all [Expr.Eval, BinaryExpr.apply, EvalIfMatch, EvalMinus, EvalMul, EvalDiv,
        EvalGeneric, ValueType.isA, ValueType.Typ]
  refine ⟨h1, h2, ?_⟩
  constructor
  · rintro ⟨v, hv⟩
    by_contra hn
    rw [h2 hn] at hv
    cases hv
  · rintro ⟨ha, hb⟩
    cases lhs <;> cases rhs <;> simp [ValueType.Typ] at ha hb
    exact ⟨_, h1 _ _ rfl rfl⟩

/-- C11 at `1 / 0`, which yields a Number, and at `1 - nil`, which fails. -/
theorem C11_arithmetic_needs_numbers_witness :
    Expr.Eval natLib
        (Expr.BinaryExpr litOne (Expr.LiteralExpr (tok TokenType.TK_NUMBER "0"))
          (tok TokenType.TK_SLASH "/")) Env.empty
        = (Result.ok (ValueType.NumberType F64.inf), Env.empty) ∧
      Expr.Eval natLib
        (Expr.BinaryExpr litOne (Expr.LiteralExpr (tok TokenType.KW_NIL "nil"))
          (tok TokenType.TK_MINUS "-")) Env.empty
        = (Result.error Error.UnmatchFunctors, Env.empty) :=
  ⟨(C11_arithmetic_needs_numbers natLib litOne
      (Expr.LiteralExpr (tok TokenType.TK_NUMBER "0")) (tok TokenType.TK_SLASH "/")
      Env.empty Env.empty Env.empty (ValueType.NumberType (F64.ofNat 1))
      (ValueType.NumberType F64.zero) (Or.inr (Or.inr rfl)) rfl rfl).1
      (F64.ofNat 1) F64.zero rfl rfl,
   (C11_arithmetic_needs_numbers natLib litOne
      (Expr.LiteralExpr (tok TokenType.KW_NIL "nil")) (tok TokenType.TK_MINUS "-")
      Env.empty Env.empty Env.empty (ValueType.NumberType (F64.ofNat 1))
      ValueType.NilType (Or.inl rfl) rfl rfl).2.1 (by decide)⟩

/-- C13: unary `!` on an operand that evaluates to `v` yields the Boolean
negation of the truthiness of `v`, for every `v`. -/
theorem C13_bang_negates_truthiness (lib : Float64Lib) (e : Expr) (optr : Token)
    (g g1 : Env) (v : ValueType)
    (hop : optr.Typ = TokenType.TK_BANG)
    (he : Expr.Eval lib e g = (Result.ok v, g1)) :
    Expr.Eval lib (Expr.UnaryExpr e optr) g
      = (Result.ok (ValueType.BoolType (!IsTruthy v)), g1) := by
  simp [Expr.Eval, he, UnaryExpr.apply, hop]

/-- C13 at `!nil` and `!"a"`. -/
theorem C13_bang_negates_truthiness_witness :
    Expr.Eval natLib
        (Expr.UnaryExpr (Expr.LiteralExpr (tok TokenType.KW_NIL "nil"))
          (tok TokenType.TK_BANG "!")) Env.empty
        = (Result.ok (ValueType.BoolType true), Env.empty) ∧
      Expr.Eval natLib (Expr.UnaryExpr (litStr "a") (tok TokenType.TK_BANG "!")) Env.empty
        = (Result.ok (ValueType.BoolType false), Env.empty) :=
  ⟨C13_bang_negates_truthiness natLib (Expr.LiteralExpr (tok TokenType.KW_NIL "nil"))
      (tok TokenType.TK_BANG "!") Env.empty Env.empty ValueType.NilType rfl rfl,
   C13_bang_negates_truthiness natLib (litStr "a") (tok TokenType.TK_BANG "!")
      Env.empty Env.empty (ValueType.StringType (ascii "a")) rfl rfl⟩

/-- The examples of `%v` on natural numbers: plain digits below `10 ^ 6`,
exponent form from there on. -/
theorem fmtNatV_examples :
    fmtNatV 123456 = ascii "123456" ∧ fmtNatV 1000000 = ascii "1e+06" ∧
      fmtNatV 1234567 = ascii "1.234567e+06" ∧ fmtNatV 12000000000 = ascii "1.2e+10" := by
  decide!

/-- Flipping the sign bit negates the sign-magnitude reading of the bits and
keeps a NaN a NaN: the value is negated. -/
theorem F64.neg_spec (x : F64) :
    F64.neg x = ⟨!x.sign, x.expo, x.frac⟩ ∧ (F64.neg x).key = -x.key ∧
      (F64.neg x).isNaN = x.isNaN ∧ F64.neg (F64.neg x) = x := by
  refine ⟨rfl, ?_, rfl, ?_⟩
  · unfold F64.neg F64.key
    cases x.sign <;> simp
  · unfold F64.neg
    cases x with
    | mk s e f => cases s <;> rfl

/-- C14: unary `-` on an operand that evaluates to the Number `x` yields the
Number with the sign bit of `x` flipped and the exponent and fraction of `x`,
whose sign-magnitude reading is the negation of that of `x`, so that `-x` is
the negated value, a NaN stays a NaN and `-0` comes from `0`; on an operand
that evaluates to Nil, a Boolean or a String it returns an error. So it yields
a value exactly when the operand is a Number. -/
theorem C14_minus_needs_number (lib : Float64Lib) (e : Expr) (optr : Token)
    (g g1 : Env) (v : ValueType)
    (hop : optr.Typ = TokenType.TK_MINUS)
    (he : Expr.Eval lib e g = (Result.ok v, g1)) :
    (∀ x : F64, v = ValueType.NumberType x →
        Expr.Eval lib (Expr.UnaryExpr e optr) g
          = (Result.ok (ValueType.NumberType ⟨!x.sign, x.expo, x.frac⟩), g1) ∧
        F64.key ⟨!x.sign, x.expo, x.frac⟩ = -x.key ∧
        F64.isNaN ⟨!x.sign, x.expo, x.frac⟩ = x.isNaN ∧
        (F64.eq x F64.zero = true → F64.eq ⟨!x.sign, x.expo, x.frac⟩ F64.zero = true) ∧
        (x.isNaN = false → F64.lt F64.zero x = F64.lt ⟨!x.sign, x.expo, x.frac⟩ F64.zero)) ∧
      (v.Typ ≠ TypeName.VT_Number →
        Expr.Eval lib (Expr.UnaryExpr e optr) g
          = (Result.error (Error.UnknownUnary optr.Lexeme), g1)) ∧
      ((∃ r, Expr.Eval lib (Expr.UnaryExpr e optr) g = (Result.ok r, g1)) ↔
        v.Typ = TypeName.VT_Number) := by
  refine ⟨?_, ?_, ?_⟩
  · intro x hx
    subst hx
    have hkey : F64.key ⟨!x.sign, x.expo, x.frac⟩ = -x.key := (F64.neg_spec x).2.1
    have hnan : F64.isNaN ⟨!x.sign, x.expo, x.frac⟩ = x.isNaN := rfl
    refine ⟨?_, hkey, hnan, ?_, ?_⟩
    · simp [Expr.Eval, he, UnaryExpr.apply, hop, F64.neg]
    · intro h0
      unfold F64.eq at h0 ⊢
      rw [hnan, hkey]
      simp only [Bool.and_eq_true, Bool.not_eq_true', decide_eq_true_eq] at h0 ⊢
      refine ⟨h0.1, ?_⟩
      have hz : F64.zero.key = 0 := by decide
      rw [hz] at h0 ⊢
      omega
    · intro hn
      unfold F64.lt
      rw [hnan, hkey, hn]
      have hz : F64.zero.key = 0 := by decide
      have hzn : F64.zero.isNaN = false := by decide
      rw [hz, hzn]
      simp only [Bool.not_false, Bool.true_and]
      congr 1
      apply propext
      constructor <;> intro h <;> omega
  · intro hv
    cases v <;> simp_all [Expr.Eval, UnaryExpr.apply, ValueType.Typ]
  · cases v <;> simp [Expr.Eval, he, UnaryExpr.apply, hop, ValueType.Typ]

/-- C14 at `-1`, whose value has the bits of `1` (sign 0, exponent 1023,
fraction 0) with the sign bit set, and at `-"a"`. -/
theorem C14_minus_needs_number_witness :
    F64.ofNat 1 = ⟨false, 1023, 0⟩ ∧
      Expr.Eval natLib (Expr.UnaryExpr litOne (tok TokenType.TK_MINUS "-")) Env.empty
        = (Result.ok (ValueType.NumberType ⟨true, 1023, 0⟩), Env.empty) ∧
      Expr.Eval natLib (Expr.UnaryExpr (litStr "a") (tok TokenType.TK_MINUS "-")) Env.empty
        = (Result.error (Error.UnknownUnary (ascii "-")), Env.empty) :=
  ⟨by decide!,
   ((C14_minus_needs_number natLib litOne (tok TokenType.TK_MINUS "-") Env.empty Env.empty
      (ValueType.NumberType ⟨false, 1023, 0⟩) rfl rfl).1 ⟨false, 1023, 0⟩ rfl).1,
   (C14_minus_needs_number natLib (litStr "a") (tok TokenType.TK_MINUS "-") Env.empty
      Env.empty (ValueType.StringType (ascii "a")) rfl rfl).2.1 (by decide)⟩

theorem strLt_iff_lex (s t : GoString) : strLt s t = true ↔ List.Lex (· < ·) s t := by
  induction s generalizing t with
  | nil =>
    cases t with
    | nil => simp [strLt]
    | cons b bs => simp [strLt, List.Lex.nil]
  | cons a as ih =>
    cases t with
    | nil => simp [strLt]
    | cons b bs =>
      unfold strLt
      by_cases h1 : a < b
      · simp [h1, List.Lex.rel h1]
      · by_cases h2 : b < a
        · simp only [h1, h2, if_false, if_true]
          constructor
          · intro h; cases h
          · intro h
            cases h with
            | cons h => exact absurd h2 (Nat.lt_irrefl _)
            | rel h => exact absurd h h1
        · have hab : a = b := by omega
          subst hab
          simp only [h1, if_false]
          rw [ih bs]
          constructor
          · intro h; exact List.Lex.cons h
          · intro h
            cases h with
            | cons h => exact h
            | rel h => exact absurd h h1

theorem strLe_eq_not_strLt (s t : GoString) : strLe s t = !strLt t s := by
  induction s generalizing t with
  | nil => cases t <;> rfl
  | cons a as ih =>
    cases t with
    | nil => rfl
    | cons b bs =>
      unfold strLe strLt
      by_cases h1 : a < b
      · have h2 : ¬ b < a := by omega
        simp [h1, h2]
      · by_cases h2 : b < a
        · simp [h1, h2]
        · simp [h1, h2, ih bs]

theorem strLt_trichotomy (s t : GoString) :
    (strLt s t = true ∧ s ≠ t ∧ strLt t s = false) ∨
      (strLt s t = false ∧ s = t ∧ strLt t s = false) ∨
      (strLt s t = false ∧ s ≠ t ∧ strLt t s = true) := by
  induction s generalizing t with
  | nil => cases t <;> simp [strLt]
  | cons a as ih =>
    cases t with
    | nil => simp [strLt]
    | cons b bs =>
      unfold strLt
      by_cases h1 : a < b
      · have h2 : ¬ b < a := by omega
        have h3 : a ≠ b := by omega
        simp [h1, h2, h3]
      · by_cases h2 : b < a
        · have h3 : a ≠ b := by omega
          simp [h1, h2, h3]
        · have hab : a = b := by omega
          subst hab
          simp only [h1, if_false, List.cons.injEq, true_and, ne_eq]
          exact ih bs

/-- C12: with the operator `<`, `<=`, `>` or `>=`, a binary expression whose
operands evaluate to the Strings `s` and `t` yields the Boolean of Go's
byte-wise comparison; `s < t` is the lexicographic order of the bytes, exactly
one of `s < t`, `s = t`, `s > t` holds, and `s <= t`, `s >= t` are the
negations of `s > t`, `s < t`. With operands that are neither two Numbers nor
two Strings the expression returns the error of `EvalIfMatch`. -/
theorem C12_string_comparison (lib : Float64Lib) (left right : Expr) (optr : Token)
    (g g1 g2 : Env) (lhs rhs : ValueType)
    (hl : Expr.Eval lib left g = (Result.ok lhs, g1))
    (hr : Expr.Eval lib right g1 = (Result.ok rhs, g2)) :
    (∀ s t : GoString, lhs = ValueType.StringType s → rhs = ValueType.StringType t →
        (optr.Typ = TokenType.TK_LESS →
          Expr.Eval lib (Expr.BinaryExpr left right optr) g
            = (Result.ok (ValueType.BoolType (strLt s t)), g2)) ∧
        (optr.Typ = TokenType.TK_LESS_EQUAL →
          Expr.Eval lib (Expr.BinaryExpr left right optr) g
            = (Result.ok (ValueType.BoolType (strLe s t)), g2)) ∧
        (optr.Typ = TokenType.TK_GREATER →
          Expr.Eval lib (Expr.BinaryExpr left right optr) g
            = (Result.ok (ValueType.BoolType (strGt s t)), g2)) ∧
        (optr.Typ = TokenType.TK_GREATER_EQUAL →
          Expr.Eval lib (Expr.BinaryExpr left right optr) g
            = (Result.ok (ValueType.BoolType (strGe s t)), g2)) ∧
        (strLt s t = true ↔ List.Lex (· < ·) s t) ∧
        ((strLt s t = true ∧ s ≠ t ∧ strGt s t = false) ∨
          (strLt s t = false ∧ s = t ∧ strGt s t = false) ∨
          (strLt s t = false ∧ s ≠ t ∧ strGt s t = true)) ∧
        strLe s t = (!strGt s t) ∧ strGe s t = (!strLt s t)) ∧
      (optr.Typ = TokenType.TK_LESS ∨ optr.Typ = TokenType.TK_LESS_EQUAL ∨
          optr.Typ = TokenType.TK_GREATER ∨ optr.Typ = TokenType.TK_GREATER_EQUAL →
        ¬ (lhs.Typ = TypeName.VT_Number ∧ rhs.Typ = TypeName.VT_Number) →
        ¬ (lhs.Typ = TypeName.VT_String ∧ rhs.Typ = TypeName.VT_String) →
        Expr.Eval lib (Expr.BinaryExpr left right optr) g
          = (Result.error Error.UnmatchFunctors, g2)) := by
  constructor
  · intro s t hs ht
    subst hs ht
    refine ⟨?_, ?_, ?_, ?_, strLt_iff_lex s t, strLt_trichotomy s t,
      strLe_eq_not_strLt s t, strLe_eq_not_strLt t s⟩
    all_goals
      intro h
      simp [Expr.Eval, hl, hr, BinaryExpr.apply, h, EvalIfMatch, EvalLess, EvalLessEqual,
        EvalGreater, EvalGreaterEqual, EvalGeneric, ValueType.isA, compareOp, ValueType.Typ]
  · intro hop hn hs
    rcases hop with h | h | h | h <;> cases lhs <;> cases rhs <;>
      simp_all [Expr.Eval, BinaryExpr.apply, EvalIfMatch, EvalLess, EvalLessEqual,
        EvalGreater, EvalGreaterEqual, EvalGeneric, ValueType.isA, ValueType.Typ]

/-- C12 at `"a" < "b"` and `"a" >= 1`. -/
theorem C12_string_comparison_witness :
    Expr.Eval natLib
        (Expr.BinaryExpr (litStr "a") (litStr "b") (tok TokenType.TK_LESS "<")) Env.empty
        = (Result.ok (ValueType.BoolType true), Env.empty) ∧
      Expr.Eval natLib
        (Expr.BinaryExpr (litStr "a") litOne (tok TokenType.TK_GREATER_EQUAL ">=")) Env.empty
        = (Result.error Error.UnmatchFunctors, Env.empty) :=
  ⟨((C12_string_comparison natLib (litStr "a") (litStr "b") (tok TokenType.TK_LESS "<")
      Env.empty Env.empty Env.empty (ValueType.StringType (ascii "a"))
      (ValueType.StringType (ascii "b")) rfl rfl).1 (ascii "a") (ascii "b") rfl rfl).1 rfl,
   (C12_string_comparison natLib (litStr "a") litOne (tok TokenType.TK_GREATER_EQUAL ">=")
      Env.empty Env.empty Env.empty (ValueType.StringType (ascii "a"))
      (ValueType.NumberType (F64.ofNat 1)) rfl rfl).2 (Or.inr (Or.inr (Or.inr rfl)))
      (by decide) (by decide)⟩

/-! ## Parser -/

/-- C16: after an expression parsed by `ParseEquality` and a `=` token,
`ParseAssignment` parses the right side as an assignment; when the left
expression is not a variable reference it returns an error, `Invalid
assignment expression.` or the error of the right side, and when it is the
variable `x` and the right side parses to `e` it returns `Assignment(x, e)`.
So `a = b = e` parses to `Assignment(a, Assignment(b, e))`. -/
theorem C16_assignment_targets (fuel : Nat) (p p1 : Parser) (left : Expr) (eq : Token)
    (hleft : Parser.ParseEquality fuel p = some (Result.ok left, p1))
    (hat : p1.Tokens.get? p1.Current = some eq) (heq : eq.Typ = TokenType.TK_EQUAL) :
    (∀ (val : Expr) (p3 : Parser), (∀ x, left ≠ Expr.VarExpr x) →
        Parser.ParseAssignment fuel { p1 with Current := p1.Current + 1 }
          = some (Result.ok val, p3) →
        Parser.ParseAssignment (fuel + 1) p = some (Result.error Error.InvalidAssignment, p3)) ∧
      (∀ (err : Error) (p3 : Parser), (∀ x, left ≠ Expr.VarExpr x) →
        Parser.ParseAssignment fuel { p1 with Current := p1.Current + 1 }
          = some (Result.error err, p3) →
        Parser.ParseAssignment (fuel + 1) p = some (Result.error err, p3)) ∧
      (∀ (x : Token) (e : Expr) (p3 : Parser), left = Expr.VarExpr x →
        Parser.ParseAssignment fuel { p1 with Current := p1.Current + 1 }
          = some (Result.ok e, p3) →
        Parser.ParseAssignment (fuel + 1) p
          = some (Result.ok (Expr.AssignmentExpr x e), p3)) ∧
      (∀ (a b eq2 : Token) (e : Expr) (p3 p5 : Parser), left = Expr.VarExpr a →
        Parser.ParseEquality (fuel - 1) { p1 with Current := p1.Current + 1 }
          = some (Result.ok (Expr.VarExpr b), p3) →
        p3.Tokens.get? p3.Current = some eq2 → eq2.Typ = TokenType.TK_EQUAL →
        Parser.ParseAssignment (fuel - 1) { p3 with Current := p3.Current + 1 }
          = some (Result.ok e, p5) →
        1 ≤ fuel →
        Parser.ParseAssignment (fuel + 1) p
          = some (Result.ok (Expr.AssignmentExpr a (Expr.AssignmentExpr b e)), p5)) := by
  have hm : p1.MatchAny [TokenType.TK_EQUAL]
      = (Result.ok true, { p1 with Current := p1.Current + 1 }) :=
    Parser.matchAny_hit p1 eq _ hat (by rw [heq]; decide) (by rw [heq]; simp)
  have hvar : ∀ (x : Token) (e : Expr) (p3 : Parser), left = Expr.VarExpr x →
      Parser.ParseAssignment fuel { p1 with Current := p1.Current + 1 }
        = some (Result.ok e, p3) →
      Parser.ParseAssignment (fuel + 1) p
        = some (Result.ok (Expr.AssignmentExpr x e), p3) := by
    intro x e p3 hx hright
    subst hx
    unfold Parser.ParseAssignment
    rw [hleft]
    simp only [PRes.andThen, andThen, hm, if_true, hright]
  refine ⟨?_, ?_, hvar, ?_⟩
  · intro val p3 hnv hright
    unfold Parser.ParseAssignment
    rw [hleft]
    simp only [PRes.andThen, andThen, hm, if_true, hright]
  · intro err p3 _ hright
    unfold Parser.ParseAssignment
    rw [hleft]
    simp only [PRes.andThen, andThen, hm, if_true, hright]
  · intro a b eq2 e p3 p5 ha hb hat2 heq2 he hf
    obtain ⟨n, rfl⟩ : ∃ n, fuel = n + 1 := ⟨fuel - 1, by omega⟩
    simp only [Nat.add_sub_cancel] at hb he
    have hm2 : p3.MatchAny [TokenType.TK_EQUAL]
        = (Result.ok true, { p3 with Current := p3.Current + 1 }) :=
      Parser.matchAny_hit p3 eq2 _ hat2 (by rw [heq2]; decide) (by rw [heq2]; simp)
    refine hvar a _ p5 ha ?_
    unfold Parser.ParseAssignment
    rw [hb]
    simp only [PRes.andThen, andThen, hm2, if_true, he]

/-- C16 on the tokens of `1 = 2` and of `a = b = 1`. -/
theorem C16_assignment_targets_witness :
    Parser.ParseAssignment 21
        (NewParser [tok TokenType.TK_NUMBER "1", tok TokenType.TK_EQUAL "=",
          tok TokenType.TK_NUMBER "2", tok TokenType.TK_EOF ""])
      = some (Result.error Error.InvalidAssignment,
          ⟨[tok TokenType.TK_NUMBER "1", tok TokenType.TK_EQUAL "=",
            tok TokenType.TK_NUMBER "2", tok TokenType.TK_EOF ""], 3⟩) ∧
    Parser.ParseAssignment 21
        (NewParser [ident "a", tok TokenType.TK_EQUAL "=", ident "b",
          tok TokenType.TK_EQUAL "=", tok TokenType.TK_NUMBER "1", tok TokenType.TK_EOF ""])
      = some (Result.ok (Expr.AssignmentExpr (ident "a")
            (Expr.AssignmentExpr (ident "b") litOne)),
          ⟨[ident "a", tok TokenType.TK_EQUAL "=", ident "b",
            tok TokenType.TK_EQUAL "=", tok TokenType.TK_NUMBER "1", tok TokenType.TK_EOF ""],
            5⟩) :=
  ⟨(C16_assignment_targets 20
      (NewParser [tok TokenType.TK_NUMBER "1", tok TokenType.TK_EQUAL "=",
        tok TokenType.TK_NUMBER "2", tok TokenType.TK_EOF ""])
      ⟨[tok TokenType.TK_NUMBER "1", tok TokenType.TK_EQUAL "=",
        tok TokenType.TK_NUMBER "2", tok TokenType.TK_EOF ""], 1⟩
      litOne (tok TokenType.TK_EQUAL "=") (by decide!) (by decide!) rfl).1
      (Expr.LiteralExpr (tok TokenType.TK_NUMBER "2")) _
      (by intro x h; simp [litOne] at h) (by decide!),
   (C16_assignment_targets 20
      (NewParser [ident "a", tok TokenType.TK_EQUAL "=", ident "b",
        tok TokenType.TK_EQUAL "=", tok TokenType.TK_NUMBER "1", tok TokenType.TK_EOF ""])
      ⟨[ident "a", tok TokenType.TK_EQUAL "=", ident "b",
        tok TokenType.TK_EQUAL "=", tok TokenType.TK_NUMBER "1", tok TokenType.TK_EOF ""], 1⟩
      (Expr.VarExpr (ident "a")) (tok TokenType.TK_EQUAL "=") (by decide!) (by decide!)
      rfl).2.2.2 (ident "a") (ident "b") (tok TokenType.TK_EQUAL "=") litOne
      ⟨[ident "a", tok TokenType.TK_EQUAL "=", ident "b",
        tok TokenType.TK_EQUAL "=", tok TokenType.TK_NUMBER "1", tok TokenType.TK_EOF ""], 3⟩
      _ rfl (by decide!) (by decide!) rfl (by decide!) (by decide)⟩

/-- The sources `1 = 2`, `(a) = 1`, `-a = 1` and `a + b = 1` are rejected with
`Invalid assignment expression.`, and `a = b = 1` parses to nested
assignments. -/
theorem assignment_target_examples :
    (parseSource (ascii "1 = 2")).map (fun r => r.1)
        = some (Result.error Error.InvalidAssignment) ∧
      (parseSource (ascii "(a) = 1")).map (fun r => r.1)
        = some (Result.error Error.InvalidAssignment) ∧
      (parseSource (ascii "-a = 1")).map (fun r => r.1)
        = some (Result.error Error.InvalidAssignment) ∧
      (parseSource (ascii "a + b = 1")).map (fun r => r.1)
        = some (Result.error Error.InvalidAssignment) ∧
      (parseSource (ascii "a = b = 1")).map (fun r => r.1)
        = some (Result.ok (Expr.AssignmentExpr (ident "a")
            (Expr.AssignmentExpr (ident "b") litOne))) := by
  decide!

/-- C17 fails on the code: a missing `;` after a print statement, an
expression statement or a variable declaration, a missing identifier after
`var`, a missing closing brace and an unclosed `(` give the same fixed text
whether the current token is the end of line 1 or a token `zz` on line 3; the
text holds neither the line nor the lexeme. The error of `ParsePrimary` for a
token that starts no expression, built a few lines below the one for the
unclosed `(`, does hold both. -/
theorem C17_fixed_error_texts :
    (errorText natLib (parseProgram (ascii "print 1")) = some (ascii "Expect ';' after value.") ∧
      errorText natLib (parseProgram (ascii "\n\nprint 1 zz"))
        = some (ascii "Expect ';' after value.")) ∧
    (errorText natLib (parseProgram (ascii "1")) = some (ascii "Expect ';' after expression.") ∧
      errorText natLib (parseProgram (ascii "\n\n1 zz"))
        = some (ascii "Expect ';' after expression.")) ∧
    (errorText natLib (parseProgram (ascii "var a")) = some (ascii "Expect ';' after expression") ∧
      errorText natLib (parseProgram (ascii "\n\nvar a = 1 zz"))
        = some (ascii "Expect ';' after expression")) ∧
    (errorText natLib (parseProgram (ascii "var")) = some (ascii "Expect an Identifier") ∧
      errorText natLib (parseProgram (ascii "\n\nvar 1"))
        = some (ascii "Expect an Identifier")) ∧
    (errorText natLib (parseProgram (ascii "\x7b 1;"))
        = some (ascii "Expect '\x7d' after block.") ∧
      errorText natLib (parseProgram (ascii "\n\n\x7b 1; \n 2; \n"))
        = some (ascii "Expect '\x7d' after block.")) ∧
    (errorText natLib (parseSource (ascii "(1")) = some (ascii "Error: unmatched parenthesis") ∧
      errorText natLib (parseSource (ascii "\n\n(1 zz"))
        = some (ascii "Error: unmatched parenthesis")) ∧
    (errorText natLib (parseSource (ascii "\n\n+"))
        = some (ascii "[line 3] Error at '+': Expect expression") ∧
      errorText natLib (parseProgram (ascii "print ;"))
        = some (ascii "[line 1] Error at ';': Expect expression")) := by
  decide!

/-- The texts of the syntax errors, for every parser state: when the current
token is not the expected one, `Expect`
returns an error whose text is its argument `msg` and nothing else; an
expression in parentheses that is not followed by `)` gives the fixed text
`Error: unmatched parenthesis`; and a current token that starts no expression
gives `[line N] Error at 'lexeme': Expect expression` with the line and the
lexeme of that token. -/
theorem syntax_error_texts (lib : Float64Lib) (p : Parser) (t : Token)
    (hat : p.Tokens.get? p.Current = some t) :
    (∀ (tk : TokenType) (msg : String), t.Typ ≠ tk → tk ≠ TokenType.TK_EOF →
        p.Expect tk msg = (Result.error (Error.Expected msg), p) ∧
          (Error.Expected msg).text lib = ascii msg) ∧
      (∀ (fuel : Nat) (e : Expr) (p3 : Parser) (t3 : Token),
        t.Typ = TokenType.TK_LEFT_PAREN →
        Parser.ParseExpression fuel { p with Current := p.Current + 1 }
          = some (Result.ok e, p3) →
        p3.Tokens.get? p3.Current = some t3 → t3.Typ ≠ TokenType.TK_RIGHT_PAREN →
        Parser.ParsePrimary (fuel + 1) p = some (Result.error Error.UnmatchedParen, p3) ∧
          Error.UnmatchedParen.text lib = ascii "Error: unmatched parenthesis") ∧
      (∀ fuel : Nat,
        t.Typ ∉ [TokenType.TK_NUMBER, TokenType.TK_STRING, TokenType.KW_TRUE,
          TokenType.KW_FALSE, TokenType.KW_NIL, TokenType.TK_LEFT_PAREN,
          TokenType.TK_IDENTIFIER] →
        Parser.ParsePrimary (fuel + 1) p
            = some (Result.error (Error.ExpectExpression t.Line t.Lexeme), p) ∧
          (Error.ExpectExpression t.Line t.Lexeme).text lib
            = ascii "[line " ++ decimalText t.Line ++ ascii "] Error at '" ++ t.Lexeme ++
                ascii "': Expect expression") := by
  refine ⟨?_, ?_, ?_⟩
  · intro tk msg hty hne
    refine ⟨?_, rfl⟩
    have hck : p.Check tk = Result.ok false := by
      by_cases he : t.Typ = TokenType.TK_EOF
      · rw [Parser.check_at_eof p t tk hat he, decide_eq_false hne]
      · rw [Parser.check_of_at p t tk hat he, decide_eq_false hty]
    unfold Parser.Expect
    rw [hck]
  · intro fuel e p3 t3 hty hexpr hat3 hty3
    refine ⟨?_, rfl⟩
    unfold Parser.ParsePrimary
    rw [Parser.matchAny_miss p t _ hat (by rw [hty]; decide) (by decide)]
    simp only [andThen, Bool.false_eq_true, if_false]
    rw [Parser.matchAny_hit p t _ hat (by rw [hty]; decide) (by rw [hty]; simp)]
    simp only [if_true]
    rw [hexpr]
    simp only [PRes.andThen, andThen]
    rw [Parser.matchAny_miss p3 t3 _ hat3 (by simpa using hty3) (by decide)]
    rfl
  · intro fuel hty
    refine ⟨?_, rfl⟩
    simp only [List.mem_cons, List.mem_singleton, not_or, List.not_mem_nil, or_false] at hty
    unfold Parser.ParsePrimary
    rw [Parser.matchAny_miss p t _ hat (by simp [hty]) (by decide)]
    simp only [andThen, Bool.false_eq_true, if_false]
    rw [Parser.matchAny_miss p t _ hat (by simp [hty]) (by decide)]
    simp only [Bool.false_eq_true, if_false]
    rw [Parser.matchAny_miss p t _ hat (by simp [hty]) (by decide)]
    simp only [Bool.false_eq_true, if_false]
    unfold Parser.Peek
    rw [hat]

/-- The texts of the syntax errors on the tokens of `print 1` after the `1` (a
missing `;`), of `(1 2` and of `+` on line 3. -/
theorem syntax_error_texts_example :
    (⟨[tok TokenType.KW_PRINT "print", tok TokenType.TK_NUMBER "1",
          tok TokenType.TK_EOF ""], 2⟩ : Parser).Expect TokenType.TK_SEMICOLON
        "Expect ';' after value."
      = (Result.error (Error.Expected "Expect ';' after value."),
          ⟨[tok TokenType.KW_PRINT "print", tok TokenType.TK_NUMBER "1",
            tok TokenType.TK_EOF ""], 2⟩) ∧
    Parser.ParsePrimary 20
        (NewParser [tok TokenType.TK_LEFT_PAREN "(", tok TokenType.TK_NUMBER "1",
          tok TokenType.TK_NUMBER "2", tok TokenType.TK_EOF ""])
      = some (Result.error Error.UnmatchedParen,
          ⟨[tok TokenType.TK_LEFT_PAREN "(", tok TokenType.TK_NUMBER "1",
            tok TokenType.TK_NUMBER "2", tok TokenType.TK_EOF ""], 2⟩) ∧
    Error.text natLib (Error.ExpectExpression 3 (ascii "+"))
      = ascii "[line 3] Error at '+': Expect expression" :=
  ⟨((syntax_error_texts natLib
      ⟨[tok TokenType.KW_PRINT "print", tok TokenType.TK_NUMBER "1",
        tok TokenType.TK_EOF ""], 2⟩ (tok TokenType.TK_EOF "") rfl).1
      TokenType.TK_SEMICOLON "Expect ';' after value." (by decide) (by decide)).1,
   ((syntax_error_texts natLib
      (NewParser [tok TokenType.TK_LEFT_PAREN "(", tok TokenType.TK_NUMBER "1",
        tok TokenType.TK_NUMBER "2", tok TokenType.TK_EOF ""])
      (tok TokenType.TK_LEFT_PAREN "(") rfl).2.1 19 litOne
      ⟨[tok TokenType.TK_LEFT_PAREN "(", tok TokenType.TK_NUMBER "1",
        tok TokenType.TK_NUMBER "2", tok TokenType.TK_EOF ""], 2⟩
      (tok TokenType.TK_NUMBER "2") rfl (by decide!) rfl (by decide)).1,
   by decide!⟩

/-! ## Scanner loops as functions of the rest of the source -/

namespace Scanner

theorem peek_end (s : Scanner) (a : GoString) (hs : s.Source = a) (hc : s.Current = a.length) :
    s.Peek = 0 := by
  unfold Peek IsEnd
  rw [if_pos]
  apply decide_eq_true
  rw [hs, hc]

/-- The loop `for p(s.Peek()) { s.Current++ }` moves the cursor over the
longest run of bytes satisfying `p`. -/
theorem skipWhile_takeWhile (p : Nat → Bool) (hp : p 0 = false) (rest a : GoString)
    (s : Scanner) (fuel : Nat) (hs : s.Source = a ++ rest) (hc : s.Current = a.length)
    (hf : rest.length ≤ fuel) :
    skipWhile p fuel s = { s with Current := s.Current + (rest.takeWhile p).length } := by
  induction rest generalizing a s fuel with
  | nil =>
    have hpk : s.Peek = 0 := peek_end s a (by simpa using hs) hc
    cases fuel with
    | zero => rfl
    | succ n =>
      unfold skipWhile
      rw [hpk, hp]
      rfl
  | cons x xs ih =>
    cases fuel with
    | zero => simp at hf
    | succ n =>
      unfold skipWhile
      rw [peek_mid s a xs x hs hc]
      by_cases hx : p x = true
      · rw [if_pos hx]
        rw [ih (a ++ [x]) { s with Current := s.Current + 1 } n (by rw [hs]; simp)
          (by simp [hc]) (by simpa using hf)]
        simp only [List.takeWhile_cons, hx, if_true, List.length_cons]
        congr 1
        omega
      · rw [if_neg hx]
        simp [List.takeWhile_cons, hx]

theorem cur_mid (s : Scanner) (a rest : GoString) (c : Nat)
    (hs : s.Source = a ++ c :: rest) (hc : s.Current = a.length) : s.cur = c := by
  unfold cur
  rw [hs, hc]
  exact getD_mid a c rest

theorem isEnd_mid (s : Scanner) (a rest : GoString) (c : Nat)
    (hs : s.Source = a ++ c :: rest) (hc : s.Current = a.length) : s.IsEnd = false := by
  unfold IsEnd
  apply decide_eq_false
  rw [hs, hc]
  simp

theorem isEnd_end (s : Scanner) (a : GoString) (hs : s.Source = a) (hc : s.Current = a.length) :
    s.IsEnd = true := by
  unfold IsEnd
  apply decide_eq_true
  rw [hs, hc]

/-- The loop of `FindChar` stops after the first byte equal to `ch`, or at the
end of the source when there is none. -/
theorem findLoop_takeWhile (ch : Nat) (rest a : GoString) (s : Scanner) (fuel : Nat)
    (hs : s.Source = a ++ rest) (hc : s.Current = a.length) (hf : rest.length ≤ fuel) :
    findLoop ch fuel s =
      if ch ∈ rest then
        (true, { s with Current := s.Current + (rest.takeWhile (fun x => x != ch)).length + 1 })
      else (false, { s with Current := s.Current + rest.length }) := by
  induction rest generalizing a s fuel with
  | nil =>
    have he : s.IsEnd = true := isEnd_end s a (by simpa using hs) hc
    cases fuel with
    | zero => rfl
    | succ n =>
      unfold findLoop
      rw [he]
      rfl
  | cons x xs ih =>
    cases fuel with
    | zero => simp at hf
    | succ n =>
      unfold findLoop
      rw [isEnd_mid s a xs x hs hc, cur_mid s a xs x hs hc]
      by_cases hx : x = ch
      · subst hx
        simp
      · rw [if_neg (by simp), if_neg hx]
        rw [ih (a ++ [x]) { s with Current := s.Current + 1 } n (by rw [hs]; simp)
          (by simp [hc]) (by simpa using hf)]
        have hne : (x != ch) = true := by simpa using hx
        have hmem : ch ∈ x :: xs ↔ ch ∈ xs := by
          simp only [List.mem_cons]
          constructor
          · rintro (h | h)
            · exact absurd h.symm hx
            · exact h
          · exact Or.inr
        by_cases hin : ch ∈ xs
        · rw [if_pos hin, if_pos (hmem.2 hin)]
          simp only [List.takeWhile_cons, hne, if_true, List.length_cons]
          congr 2
          omega
        · rw [if_neg hin, if_neg (fun h => hin (hmem.1 h))]
          simp only [List.length_cons]
          congr 2
          omega

/-- The loop of `SkipOneLineComment` stops after the first newline, counting
it, or at the end of the source when there is none. -/
theorem commentLoop_takeWhile (rest a : GoString) (s : Scanner) (fuel : Nat)
    (hs : s.Source = a ++ rest) (hc : s.Current = a.length) (hf : rest.length ≤ fuel) :
    commentLoop fuel s =
      if 10 ∈ rest then
        { s with Line := s.Line + 1,
                 Current := s.Current + (rest.takeWhile (fun x => x != 10)).length + 1 }
      else { s with Current := s.Current + rest.length } := by
  induction rest generalizing a s fuel with
  | nil =>
    have he : s.IsEnd = true := isEnd_end s a (by simpa using hs) hc
    cases fuel with
    | zero => rfl
    | succ n =>
      unfold commentLoop
      rw [he]
      rfl
  | cons x xs ih =>
    cases fuel with
    | zero => simp at hf
    | succ n =>
      unfold commentLoop
      rw [isEnd_mid s a xs x hs hc, cur_mid s a xs x hs hc]
      by_cases hx : x = 10
      · subst hx
        simp
      · rw [if_neg (by simp), if_neg hx]
        rw [ih (a ++ [x]) { s with Current := s.Current + 1 } n (by rw [hs]; simp)
          (by simp [hc]) (by simpa using hf)]
        have hne : (x != 10) = true := by simpa using hx
        have hmem : 10 ∈ x :: xs ↔ 10 ∈ xs := by
          simp only [List.mem_cons]
          constructor
          · rintro (h | h)
            · exact absurd h.symm hx
            · exact h
          · exact Or.inr
        by_cases hin : 10 ∈ xs
        · rw [if_pos hin, if_pos (hmem.2 hin)]
          simp only [List.takeWhile_cons, hne, if_true, List.length_cons]
          congr 1
          omega
        · rw [if_neg hin, if_neg (fun h => hin (hmem.1 h))]
          simp only [List.length_cons]
          congr 1
          omega

end Scanner

namespace Scanner

theorem scanLoop_end (fuel : Nat) (s : Scanner) (h : s.IsEnd = true) :
    scanLoop fuel s = some s := by
  cases fuel with
  | zero => unfold scanLoop; rw [h]; rfl
  | succ n => unfold scanLoop; rw [h]; rfl

theorem scanSwitch_idStart (c : Nat)
    (h : (97 ≤ c ∧ c ≤ 122) ∨ (65 ≤ c ∧ c ≤ 90) ∨ c = 95) (s : Scanner) :
    scanSwitch c s = s.ResolveIdAndKeyword := by
  unfold scanSwitch
  repeat rw [if_neg (by omega)]
  rw [if_pos (by omega)]

theorem scanSwitch_digit (c : Nat) (h : 48 ≤ c ∧ c ≤ 57) (s : Scanner) :
    scanSwitch c s = s.ResolveNum := by
  unfold scanSwitch
  repeat rw [if_neg (by omega)]
  rw [if_pos (by omega)]

theorem takeWhile_all (p : Nat → Bool) (w : GoString) (h : ∀ x ∈ w, p x = true) :
    w.takeWhile p = w := by
  induction w with
  | nil => rfl
  | cons x xs ih =>
    rw [List.takeWhile_cons, h x (by simp), if_pos rfl, ih (fun y hy => h y (by simp [hy]))]

end Scanner

theorem ReservedKws_table (v : GoString) :
    ReservedKws v ≠ none ↔
      v ∈ [ascii "and", ascii "class", ascii "else", ascii "false", ascii "true",
        ascii "for", ascii "fun", ascii "if", ascii "nil", ascii "or", ascii "print",
        ascii "return", ascii "super", ascii "this", ascii "var", ascii "while"] := by
  unfold ReservedKws
  simp only [List.lookup, List.mem_cons, List.mem_singleton, List.not_mem_nil, or_false]
  repeat' split
  all_goals simp_all


/-- The closure `isIdChar` accepts the bytes of `[A-Za-z0-9_]` and no other. -/
theorem Scanner.isIdChar_iff (x : Nat) :
    Scanner.isIdChar x = true ↔
      (97 ≤ x ∧ x ≤ 122) ∨ (65 ≤ x ∧ x ≤ 90) ∨ (48 ≤ x ∧ x ≤ 57) ∨ x = 95 := by
  unfold Scanner.isIdChar
  simp only [Bool.or_eq_true, Bool.and_eq_true, decide_eq_true_eq, beq_iff_eq, ge_iff_le]
  omega

/-- C20: a source made of a byte of `[A-Za-z_]` followed by bytes of
`[A-Za-z0-9_]` scans without error to one token and the EOF token; the
lexeme of the token is the whole source and its type is the one the table of
reserved words gives for that lexeme, IDENTIFIER when the table has none. The
table holds the sixteen reserved words and nothing else. -/
theorem C20_identifiers_and_keywords (c : Nat) (w : GoString)
    (hstart : (97 ≤ c ∧ c ≤ 122) ∨ (65 ≤ c ∧ c ≤ 90) ∨ c = 95)
    (hclass : ∀ x ∈ w,
      (97 ≤ x ∧ x ≤ 122) ∨ (65 ≤ x ∧ x ≤ 90) ∨ (48 ≤ x ∧ x ≤ 57) ∨ x = 95) :
    (∃ s, (NewScanner (c :: w)).ScanTokens = some s ∧ s.HasErr = false ∧
      s.Tokens =
        [⟨1, c :: w, match ReservedKws (c :: w) with
            | some kw => kw
            | none => TokenType.TK_IDENTIFIER⟩,
         ⟨1, [], TokenType.TK_EOF⟩]) ∧
      (ReservedKws (c :: w) ≠ none ↔
        c :: w ∈ [ascii "and", ascii "class", ascii "else", ascii "false", ascii "true",
          ascii "for", ascii "fun", ascii "if", ascii "nil", ascii "or", ascii "print",
          ascii "return", ascii "super", ascii "this", ascii "var", ascii "while"]) ∧
      (ReservedKws (ascii "and") = some TokenType.KW_AND ∧
        ReservedKws (ascii "class") = some TokenType.KW_CLASS ∧
        ReservedKws (ascii "else") = some TokenType.KW_ELSE ∧
        ReservedKws (ascii "false") = some TokenType.KW_FALSE ∧
        ReservedKws (ascii "true") = some TokenType.KW_TRUE ∧
        ReservedKws (ascii "for") = some TokenType.KW_FOR ∧
        ReservedKws (ascii "fun") = some TokenType.KW_FUN ∧
        ReservedKws (ascii "if") = some TokenType.KW_IF ∧
        ReservedKws (ascii "nil") = some TokenType.KW_NIL ∧
        ReservedKws (ascii "or") = some TokenType.KW_OR ∧
        ReservedKws (ascii "print") = some TokenType.KW_PRINT ∧
        ReservedKws (ascii "return") = some TokenType.KW_RETURN ∧
        ReservedKws (ascii "super") = some TokenType.KW_SUPER ∧
        ReservedKws (ascii "this") = some TokenType.KW_THIS ∧
        ReservedKws (ascii "var") = some TokenType.KW_VAR ∧
        ReservedKws (ascii "while") = some TokenType.KW_WHILE) := by
  have hrest : ∀ x ∈ w, Scanner.isIdChar x = true :=
    fun x hx => (Scanner.isIdChar_iff x).2 (hclass x hx)
  refine ⟨?_, ReservedKws_table (c :: w), by decide⟩
  -- the scanner after `Advance`, and after the loop of `ResolveIdAndKeyword`
  have hskip := Scanner.skipWhile_takeWhile Scanner.isIdChar (by decide) w [c]
    ⟨c :: w, 0, 1, 1, [], false⟩ w.length rfl rfl (Nat.le_refl _)
  rw [Scanner.takeWhile_all _ w hrest] at hskip
  have hstr : (⟨c :: w, 0, 1 + w.length, 1, [], false⟩ : Scanner).String = c :: w := by
    unfold Scanner.String
    simp
    omega
  have hres : Scanner.scanSwitch c ⟨c :: w, 0, 1, 1, [], false⟩
      = (⟨c :: w, 0, 1 + w.length, 1, [], false⟩ : Scanner).AddToken
          (match ReservedKws (c :: w) with
            | some kw => kw
            | none => TokenType.TK_IDENTIFIER) := by
    rw [Scanner.scanSwitch_idStart c hstart]
    unfold Scanner.ResolveIdAndKeyword
    have hfuel : (⟨c :: w, 0, 1, 1, [], false⟩ : Scanner).Source.length
        - (⟨c :: w, 0, 1, 1, [], false⟩ : Scanner).Current = w.length := by
      simp
    dsimp only
    rw [hfuel, hskip]
    dsimp only
    rw [hstr]
    cases ReservedKws (c :: w) <;> rfl
  have hstep : Scanner.scanLoop (w.length + 1) (NewScanner (c :: w))
      = Scanner.scanLoop w.length (Scanner.scanSwitch c ⟨c :: w, 0, 1, 1, [], false⟩) :=
    Scanner.scanLoop_step w.length (NewScanner (c :: w)) [] w c rfl rfl
  have hend : ((⟨c :: w, 0, 1 + w.length, 1, [], false⟩ : Scanner).AddToken
        (match ReservedKws (c :: w) with
          | some kw => kw
          | none => TokenType.TK_IDENTIFIER)).IsEnd = true := by
    unfold Scanner.IsEnd Scanner.AddToken
    apply decide_eq_true
    simp
    omega
  refine ⟨Scanner.AddToken
    { (Scanner.AddToken ⟨c :: w, 0, 1 + w.length, 1, [], false⟩
        (match ReservedKws (c :: w) with
          | some kw => kw
          | none => TokenType.TK_IDENTIFIER)) with Start := 1 + w.length }
    TokenType.TK_EOF, ?_, ?_, ?_⟩
  · unfold Scanner.ScanTokens
    have hlen : (NewScanner (c :: w)).Source.length - (NewScanner (c :: w)).Current
        = w.length + 1 := by simp [NewScanner]
    rw [hlen, hstep, hres, Scanner.scanLoop_end _ _ hend]
    rfl
  · rfl
  · simp [Scanner.AddToken, Scanner.String, hstr]
    omega

/-- C20 at `printx` and `print1_`, each one identifier, at `print`, the
keyword, at `x1_9`, an identifier with digits, and at `while` and `where`: the
first is the keyword WHILE, the second an identifier. -/
theorem C20_identifiers_and_keywords_witness :
    (∃ s, (NewScanner (ascii "printx")).ScanTokens = some s ∧ s.HasErr = false ∧
      s.Tokens = [⟨1, ascii "printx", TokenType.TK_IDENTIFIER⟩, ⟨1, [], TokenType.TK_EOF⟩]) ∧
    (∃ s, (NewScanner (ascii "print1_")).ScanTokens = some s ∧ s.HasErr = false ∧
      s.Tokens = [⟨1, ascii "print1_", TokenType.TK_IDENTIFIER⟩, ⟨1, [], TokenType.TK_EOF⟩]) ∧
    (∃ s, (NewScanner (ascii "print")).ScanTokens = some s ∧ s.HasErr = false ∧
      s.Tokens = [⟨1, ascii "print", TokenType.KW_PRINT⟩, ⟨1, [], TokenType.TK_EOF⟩]) ∧
    (∃ s, (NewScanner (ascii "x1_9")).ScanTokens = some s ∧ s.HasErr = false ∧
      s.Tokens = [⟨1, ascii "x1_9", TokenType.TK_IDENTIFIER⟩, ⟨1, [], TokenType.TK_EOF⟩]) ∧
    (∃ s, (NewScanner (ascii "while")).ScanTokens = some s ∧ s.HasErr = false ∧
      s.Tokens = [⟨1, ascii "while", TokenType.KW_WHILE⟩, ⟨1, [], TokenType.TK_EOF⟩]) ∧
    (∃ s, (NewScanner (ascii "where")).ScanTokens = some s ∧ s.HasErr = false ∧
      s.Tokens = [⟨1, ascii "where", TokenType.TK_IDENTIFIER⟩, ⟨1, [], TokenType.TK_EOF⟩]) :=
  ⟨(C20_identifiers_and_keywords 112 [114, 105, 110, 116, 120] (by decide) (by decide)).1,
   (C20_identifiers_and_keywords 112 [114, 105, 110, 116, 49, 95] (by decide) (by decide)).1,
   (C20_identifiers_and_keywords 112 [114, 105, 110, 116] (by decide) (by decide)).1,
   (C20_identifiers_and_keywords 120 [49, 95, 57] (by decide) (by decide)).1,
   (C20_identifiers_and_keywords 119 [104, 105, 108, 101] (by decide) (by decide)).1,
   (C20_identifiers_and_keywords 119 [104, 101, 114, 101] (by decide) (by decide)).1⟩

/-! ## Numeric literals -/

namespace Scanner

theorem peekNext_mid (s : Scanner) (a rest : GoString) (y x : Nat)
    (hs : s.Source = a ++ y :: x :: rest) (hc : s.Current = a.length) : s.PeekNext = x := by
  unfold PeekNext
  rw [if_neg (by rw [hs, hc]; simp)]
  rw [hs, hc]
  have := getD_mid (a ++ [y]) x rest
  simpa using this

theorem peekNext_last (s : Scanner) (a : GoString) (y : Nat)
    (hs : s.Source = a ++ [y]) (hc : s.Current = a.length) : s.PeekNext = 0 := by
  unfold PeekNext
  rw [if_pos (by rw [hs, hc]; simp)]

theorem dropWhile_head (p : Nat → Bool) (l : GoString) (y : Nat) (ys : GoString)
    (h : l.dropWhile p = y :: ys) : p y = false := by
  induction l with
  | nil => simp at h
  | cons x xs ih =>
    rw [List.dropWhile_cons] at h
    by_cases hx : p x = true
    · rw [if_pos hx] at h
      exact ih h
    · rw [if_neg hx] at h
      cases h
      simpa using hx

theorem takeWhile_head_false (p : Nat → Bool) (y : Nat) (ys : GoString) (h : p y = false) :
    (y :: ys).takeWhile p = [] := by
  rw [List.takeWhile_cons, h]
  rfl

/-- The second half of `ResolveNum`, from the byte where the digits stop. -/
theorem resolveNum_fraction (s1 : Scanner) (b rem : GoString)
    (hs1 : s1.Source = b ++ rem) (hc1 : s1.Current = b.length)
    (hrem : rem = [] ∨ ∃ y ys, rem = y :: ys ∧ isDigit y = false) :
    skipWhile isDigit
        ((if (s1.Peek == 46 && isDigit s1.PeekNext) = true then
            { s1 with Current := s1.Current + 1 } else s1).Source.length -
          (if (s1.Peek == 46 && isDigit s1.PeekNext) = true then
            { s1 with Current := s1.Current + 1 } else s1).Current)
        (if (s1.Peek == 46 && isDigit s1.PeekNext) = true then
          { s1 with Current := s1.Current + 1 } else s1)
      = { s1 with Current := s1.Current + (fractionPart rem).length } := by
  have hstop : ∀ (r : GoString), s1.Source = b ++ r →
      (r = [] ∨ ∃ y ys, r = y :: ys ∧ isDigit y = false) →
      skipWhile isDigit (s1.Source.length - s1.Current) s1 = s1 := by
    intro r h2 hr
    rw [skipWhile_takeWhile isDigit (by decide) r b s1 _ h2 hc1 (by rw [h2, hc1]; simp)]
    rcases hr with h | ⟨y, ys, h, hy⟩
    · subst h; rfl
    · subst h
      rw [takeWhile_head_false _ _ _ hy]
      rfl
  rcases hrem with h | ⟨y, ys, h, hy⟩
  · subst h
    have hp : s1.Peek = 0 := peek_end s1 b (by simpa using hs1) hc1
    rw [hp]
    simp only [show ((0 : Nat) == 46) = false from rfl, Bool.false_and, Bool.false_eq_true,
      if_false]
    rw [hstop [] hs1 (Or.inl rfl)]
    rfl
  · subst h
    have hp : s1.Peek = y := peek_mid s1 b ys y hs1 hc1
    rw [hp]
    by_cases h46 : y = 46
    · subst h46
      cases ys with
      | nil =>
        rw [peekNext_last s1 b 46 hs1 hc1]
        simp only [show isDigit 0 = false from rfl, Bool.and_false, Bool.false_eq_true, if_false]
        rw [hstop [46] hs1 (Or.inr ⟨46, [], rfl, rfl⟩)]
        rfl
      | cons x xs =>
        rw [peekNext_mid s1 b xs 46 x hs1 hc1]
        by_cases hx : isDigit x = true
        · simp only [hx, beq_self_eq_true, Bool.and_self, if_true]
          rw [skipWhile_takeWhile isDigit (by decide) (x :: xs) (b ++ [46])
            { s1 with Current := s1.Current + 1 } _ (by show s1.Source = _; rw [hs1]; simp)
            (by show s1.Current + 1 = _; simp [hc1])
            (by show _ ≤ s1.Source.length - (s1.Current + 1); rw [hs1, hc1]; simp; omega)]
          simp only [fractionPart, hx, if_true, List.length_cons]
          congr 1
          omega
        · simp only [hx, Bool.and_false, Bool.false_eq_true, if_false]
          rw [hstop (46 :: x :: xs) hs1 (Or.inr ⟨46, x :: xs, rfl, rfl⟩)]
          simp [fractionPart, hx]
    · have hb : (y == 46) = false := by simpa using h46
      simp only [hb, Bool.false_and, Bool.false_eq_true, if_false]
      rw [hstop (y :: ys) hs1 (Or.inr ⟨y, ys, rfl, hy⟩)]
      have hf : fractionPart (y :: ys) = [] := by
        unfold fractionPart
        split
        · rename_i heq
          cases heq
          exact absurd rfl h46
        · rfl
      rw [hf]
      rfl

/-- `ResolveNum` after the first digit of a number was read: the cursor moves
over `numberTail` of the rest of the source and a NUMBER token is added. -/
theorem resolveNum_eq (s : Scanner) (a rest : GoString)
    (hs : s.Source = a ++ rest) (hc : s.Current = a.length) :
    s.ResolveNum
      = ({ s with Current := s.Current + (numberTail rest).length } : Scanner).AddToken
          TokenType.TK_NUMBER := by
  have hsplit : rest = rest.takeWhile isDigit ++ rest.dropWhile isDigit :=
    (List.takeWhile_append_dropWhile _ _).symm
  have h1 := skipWhile_takeWhile isDigit (by decide) rest a s (s.Source.length - s.Current)
    hs hc (by rw [hs, hc]; simp)
  have hrem : rest.dropWhile isDigit = [] ∨
      ∃ y ys, rest.dropWhile isDigit = y :: ys ∧ isDigit y = false := by
    cases h : rest.dropWhile isDigit with
    | nil => exact Or.inl rfl
    | cons y ys => exact Or.inr ⟨y, ys, rfl, dropWhile_head _ _ _ _ h⟩
  have h2 := resolveNum_fraction
    { s with Current := s.Current + (rest.takeWhile isDigit).length }
    (a ++ rest.takeWhile isDigit) (rest.dropWhile isDigit)
    (by dsimp only; rw [List.append_assoc, ← hsplit, hs]) (by dsimp only; simp [hc]) hrem
  unfold ResolveNum
  dsimp only
  rw [h1, h2]
  dsimp only
  congr 2
  simp only [numberTail, List.length_append]
  omega

end Scanner

namespace Scanner

theorem takeWhile_stop (p : Nat → Bool) (a : GoString) (c : Nat) (b : GoString)
    (ha : ∀ x ∈ a, p x = true) (hc : p c = false) : (a ++ c :: b).takeWhile p = a := by
  induction a with
  | nil => exact takeWhile_head_false p c b hc
  | cons x xs ih =>
    rw [List.cons_append, List.takeWhile_cons, ha x (by simp), if_pos rfl,
      ih (fun y hy => ha y (by simp [hy]))]

theorem dropWhile_stop (p : Nat → Bool) (a : GoString) (c : Nat) (b : GoString)
    (ha : ∀ x ∈ a, p x = true) (hc : p c = false) : (a ++ c :: b).dropWhile p = c :: b := by
  induction a with
  | nil => rw [List.nil_append, List.dropWhile_cons, hc]; rfl
  | cons x xs ih =>
    rw [List.cons_append, List.dropWhile_cons, ha x (by simp), if_pos rfl,
      ih (fun y hy => ha y (by simp [hy]))]

theorem dropWhile_all (p : Nat → Bool) (w : GoString) (h : ∀ x ∈ w, p x = true) :
    w.dropWhile p = [] := by
  induction w with
  | nil => rfl
  | cons x xs ih =>
    rw [List.dropWhile_cons, h x (by simp), if_pos rfl, ih (fun y hy => h y (by simp [hy]))]

end Scanner

/-- Digits, a `.` and digits after it are read as one number. -/
theorem numberTail_fraction (d e : GoString) (hd : ∀ x ∈ d, Scanner.isDigit x = true)
    (he : ∀ x ∈ e, Scanner.isDigit x = true) (hne : e ≠ []) :
    numberTail (d ++ 46 :: e) = d ++ 46 :: e := by
  unfold numberTail
  rw [Scanner.takeWhile_stop _ d 46 e hd (by decide), Scanner.dropWhile_stop _ d 46 e hd (by decide)]
  cases e with
  | nil => exact absurd rfl hne
  | cons x xs =>
    have hf : fractionPart (46 :: x :: xs)
        = if Scanner.isDigit x then 46 :: (x :: xs).takeWhile Scanner.isDigit else [] := rfl
    rw [hf, if_pos (he x (by simp)), Scanner.takeWhile_all _ _ he]

/-- A `.` that no digit follows is not read as part of the number. -/
theorem numberTail_dot (d : GoString) (hd : ∀ x ∈ d, Scanner.isDigit x = true) :
    numberTail (d ++ [46]) = d := by
  unfold numberTail
  rw [Scanner.takeWhile_stop _ d 46 [] hd (by decide), Scanner.dropWhile_stop _ d 46 [] hd (by decide)]
  simp [fractionPart]

theorem fractionPart_initial (r : GoString) : fractionPart r <+: r := by
  unfold fractionPart
  split
  · split
    · rename_i x xs hx
      exact (List.prefix_cons_inj 46).2 (List.takeWhile_prefix _)
    · exact List.nil_prefix
  · exact List.nil_prefix

theorem numberTail_initial (rest : GoString) : numberTail rest <+: rest := by
  unfold numberTail
  have h := fractionPart_initial (rest.dropWhile Scanner.isDigit)
  obtain ⟨t, ht⟩ := h
  refine ⟨t, ?_⟩
  rw [List.append_assoc, ht, List.takeWhile_append_dropWhile]

theorem isNumberLexeme_cons (c : Nat) (rest : GoString) (hc : Scanner.isDigit c = true) :
    isNumberLexeme (c :: numberTail rest) := by
  have hall : ∀ x ∈ c :: rest.takeWhile Scanner.isDigit, Scanner.isDigit x = true := by
    intro x hx
    rcases List.mem_cons.1 hx with h | h
    · rw [h]; exact hc
    · exact (List.mem_takeWhile_imp h)
  unfold numberTail
  generalize rest.dropWhile Scanner.isDigit = r
  unfold fractionPart
  split
  · rename_i x xs
    split
    · rename_i hx
      refine ⟨c :: rest.takeWhile Scanner.isDigit, (x :: xs).takeWhile Scanner.isDigit,
        by simp, hall, fun y hy => List.mem_takeWhile_imp hy, Or.inr ⟨?_, by simp⟩⟩
      rw [List.takeWhile_cons, if_pos hx]
      simp
    · exact ⟨c :: rest.takeWhile Scanner.isDigit, [], by simp, hall, by simp,
        Or.inl (by simp)⟩
  · exact ⟨c :: rest.takeWhile Scanner.isDigit, [], by simp, hall, by simp,
      Or.inl (by simp)⟩

theorem ReservedKws_ne_number (w : GoString) (kw : TokenType) (h : ReservedKws w = some kw) :
    kw ≠ TokenType.TK_NUMBER := by
  unfold ReservedKws at h
  simp only [List.lookup] at h
  repeat' split at h
  all_goals first
    | (cases h; decide)
    | (simp at h)

namespace Scanner

theorem adds_refl (P : Token → Prop) (s : Scanner) : Adds P s s :=
  ⟨[], by simp, by simp⟩

theorem adds_trans {P : Token → Prop} {s0 s1 s2 : Scanner} (h1 : Adds P s0 s1)
    (h2 : Adds P s1 s2) : Adds P s0 s2 := by
  obtain ⟨n1, ht1, hn1⟩ := h1
  obtain ⟨n2, ht2, hn2⟩ := h2
  refine ⟨n1 ++ n2, by rw [ht2, ht1, List.append_assoc], ?_⟩
  intro t ht
  rcases List.mem_append.1 ht with h | h
  · exact hn1 t h
  · exact hn2 t h

theorem adds_of_eq {P : Token → Prop} {s s1 : Scanner} (ht : s1.Tokens = s.Tokens) :
    Adds P s s1 :=
  ⟨[], by simp [ht], by simp⟩

theorem adds_addToken (P : Token → Prop) (s : Scanner) (typ : TokenType)
    (h : P ⟨s.Line, s.String, typ⟩) : Adds P s (s.AddToken typ) :=
  ⟨_, rfl, by simpa using h⟩

theorem adds_addToken_other (P : Token → Prop)
    (hP : ∀ t : Token, t.Typ ≠ TokenType.TK_NUMBER → P t) (s : Scanner) (typ : TokenType)
    (h : typ ≠ TokenType.TK_NUMBER) : Adds P s (s.AddToken typ) :=
  adds_addToken P s typ (hP _ h)

theorem match_tokens (s : Scanner) (expect : GoString) :
    (s.Match expect).2.Tokens = s.Tokens := by
  unfold Match
  split
  · rfl
  · split <;> rfl

theorem adds_matchToken (P : Token → Prop) (hP : ∀ t : Token, t.Typ ≠ TokenType.TK_NUMBER → P t)
    (s : Scanner) (expect : GoString) (two one : TokenType)
    (h2 : two ≠ TokenType.TK_NUMBER) (h1 : one ≠ TokenType.TK_NUMBER) :
    Adds P s (matchToken s expect two one) := by
  have h := match_tokens s expect
  unfold Scanner.matchToken
  split
  · rename_i s1 heq
    rw [heq] at h
    exact adds_trans (adds_of_eq h) (adds_addToken_other P hP _ _ h2)
  · rename_i s1 heq
    rw [heq] at h
    exact adds_trans (adds_of_eq h) (adds_addToken_other P hP _ _ h1)

theorem adds_resolveId (P : Token → Prop) (hP : ∀ t : Token, t.Typ ≠ TokenType.TK_NUMBER → P t)
    (s : Scanner) : Adds P s s.ResolveIdAndKeyword := by
  have h := (skipWhile_spec isIdChar (s.Source.length - s.Current) s).2.1
  unfold ResolveIdAndKeyword
  dsimp only
  split
  · rename_i kw hk
    exact adds_trans (adds_of_eq h) (adds_addToken_other P hP _ _ (ReservedKws_ne_number _ _ hk))
  · exact adds_trans (adds_of_eq h) (adds_addToken_other P hP _ _ (by decide))

theorem adds_slash (P : Token → Prop) (hP : ∀ t : Token, t.Typ ≠ TokenType.TK_NUMBER → P t)
    (s : Scanner) :
    Adds P s
      (match s.Match [47] with
       | (true, s1) => s1.SkipOneLineComment
       | (false, s1) => s1.AddToken TokenType.TK_SLASH) := by
  have h := match_tokens s [47]
  split
  · rename_i s1 heq
    rw [heq] at h
    refine adds_of_eq ?_
    unfold SkipOneLineComment
    rw [(commentLoop_spec _ s1).2.1]
    exact h
  · rename_i s1 heq
    rw [heq] at h
    exact adds_trans (adds_of_eq h) (adds_addToken_other P hP _ _ (by decide))

theorem findChar_tokens (s : Scanner) (ch : Nat) : (s.FindChar ch).2.Tokens = s.Tokens := by
  have h := (findLoop_spec ch (s.Source.length - s.Current) s).2.1
  unfold FindChar
  split
  · rename_i s1 heq
    rw [heq] at h
    exact h
  · rename_i s1 heq
    rw [heq] at h
    exact h

theorem adds_quote (P : Token → Prop) (hP : ∀ t : Token, t.Typ ≠ TokenType.TK_NUMBER → P t)
    (s : Scanner) :
    Adds P s
      (match s.FindChar 34 with
       | (true, s1) => s1.AddToken TokenType.TK_STRING
       | (false, s1) => s1) := by
  have h := findChar_tokens s 34
  split
  · rename_i s1 heq
    rw [heq] at h
    exact adds_trans (adds_of_eq h) (adds_addToken_other P hP _ _ (by decide))
  · rename_i s1 heq
    rw [heq] at h
    exact adds_of_eq h

theorem adds_ite {P : Token → Prop} {s a b : Scanner} (c : Prop) [Decidable c]
    (ha : Adds P s a) (hb : Adds P s b) : Adds P s (if c then a else b) := by
  split <;> assumption

theorem drop_getD (l : GoString) (i : Nat) (h : i < l.length) :
    l.drop i = l.getD i 0 :: l.drop (i + 1) := by
  induction l generalizing i with
  | nil => simp at h
  | cons x xs ih =>
    cases i with
    | zero => rfl
    | succ n =>
      have := ih n (by simpa using h)
      simpa using this

/-- The lexeme of the token `ResolveNum` adds, when the byte before the cursor
is the digit `c` read by `Advance`. -/
theorem resolveNum_lexeme (s : Scanner) (hstart : s.Current = s.Start + 1)
    (hlen : s.Current ≤ s.Source.length) :
    s.ResolveNum
      = { s with
          Current := s.Current + (numberTail (s.Source.drop s.Current)).length,
          Tokens := s.Tokens ++
            [⟨s.Line, s.Source.getD s.Start 0 :: numberTail (s.Source.drop s.Current),
              TokenType.TK_NUMBER⟩] } := by
  rw [resolveNum_eq s (s.Source.take s.Current) (s.Source.drop s.Current)
    (List.take_append_drop _ _).symm (by rw [List.length_take]; omega)]
  unfold AddToken String
  dsimp only
  congr 3
  rw [drop_getD s.Source s.Start (by omega), ← hstart]
  have h2 : s.Current + (numberTail (s.Source.drop s.Current)).length - s.Start
      = (numberTail (s.Source.drop s.Current)).length + 1 := by omega
  rw [h2, List.take_succ_cons, ← List.prefix_iff_eq_take.1 (numberTail_initial _)]

theorem adds_resolveNum (s : Scanner) (hstart : s.Current = s.Start + 1)
    (hlen : s.Current ≤ s.Source.length) (hc : isDigit (s.Source.getD s.Start 0) = true) :
    Adds (fun t => t.Typ = TokenType.TK_NUMBER → isNumberLexeme t.Lexeme) s s.ResolveNum := by
  rw [resolveNum_lexeme s hstart hlen]
  refine ⟨_, rfl, ?_⟩
  intro t ht _
  rw [List.mem_singleton.1 ht]
  exact isNumberLexeme_cons _ _ hc

theorem adds_scanSwitch (c : Nat) (s : Scanner) (hstart : s.Current = s.Start + 1)
    (hlen : s.Current ≤ s.Source.length) (hc : s.Source.getD s.Start 0 = c) :
    Adds (fun t => t.Typ = TokenType.TK_NUMBER → isNumberLexeme t.Lexeme) s
      (scanSwitch c s) := by
  have hP : ∀ t : Token, t.Typ ≠ TokenType.TK_NUMBER →
      (fun t : Token => t.Typ = TokenType.TK_NUMBER → isNumberLexeme t.Lexeme) t :=
    fun t h h2 => absurd h2 h
  by_cases hd : 48 ≤ c ∧ c ≤ 57
  · rw [scanSwitch_digit c hd]
    refine adds_resolveNum s hstart hlen ?_
    rw [hc]
    unfold isDigit
    simp [hd.1, hd.2]
  · unfold scanSwitch
    rw [if_neg (show ¬ (c ≥ 48 ∧ c ≤ 57) from hd)]
    repeat' apply adds_ite
    all_goals first
      | exact adds_addToken_other _ hP _ _ (by decide)
      | exact adds_refl _ _
      | exact adds_of_eq rfl
      | exact adds_matchToken _ hP _ _ _ _ (by decide) (by decide)
      | exact adds_resolveId _ hP _
      | exact adds_slash _ hP _
      | exact adds_quote _ hP _

theorem adds_scanLoop (fuel : Nat) (s : Scanner) (hc : s.Current ≤ s.Source.length)
    (hf : s.Source.length - s.Current ≤ fuel) :
    ∃ s1, scanLoop fuel s = some s1 ∧
      Adds (fun t => t.Typ = TokenType.TK_NUMBER → isNumberLexeme t.Lexeme) s s1 := by
  induction fuel generalizing s with
  | zero =>
    refine ⟨s, ?_, adds_refl _ s⟩
    unfold scanLoop IsEnd
    rw [if_pos (decide_eq_true (by omega))]
  | succ n ih =>
    by_cases hend : s.Current ≥ s.Source.length
    · refine ⟨s, ?_, adds_refl _ s⟩
      unfold scanLoop IsEnd
      rw [if_pos (decide_eq_true hend)]
    · have hlt : s.Current < s.Source.length := by omega
      have hsplit : s.Source = s.Source.take s.Current
          ++ s.Source.getD s.Current 0 :: s.Source.drop (s.Current + 1) := by
        rw [← drop_getD _ _ hlt, List.take_append_drop]
      rw [scanLoop_step n s _ _ _ hsplit (by rw [List.length_take]; omega)]
      have hsw := adds_scanSwitch (s.Source.getD s.Current 0)
        { s with Start := s.Current, Current := s.Current + 1 } rfl
        (by show s.Current + 1 ≤ s.Source.length; omega) rfl
      have hext := extends_scanSwitch (s.Source.getD s.Current 0)
        { s with Start := s.Current, Current := s.Current + 1 }
      obtain ⟨hsrc, hle, hin, _⟩ := hext
      dsimp only at hsrc hle hin
      obtain ⟨s1, h1, h2⟩ := ih _ (by rw [hsrc]; exact hin (by omega)) (by rw [hsrc]; omega)
      exact ⟨s1, h1, adds_trans (adds_trans (adds_of_eq rfl) hsw) h2⟩

end Scanner

namespace Scanner

theorem isDigit_iff (c : Nat) : isDigit c = true ↔ 48 ≤ c ∧ c ≤ 57 := by
  unfold isDigit
  simp

/-- The first round of the loop of `ScanTokens` on a source that starts with
a digit. -/
theorem scanLoop_number (n c : Nat) (rest : GoString) (hc : isDigit c = true) :
    scanLoop (n + 1) (NewScanner (c :: rest))
      = scanLoop n ⟨c :: rest, 0, 1 + (numberTail rest).length, 1,
          [⟨1, c :: numberTail rest, TokenType.TK_NUMBER⟩], false⟩ := by
  rw [scanLoop_step n (NewScanner (c :: rest)) [] rest c rfl rfl,
    scanSwitch_digit c ((isDigit_iff c).1 hc)]
  have h := resolveNum_lexeme ⟨c :: rest, 0, 1, 1, [], false⟩ rfl
    (by show 1 ≤ (c :: rest).length; simp)
  exact congrArg (scanLoop n) h

end Scanner

/-- C19: for non-empty digit strings `d` and `e`, the source `d.e` scans to
one NUMBER token whose lexeme is the whole source, then EOF; the source `d.`
scans to NUMBER with lexeme `d`, then DOT, then EOF; and on every source the
scanner returns, and every NUMBER token it returns has a lexeme made of
digits, or of digits, a `.` and digits. -/
theorem C19_numeric_literals (d e : GoString) (hd : d ≠ []) (he : e ≠ [])
    (hdd : ∀ x ∈ d, Scanner.isDigit x = true) (hed : ∀ x ∈ e, Scanner.isDigit x = true) :
    (∃ s, (NewScanner (d ++ 46 :: e)).ScanTokens = some s ∧ s.HasErr = false ∧
      s.Tokens = [⟨1, d ++ 46 :: e, TokenType.TK_NUMBER⟩, ⟨1, [], TokenType.TK_EOF⟩]) ∧
    (∃ s, (NewScanner (d ++ [46])).ScanTokens = some s ∧ s.HasErr = false ∧
      s.Tokens = [⟨1, d, TokenType.TK_NUMBER⟩, ⟨1, [46], TokenType.TK_DOT⟩,
        ⟨1, [], TokenType.TK_EOF⟩]) ∧
    (∀ source : GoString, ∃ s, (NewScanner source).ScanTokens = some s ∧
      ∀ t ∈ s.Tokens, t.Typ = TokenType.TK_NUMBER → isNumberLexeme t.Lexeme) := by
  cases d with
  | nil => exact absurd rfl hd
  | cons c w =>
    have hc : Scanner.isDigit c = true := hdd c (by simp)
    have hw : ∀ x ∈ w, Scanner.isDigit x = true := fun x hx => hdd x (by simp [hx])
    refine ⟨?_, ?_, ?_⟩
    · -- digits, a dot, digits
      have hlen : (NewScanner (c :: w ++ 46 :: e)).Source.length
          - (NewScanner (c :: w ++ 46 :: e)).Current = (w ++ 46 :: e).length + 1 := by
        simp [NewScanner]
      have hend : (⟨c :: (w ++ 46 :: e), 0, 1 + (w ++ 46 :: e).length, 1,
          [⟨1, c :: (w ++ 46 :: e), TokenType.TK_NUMBER⟩], false⟩ : Scanner).IsEnd = true := by
        unfold Scanner.IsEnd
        apply decide_eq_true
        show (c :: (w ++ 46 :: e)).length ≤ 1 + (w ++ 46 :: e).length
        simp
        omega
      refine ⟨Scanner.AddToken ⟨c :: (w ++ 46 :: e), 0 + (1 + (w ++ 46 :: e).length),
          1 + (w ++ 46 :: e).length, 1,
          [⟨1, c :: (w ++ 46 :: e), TokenType.TK_NUMBER⟩], false⟩ TokenType.TK_EOF, ?_, rfl, ?_⟩
      · unfold Scanner.ScanTokens
        rw [hlen]
        have h1 := Scanner.scanLoop_number (w ++ 46 :: e).length c (w ++ 46 :: e) hc
        rw [numberTail_fraction w e hw hed he] at h1
        rw [List.cons_append, h1, Scanner.scanLoop_end _ _ hend]
        simp
      · simp [Scanner.AddToken, Scanner.String]
    · -- digits and a dot
      have hlen : (NewScanner (c :: w ++ [46])).Source.length
          - (NewScanner (c :: w ++ [46])).Current = (w.length + 1) + 1 := by
        simp [NewScanner]
      have h1 := Scanner.scanLoop_number (w.length + 1) c (w ++ [46]) hc
      rw [numberTail_dot w hw] at h1
      have h2 := Scanner.scanLoop_step w.length
        ⟨c :: (w ++ [46]), 0, 1 + w.length, 1, [⟨1, c :: w, TokenType.TK_NUMBER⟩], false⟩
        (c :: w) [] 46 (by simp) (by simp; omega)
      have hsw : ∀ s : Scanner, Scanner.scanSwitch 46 s = s.AddToken TokenType.TK_DOT :=
        fun s => rfl
      rw [hsw] at h2
      dsimp only at h2
      have hend : (Scanner.AddToken ⟨c :: (w ++ [46]), 1 + w.length, 1 + w.length + 1, 1,
          [⟨1, c :: w, TokenType.TK_NUMBER⟩], false⟩ TokenType.TK_DOT).IsEnd = true := by
        unfold Scanner.IsEnd
        apply decide_eq_true
        show (c :: (w ++ [46])).length ≤ 1 + w.length + 1
        simp
        omega
      refine ⟨Scanner.AddToken
        { Scanner.AddToken ⟨c :: (w ++ [46]), 1 + w.length, 1 + w.length + 1, 1,
            [⟨1, c :: w, TokenType.TK_NUMBER⟩], false⟩ TokenType.TK_DOT with
          Start := 1 + w.length + 1 } TokenType.TK_EOF, ?_, rfl, ?_⟩
      · unfold Scanner.ScanTokens
        rw [hlen, List.cons_append, h1, h2, Scanner.scanLoop_end _ _ hend]
        rfl
      · have hstr : (⟨c :: (w ++ [46]), 1 + w.length, 1 + w.length + 1, 1,
            [⟨1, c :: w, TokenType.TK_NUMBER⟩], false⟩ : Scanner).String = [46] := by
          have := Scanner.string_one
            ⟨c :: (w ++ [46]), 0, 1 + w.length, 1, [⟨1, c :: w, TokenType.TK_NUMBER⟩], false⟩
            (c :: w) [] 46 (by simp) (by simp; omega)
          exact this
        simp [Scanner.AddToken, Scanner.String]
        simpa [Scanner.String] using hstr
    · intro source
      obtain ⟨s1, h1, new, hnew, hall⟩ :=
        Scanner.adds_scanLoop (source.length - 0) (NewScanner source) (Nat.zero_le _)
          (Nat.le_refl _)
      refine ⟨Scanner.AddToken { s1 with Start := s1.Current } TokenType.TK_EOF, ?_, ?_⟩
      · unfold Scanner.ScanTokens
        show (match Scanner.scanLoop (source.length - 0) (NewScanner source) with
          | some s1 => some (Scanner.AddToken { s1 with Start := s1.Current } TokenType.TK_EOF)
          | none => none) = _
        rw [h1]
      · intro t ht hnum
        have hmem : t ∈ new ∨ t = ⟨s1.Line, [], TokenType.TK_EOF⟩ := by
          simpa [Scanner.AddToken, Scanner.String, hnew, NewScanner] using ht
        rcases hmem with h | h
        · exact hall t h hnum
        · rw [h] at hnum
          exact absurd hnum (by simp)

/-- C19 at `12.5`, one number, and at `12.`, a number and a dot. -/
theorem C19_numeric_literals_witness :
    (∃ s, (NewScanner (ascii "12.5")).ScanTokens = some s ∧ s.HasErr = false ∧
      s.Tokens = [⟨1, ascii "12.5", TokenType.TK_NUMBER⟩, ⟨1, [], TokenType.TK_EOF⟩]) ∧
    (∃ s, (NewScanner (ascii "12.")).ScanTokens = some s ∧ s.HasErr = false ∧
      s.Tokens = [⟨1, ascii "12", TokenType.TK_NUMBER⟩, ⟨1, [46], TokenType.TK_DOT⟩,
        ⟨1, [], TokenType.TK_EOF⟩]) :=
  ⟨(C19_numeric_literals [49, 50] [53] (by decide) (by decide) (by decide) (by decide)).1,
   (C19_numeric_literals [49, 50] [53] (by decide) (by decide) (by decide) (by decide)).2.1⟩

/-! ## Precedence of binary operators -/

theorem mem_levelOps (typ : TokenType) (k : Nat) (h1 : 1 ≤ k) (h4 : k ≤ 4) :
    typ ∈ levelOps k ↔ binaryLevel typ = some k := by
  interval_cases k <;> cases typ <;> decide

theorem eof_not_mem_levelOps (k : Nat) : TokenType.TK_EOF ∉ levelOps k := by
  unfold levelOps
  split <;> decide

theorem levelParser_unfold (u k : Nat) (h1 : 1 ≤ k) (h4 : k ≤ 4) (p : Parser) :
    levelParser u k p
      = (levelParser u (k + 1) p).andThen fun expr p1 =>
          Parser.binaryLoop (levelOps k) (levelParser u (k + 1)) (u + 5 - k) expr p1 := by
  interval_cases k
  · show Parser.ParseEquality (u + 5) p = _
    unfold Parser.ParseEquality
    rfl
  · show Parser.ParseComparsion (u + 4) p = _
    unfold Parser.ParseComparsion
    rfl
  · show Parser.ParseTerm (u + 3) p = _
    unfold Parser.ParseTerm
    rfl
  · show Parser.ParseFactor (u + 2) p = _
    unfold Parser.ParseFactor
    rfl

namespace Parser

/-- `MatchAny` past the last token: nothing is consumed. -/
theorem matchAny_none (p : Parser) (types : List TokenType)
    (hat : p.Tokens.get? p.Current = none) (heof : TokenType.TK_EOF ∉ types) :
    p.MatchAny types = (Result.ok false, p) := by
  have hend : p.IsEnd = true := by
    unfold IsEnd
    rw [decide_eq_true (List.get?_eq_none.1 hat)]
    rfl
  induction types with
  | nil => rfl
  | cons typ rest ih =>
    have h2 : typ ≠ TokenType.TK_EOF := fun h => heof (by simp [h])
    unfold MatchAny Check
    rw [hend, if_pos rfl, decide_eq_false h2]
    exact ih (fun h => heof (by simp [h]))

/-- A primary expression does not start with `!` or `-`: where `ParsePrimary`
returns a tree, `ParseUnary` returns the same. -/
theorem parseUnary_of_primary (u : Nat) (p q : Parser) (x : Expr)
    (h : ParsePrimary u p = some (Result.ok x, q)) :
    ParseUnary (u + 1) p = some (Result.ok x, q) := by
  cases u with
  | zero => unfold ParsePrimary at h; cases h
  | succ n =>
    have hm : p.MatchAny [TokenType.TK_BANG, TokenType.TK_MINUS] = (Result.ok false, p) := by
      cases hat : p.Tokens.get? p.Current with
      | none => exact matchAny_none p _ hat (by decide)
      | some t =>
        by_cases hin : t.Typ ∈ [TokenType.TK_BANG, TokenType.TK_MINUS]
        · exfalso
          have hne : ∀ types : List TokenType, TokenType.TK_BANG ∉ types →
              TokenType.TK_MINUS ∉ types → TokenType.TK_EOF ∉ types →
              p.MatchAny types = (Result.ok false, p) := by
            intro types hb hmi he
            refine matchAny_miss p t types hat ?_ he
            intro hmem
            rcases List.mem_cons.1 hin with h1 | h1
            · rw [h1] at hmem; exact hb hmem
            · rw [List.mem_singleton.1 h1] at hmem; exact hmi hmem
          unfold ParsePrimary at h
          rw [hne _ (by decide) (by decide) (by decide)] at h
          simp only [andThen, Bool.false_eq_true, if_false] at h
          rw [hne _ (by decide) (by decide) (by decide)] at h
          simp only [andThen, Bool.false_eq_true, if_false] at h
          rw [hne _ (by decide) (by decide) (by decide)] at h
          simp only [andThen, Bool.false_eq_true, if_false, Peek, hat] at h
          cases h
        · exact matchAny_miss p t _ hat hin (by decide)
    unfold ParseUnary
    rw [hm]
    simp only [andThen, Bool.false_eq_true, if_false]
    exact h

/-- The loop of a binary level on one of its operators: the operand is
parsed and the loop goes on with the new node. -/
theorem binaryLoop_hit (types : List TokenType) (operand : Parser → PRes Expr)
    (fuel : Nat) (expr : Expr) (p : Parser) (t : Token)
    (hat : p.Tokens.get? p.Current = some t) (hne : t.Typ ≠ TokenType.TK_EOF)
    (hin : t.Typ ∈ types) :
    binaryLoop types operand (fuel + 1) expr p
      = (operand { p with Current := p.Current + 1 }).andThen fun right p3 =>
          binaryLoop types operand fuel (Expr.BinaryExpr expr right t) p3 := by
  conv => lhs; unfold binaryLoop
  rw [matchAny_hit p t types hat hne hin]
  simp only [andThen, if_true]
  rw [previous_after p t hat]

end Parser

/-- A tree parsed at level `k + 1` is the result at level `k` when the next
token is no operator of level `k`. -/
theorem levelParser_pass (u k : Nat) (h1 : 1 ≤ k) (h4 : k ≤ 4) (p q : Parser) (e : Expr)
    (t : Token) (h : levelParser u (k + 1) p = some (Result.ok e, q))
    (hat : q.Tokens.get? q.Current = some t) (hno : binaryLevel t.Typ ≠ some k) :
    levelParser u k p = some (Result.ok e, q) := by
  rw [levelParser_unfold u k h1 h4, h]
  have hf : u + 5 - k = (u + 4 - k) + 1 := by omega
  rw [hf]
  exact Parser.binaryLoop_miss _ _ _ e q t hat
    (fun hm => hno ((mem_levelOps _ k h1 h4).1 hm)) (eof_not_mem_levelOps k)

/-- A tree parsed at level `k + d` is the result at level `k` when the next
token is no operator of the levels from `k` to `k + d - 1`. -/
theorem levelParser_down (u : Nat) (p q : Parser) (e : Expr) (t : Token)
    (hat : q.Tokens.get? q.Current = some t) (d k : Nat) (h1 : 1 ≤ k) (h5 : k + d ≤ 5)
    (h : levelParser u (k + d) p = some (Result.ok e, q))
    (hno : ∀ j, k ≤ j → j < k + d → binaryLevel t.Typ ≠ some j) :
    levelParser u k p = some (Result.ok e, q) := by
  induction d generalizing k with
  | zero => exact h
  | succ n ih =>
    refine levelParser_pass u k h1 (by omega) p q e t ?_ hat (hno k (Nat.le_refl _) (by omega))
    refine ih (k + 1) (by omega) (by omega) ?_ (fun j hj1 hj2 => hno j (by omega) (by omega))
    rw [← h]
    congr 1
    omega

/-- A primary expression followed by a token that is no operator of level
`k` or higher is the result at level `k`. -/
theorem levelParser_primary (u : Nat) (p q : Parser) (x : Expr) (t : Token)
    (h : Parser.ParsePrimary u p = some (Result.ok x, q))
    (hat : q.Tokens.get? q.Current = some t) (k : Nat) (h1 : 1 ≤ k) (h5 : k ≤ 5)
    (hno : ∀ j, k ≤ j → binaryLevel t.Typ ≠ some j) :
    levelParser u k p = some (Result.ok x, q) := by
  refine levelParser_down u p q x t hat (5 - k) k h1 (by omega) ?_
    (fun j hj _ => hno j hj)
  have h5k : k + (5 - k) = 5 := by omega
  rw [h5k]
  exact Parser.parseUnary_of_primary u p q x h

/-- The tokens `y op z` followed by a token that is no binary operator: at
the level of `op` and at every lower level the result is the node of `op`. -/
theorem levelParser_pair (u : Nat) (hu : 1 ≤ u) (p p2 p3 : Parser) (y z : Expr)
    (o t : Token) (l : Nat)
    (hy : Parser.ParsePrimary u p = some (Result.ok y, p2))
    (ho : p2.Tokens.get? p2.Current = some o) (hl : binaryLevel o.Typ = some l)
    (hz : Parser.ParsePrimary u { p2 with Current := p2.Current + 1 }
      = some (Result.ok z, p3))
    (ht : p3.Tokens.get? p3.Current = some t) (hterm : binaryLevel t.Typ = none)
    (k : Nat) (h1 : 1 ≤ k) (hk : k ≤ l) :
    levelParser u k p = some (Result.ok (Expr.BinaryExpr y z o), p3) := by
  have hl14 : 1 ≤ l ∧ l ≤ 4 := by
    cases hty : o.Typ <;> rw [hty] at hl <;> simp [binaryLevel] at hl <;> omega
  have hne : o.Typ ≠ TokenType.TK_EOF := by
    intro h
    rw [h] at hl
    cases hl
  have hat_l : levelParser u l p = some (Result.ok (Expr.BinaryExpr y z o), p3) := by
    rw [levelParser_unfold u l hl14.1 hl14.2,
      levelParser_primary u p p2 y o hy ho (l + 1) (by omega) (by omega)
        (fun j hj => by rw [hl]; intro h; cases h; omega)]
    have hf : u + 5 - l = (u + 3 - l) + 1 + 1 := by omega
    simp only [PRes.andThen, andThen]
    rw [hf, Parser.binaryLoop_hit _ _ _ y p2 o ho hne ((mem_levelOps _ l hl14.1 hl14.2).2 hl),
      levelParser_primary u _ p3 z t hz ht (l + 1) (by omega) (by omega)
        (fun j _ => by rw [hterm]; intro h; cases h)]
    simp only [PRes.andThen, andThen]
    exact Parser.binaryLoop_miss _ _ _ _ p3 t ht
      (fun hm => by rw [(mem_levelOps _ l hl14.1 hl14.2).1 hm] at hterm; cases hterm)
      (eof_not_mem_levelOps l)
  refine levelParser_down u p p3 _ t ht (l - k) k h1 (by omega) ?_
    (fun j _ _ => by rw [hterm]; intro h; cases h)
  have hkl : k + (l - k) = l := by omega
  rw [hkl]
  exact hat_l
/-- C15: for primary expressions `x`, `y`, `z` and binary operators `op1` of
level `l1` and `op2` of level `l2` (factor 4, term 3, comparison 2, equality
1), `ParseExpression` on `x op1 y op2 z` returns the node of `op2` over the
node of `op1` and `z` when `l2 ≤ l1`, so that equal levels group to the left,
and the node of `op1` over `x` and the node of `op2` when `l1 < l2`. The
tokens are given by what `ParsePrimary` reads: `x` from `p0` to `p1`, where
`op1` stands, `y` after it up to `p2`, where `op2` stands, and `z` after it
up to `p3`, where a token that is neither a binary operator nor `=` stands. -/
theorem C15_precedence_and_associativity (u : Nat) (hu : 2 ≤ u) (p0 p1 p2 p3 : Parser)
    (x y z : Expr) (op1 op2 t : Token) (l1 l2 : Nat)
    (hx : Parser.ParsePrimary u p0 = some (Result.ok x, p1))
    (h1 : p1.Tokens.get? p1.Current = some op1) (hl1 : binaryLevel op1.Typ = some l1)
    (hy : Parser.ParsePrimary u { p1 with Current := p1.Current + 1 }
      = some (Result.ok y, p2))
    (h2 : p2.Tokens.get? p2.Current = some op2) (hl2 : binaryLevel op2.Typ = some l2)
    (hz : Parser.ParsePrimary u { p2 with Current := p2.Current + 1 }
      = some (Result.ok z, p3))
    (ht : p3.Tokens.get? p3.Current = some t) (hterm : binaryLevel t.Typ = none)
    (hassign : t.Typ ≠ TokenType.TK_EQUAL) :
    Parser.ParseExpression (u + 7) p0
      = some (Result.ok
          (if l2 ≤ l1 then Expr.BinaryExpr (Expr.BinaryExpr x y op1) z op2
            else Expr.BinaryExpr x (Expr.BinaryExpr y z op2) op1), p3) := by
  have hr1 : 1 ≤ l1 ∧ l1 ≤ 4 := by
    cases hty : op1.Typ <;> rw [hty] at hl1 <;> simp [binaryLevel] at hl1 <;> omega
  have hr2 : 1 ≤ l2 ∧ l2 ≤ 4 := by
    cases hty : op2.Typ <;> rw [hty] at hl2 <;> simp [binaryLevel] at hl2 <;> omega
  have hne1 : op1.Typ ≠ TokenType.TK_EOF := by
    intro h
    rw [h] at hl1
    cases hl1
  have hne2 : op2.Typ ≠ TokenType.TK_EOF := by
    intro h
    rw [h] at hl2
    cases hl2
  have hmiss : ∀ (k : Nat) (operand : Parser → PRes Expr) (n : Nat) (e : Expr),
      1 ≤ k → k ≤ 4 →
      Parser.binaryLoop (levelOps k) operand (n + 1) e p3 = some (Result.ok e, p3) := by
    intro k operand n e hk1 hk4
    exact Parser.binaryLoop_miss _ _ _ _ p3 t ht
      (fun hm => by rw [(mem_levelOps _ k hk1 hk4).1 hm] at hterm; cases hterm)
      (eof_not_mem_levelOps k)
  have hnone : ∀ j : Nat, binaryLevel t.Typ ≠ some j := by
    intro j h
    rw [hterm] at h
    cases h
  -- the result of `ParseEquality`
  have hlevel : levelParser u 1 p0
      = some (Result.ok
          (if l2 ≤ l1 then Expr.BinaryExpr (Expr.BinaryExpr x y op1) z op2
            else Expr.BinaryExpr x (Expr.BinaryExpr y z op2) op1), p3) := by
    have hxl : levelParser u (l1 + 1) p0 = some (Result.ok x, p1) :=
      levelParser_primary u p0 p1 x op1 hx h1 (l1 + 1) (by omega) (by omega)
        (fun j hj => by rw [hl1]; intro h; cases h; omega)
    have hf : u + 5 - l1 = (u + 2 - l1) + 1 + 1 + 1 := by omega
    by_cases hle : l2 ≤ l1
    · rw [if_pos hle]
      have hyl : levelParser u (l1 + 1) { p1 with Current := p1.Current + 1 }
          = some (Result.ok y, p2) :=
        levelParser_primary u _ p2 y op2 hy h2 (l1 + 1) (by omega) (by omega)
          (fun j hj => by rw [hl2]; intro h; cases h; omega)
      by_cases heq : l2 = l1
      · -- the loop of level `l1` reads both operators
        have hzl : levelParser u (l1 + 1) { p2 with Current := p2.Current + 1 }
            = some (Result.ok z, p3) :=
          levelParser_primary u _ p3 z t hz ht (l1 + 1) (by omega) (by omega)
            (fun j _ => hnone j)
        have hat1 : levelParser u l1 p0
            = some (Result.ok (Expr.BinaryExpr (Expr.BinaryExpr x y op1) z op2), p3) := by
          rw [levelParser_unfold u l1 hr1.1 hr1.2, hxl]
          simp only [PRes.andThen, andThen]
          rw [hf, Parser.binaryLoop_hit _ _ _ x p1 op1 h1 hne1
            ((mem_levelOps _ l1 hr1.1 hr1.2).2 hl1), hyl]
          simp only [PRes.andThen, andThen]
          rw [Parser.binaryLoop_hit _ _ _ _ p2 op2 h2 hne2
            ((mem_levelOps _ l1 hr1.1 hr1.2).2 (by rw [hl2, heq])), hzl]
          simp only [PRes.andThen, andThen]
          exact hmiss l1 _ _ _ hr1.1 hr1.2
        refine levelParser_down u p0 p3 _ t ht (l1 - 1) 1 (Nat.le_refl _) (by omega) ?_
          (fun j _ _ => hnone j)
        have hk : 1 + (l1 - 1) = l1 := by omega
        rw [hk]
        exact hat1
      · -- the loop of level `l1` stops at `op2`, which a lower level reads
        have hlt : l2 < l1 := by omega
        have hat1 : levelParser u l1 p0 = some (Result.ok (Expr.BinaryExpr x y op1), p2) := by
          rw [levelParser_unfold u l1 hr1.1 hr1.2, hxl]
          simp only [PRes.andThen, andThen]
          rw [hf, Parser.binaryLoop_hit _ _ _ x p1 op1 h1 hne1
            ((mem_levelOps _ l1 hr1.1 hr1.2).2 hl1), hyl]
          simp only [PRes.andThen, andThen]
          exact Parser.binaryLoop_miss _ _ _ _ p2 op2 h2
            (fun hm => by
              rw [(mem_levelOps _ l1 hr1.1 hr1.2).1 hm] at hl2
              cases hl2
              exact heq rfl)
            (eof_not_mem_levelOps l1)
        have hat2 : levelParser u (l2 + 1) p0
            = some (Result.ok (Expr.BinaryExpr x y op1), p2) := by
          refine levelParser_down u p0 p2 _ op2 h2 (l1 - (l2 + 1)) (l2 + 1) (by omega)
            (by omega) ?_ (fun j hj _ => by rw [hl2]; intro h; cases h; omega)
          have hk : l2 + 1 + (l1 - (l2 + 1)) = l1 := by omega
          rw [hk]
          exact hat1
        have hzl : levelParser u (l2 + 1) { p2 with Current := p2.Current + 1 }
            = some (Result.ok z, p3) :=
          levelParser_primary u _ p3 z t hz ht (l2 + 1) (by omega) (by omega)
            (fun j _ => hnone j)
        have hat3 : levelParser u l2 p0
            = some (Result.ok (Expr.BinaryExpr (Expr.BinaryExpr x y op1) z op2), p3) := by
          rw [levelParser_unfold u l2 hr2.1 hr2.2, hat2]
          simp only [PRes.andThen, andThen]
          have hf2 : u + 5 - l2 = (u + 3 - l2) + 1 + 1 := by omega
          rw [hf2, Parser.binaryLoop_hit _ _ _ _ p2 op2 h2 hne2
            ((mem_levelOps _ l2 hr2.1 hr2.2).2 hl2), hzl]
          simp only [PRes.andThen, andThen]
          exact hmiss l2 _ _ _ hr2.1 hr2.2
        refine levelParser_down u p0 p3 _ t ht (l2 - 1) 1 (Nat.le_refl _) (by omega) ?_
          (fun j _ _ => hnone j)
        have hk : 1 + (l2 - 1) = l2 := by omega
        rw [hk]
        exact hat3
    · -- the operand of `op1` is the node of `op2`
      rw [if_neg hle]
      have hpair : levelParser u (l1 + 1) { p1 with Current := p1.Current + 1 }
          = some (Result.ok (Expr.BinaryExpr y z op2), p3) :=
        levelParser_pair u (by omega) _ p2 p3 y z op2 t l2 hy h2 hl2 hz ht hterm (l1 + 1)
          (by omega) (by omega)
      have hat1 : levelParser u l1 p0
          = some (Result.ok (Expr.BinaryExpr x (Expr.BinaryExpr y z op2) op1), p3) := by
        rw [levelParser_unfold u l1 hr1.1 hr1.2, hxl]
        simp only [PRes.andThen, andThen]
        rw [hf, Parser.binaryLoop_hit _ _ _ x p1 op1 h1 hne1
          ((mem_levelOps _ l1 hr1.1 hr1.2).2 hl1), hpair]
        simp only [PRes.andThen, andThen]
        exact hmiss l1 _ _ _ hr1.1 hr1.2
      refine levelParser_down u p0 p3 _ t ht (l1 - 1) 1 (Nat.le_refl _) (by omega) ?_
        (fun j _ _ => hnone j)
      have hk : 1 + (l1 - 1) = l1 := by omega
      rw [hk]
      exact hat1
  have heq5 : Parser.ParseEquality (u + 5) p0 = levelParser u 1 p0 := rfl
  have hm : p3.MatchAny [TokenType.TK_EQUAL] = (Result.ok false, p3) :=
    Parser.matchAny_miss p3 t _ ht (by simpa using hassign) (by decide)
  unfold Parser.ParseExpression Parser.ParseAssignment
  rw [heq5, hlevel]
  simp only [PRes.andThen, andThen, hm]
  rfl
/-- C15 at `1 + 2 * 3`, where `*` binds the right operand of `+`, and at
`1 - 2 - 3`, grouped to the left. -/
theorem C15_precedence_and_associativity_witness :
    Parser.ParseExpression 9 ⟨sumOfProductTokens, 0⟩
      = some (Result.ok
          (Expr.BinaryExpr (Expr.LiteralExpr (tok TokenType.TK_NUMBER "1"))
            (Expr.BinaryExpr (Expr.LiteralExpr (tok TokenType.TK_NUMBER "2"))
              (Expr.LiteralExpr (tok TokenType.TK_NUMBER "3")) (tok TokenType.TK_STAR "*"))
            (tok TokenType.TK_PLUS "+")),
          ⟨sumOfProductTokens, 5⟩) ∧
    Parser.ParseExpression 9 ⟨differenceTokens, 0⟩
      = some (Result.ok
          (Expr.BinaryExpr
            (Expr.BinaryExpr (Expr.LiteralExpr (tok TokenType.TK_NUMBER "1"))
              (Expr.LiteralExpr (tok TokenType.TK_NUMBER "2")) (tok TokenType.TK_MINUS "-"))
            (Expr.LiteralExpr (tok TokenType.TK_NUMBER "3")) (tok TokenType.TK_MINUS "-")),
          ⟨differenceTokens, 5⟩) :=
  ⟨C15_precedence_and_associativity 2 (by decide) ⟨sumOfProductTokens, 0⟩
      ⟨sumOfProductTokens, 1⟩ ⟨sumOfProductTokens, 3⟩ ⟨sumOfProductTokens, 5⟩
      (Expr.LiteralExpr (tok TokenType.TK_NUMBER "1"))
      (Expr.LiteralExpr (tok TokenType.TK_NUMBER "2"))
      (Expr.LiteralExpr (tok TokenType.TK_NUMBER "3"))
      (tok TokenType.TK_PLUS "+") (tok TokenType.TK_STAR "*")
      (tok TokenType.TK_EOF "") 3 4 (by decide!) (by decide!) (by decide!) (by decide!)
      (by decide!) (by decide!) (by decide!) (by decide!) (by decide!) (by decide!),
   C15_precedence_and_associativity 2 (by decide) ⟨differenceTokens, 0⟩
      ⟨differenceTokens, 1⟩ ⟨differenceTokens, 3⟩ ⟨differenceTokens, 5⟩
      (Expr.LiteralExpr (tok TokenType.TK_NUMBER "1"))
      (Expr.LiteralExpr (tok TokenType.TK_NUMBER "2"))
      (Expr.LiteralExpr (tok TokenType.TK_NUMBER "3"))
      (tok TokenType.TK_MINUS "-") (tok TokenType.TK_MINUS "-")
      (tok TokenType.TK_EOF "") 3 3 (by decide!) (by decide!) (by decide!) (by decide!)
      (by decide!) (by decide!) (by decide!) (by decide!) (by decide!) (by decide!)⟩

/-! ## String literals -/

namespace Scanner

theorem takeWhile_tail (P : Nat → Bool) (a : GoString) (c : Nat) (b : GoString)
    (hc : P c = false) : (a ++ c :: b).takeWhile P = a.takeWhile P := by
  induction a with
  | nil => exact takeWhile_head_false P c b hc
  | cons x xs ih =>
    rw [List.cons_append, List.takeWhile_cons, List.takeWhile_cons, ih]

theorem dropWhile_tail (P : Nat → Bool) (a : GoString) (c : Nat) (b : GoString)
    (hc : P c = false) : (a ++ c :: b).dropWhile P = a.dropWhile P ++ c :: b := by
  induction a with
  | nil => rw [List.nil_append, List.dropWhile_cons, hc]; rfl
  | cons x xs ih =>
    rw [List.cons_append, List.dropWhile_cons, List.dropWhile_cons, ih]
    split <;> rfl

/-- The loop of `ResolveIdAndKeyword` and `ResolveNum`, by the text after the
cursor. -/
theorem skipWhile_cursor (P : Nat → Bool) (hP : P 0 = false) (s : Scanner)
    (h : s.Current ≤ s.Source.length) :
    skipWhile P (s.Source.length - s.Current) s
      = { s with Current := s.Current + ((s.Source.drop s.Current).takeWhile P).length } :=
  skipWhile_takeWhile P hP (s.Source.drop s.Current) (s.Source.take s.Current) s _
    (List.take_append_drop _ _).symm (by rw [List.length_take]; omega)
    (by rw [List.length_drop])

/-- The loop of `FindChar`, by the text after the cursor. -/
theorem findLoop_cursor (ch : Nat) (s : Scanner) (h : s.Current ≤ s.Source.length) :
    findLoop ch (s.Source.length - s.Current) s =
      if ch ∈ s.Source.drop s.Current then
        (true, { s with Current := s.Current
          + ((s.Source.drop s.Current).takeWhile (fun x => x != ch)).length + 1 })
      else (false, { s with Current := s.Current + (s.Source.drop s.Current).length }) :=
  findLoop_takeWhile ch (s.Source.drop s.Current) (s.Source.take s.Current) s _
    (List.take_append_drop _ _).symm (by rw [List.length_take]; omega)
    (by rw [List.length_drop])

/-- The loop of `SkipOneLineComment`, by the text after the cursor. -/
theorem commentLoop_cursor (s : Scanner) (h : s.Current ≤ s.Source.length) :
    commentLoop (s.Source.length - s.Current) s =
      if 10 ∈ s.Source.drop s.Current then
        { s with Line := s.Line + 1,
                 Current := s.Current
                   + ((s.Source.drop s.Current).takeWhile (fun x => x != 10)).length + 1 }
      else { s with Current := s.Current + (s.Source.drop s.Current).length } :=
  commentLoop_takeWhile (s.Source.drop s.Current) (s.Source.take s.Current) s _
    (List.take_append_drop _ _).symm (by rw [List.length_take]; omega)
    (by rw [List.length_drop])

theorem drop_withTail (s : Scanner) (q : GoString) (n : Nat) (h : n ≤ s.Source.length) :
    (s.withTail q).Source.drop n = s.Source.drop n ++ q := by
  show (s.Source ++ q).drop n = _
  rw [List.drop_append_of_le_length h]

theorem string_withTail (s : Scanner) (q : GoString) (h : s.Current ≤ s.Source.length) :
    (s.withTail q).String = s.String := by
  unfold String
  show ((s.Source ++ q).drop s.Start).take (s.Current - s.Start) = _
  by_cases hs : s.Start ≤ s.Current
  · rw [List.drop_append_of_le_length (by omega),
      List.take_append_of_le_length (by rw [List.length_drop]; omega)]
  · have h0 : s.Current - s.Start = 0 := by omega
    rw [h0]
    rfl

theorem addToken_withTail (s : Scanner) (q : GoString) (typ : TokenType)
    (h : s.Current ≤ s.Source.length) :
    (s.withTail q).AddToken typ = (s.AddToken typ).withTail q := by
  unfold AddToken
  rw [string_withTail s q h]
  rfl

theorem skipWhile_withTail (P : Nat → Bool) (hP : P 0 = false) (h34 : P 34 = false)
    (s : Scanner) (r : GoString) (h : s.Current ≤ s.Source.length) :
    skipWhile P ((s.withTail (34 :: r)).Source.length - (s.withTail (34 :: r)).Current)
        (s.withTail (34 :: r))
      = (skipWhile P (s.Source.length - s.Current) s).withTail (34 :: r) := by
  have h2 : (s.withTail (34 :: r)).Current ≤ (s.withTail (34 :: r)).Source.length := by
    show s.Current ≤ (s.Source ++ 34 :: r).length
    rw [List.length_append]
    omega
  rw [skipWhile_cursor P hP _ h2, skipWhile_cursor P hP s h]
  have hd : (s.withTail (34 :: r)).Source.drop (s.withTail (34 :: r)).Current
      = s.Source.drop s.Current ++ 34 :: r := drop_withTail s _ _ h
  rw [hd, takeWhile_tail P _ 34 r h34]
  rfl

end Scanner
namespace Scanner

theorem takeWhile_ne_mem (ch : Nat) (a b : GoString) (h : ch ∈ a) :
    (a ++ b).takeWhile (fun x => x != ch) = a.takeWhile (fun x => x != ch) := by
  induction a with
  | nil => simp at h
  | cons x xs ih =>
    rw [List.cons_append, List.takeWhile_cons, List.takeWhile_cons]
    by_cases hx : x = ch
    · simp [hx]
    · have hm : ch ∈ xs := by
        rcases List.mem_cons.1 h with h1 | h1
        · exact absurd h1.symm hx
        · exact h1
      rw [ih hm]

theorem takeWhile_ne_length (ch : Nat) (a : GoString) (h : ch ∈ a) :
    (a.takeWhile (fun x => x != ch)).length + 1 ≤ a.length := by
  induction a with
  | nil => simp at h
  | cons x xs ih =>
    rw [List.takeWhile_cons]
    by_cases hx : x = ch
    · simp [hx]
    · have hm : ch ∈ xs := by
        rcases List.mem_cons.1 h with h1 | h1
        · exact absurd h1.symm hx
        · exact h1
      have := ih hm
      simp [hx]
      omega

theorem withTail_length (s : Scanner) (q : GoString) (h : s.Current ≤ s.Source.length) :
    (s.withTail q).Current ≤ (s.withTail q).Source.length := by
  show s.Current ≤ (s.Source ++ q).length
  rw [List.length_append]
  omega

/-- `Match` on one byte that is not `"`, before a `"`. -/
theorem match_withTail (s : Scanner) (e : Nat) (r : GoString) (he : e ≠ 34)
    (h : s.Current ≤ s.Source.length) :
    (s.withTail (34 :: r)).Match [e]
        = ((s.Match [e]).1, (s.Match [e]).2.withTail (34 :: r)) ∧
      (s.Match [e]).2.Current ≤ (s.Match [e]).2.Source.length ∧
      (s.Match [e]).2.Source = s.Source ∧
      ((s.Match [e]).1 = true →
        (s.Source.drop s.Current).take 1 = [e] ∧ (s.Match [e]).2.Current = s.Current + 1) := by
  unfold Match
  show (if s.Current + 1 > (s.Source ++ 34 :: r).length then _ else
      if [e] = ((s.Source ++ 34 :: r).drop s.Current).take 1 then _ else _) = _ ∧ _
  have hlt : ¬ s.Current + 1 > (s.Source ++ 34 :: r).length := by
    rw [List.length_append, List.length_cons]
    omega
  rw [if_neg hlt]
  by_cases hend : s.Current + 1 > s.Source.length
  · have hc : s.Current = s.Source.length := by omega
    have hd : ((s.Source ++ 34 :: r).drop s.Current).take 1 = [34] := by
      rw [hc, List.drop_left]
      rfl
    rw [hd, if_neg (by simpa using he)]
    simp only [List.length_singleton]
    rw [if_pos hend]
    exact ⟨rfl, h, rfl, fun hf => by cases hf⟩
  · have hd : ((s.Source ++ 34 :: r).drop s.Current).take 1
        = (s.Source.drop s.Current).take 1 := by
      rw [List.drop_append_of_le_length (by omega),
        List.take_append_of_le_length (by rw [List.length_drop]; omega)]
    rw [hd]
    simp only [List.length_singleton]
    rw [if_neg hend]
    by_cases hm : [e] = (s.Source.drop s.Current).take 1
    · rw [if_pos hm, if_pos hm]
      exact ⟨rfl, by show s.Current + 1 ≤ s.Source.length; omega, rfl,
        fun _ => ⟨hm.symm, rfl⟩⟩
    · rw [if_neg hm, if_neg hm]
      exact ⟨rfl, h, rfl, fun hf => by cases hf⟩

theorem matchToken_withTail (s : Scanner) (e : Nat) (r : GoString) (two one : TokenType)
    (he : e ≠ 34) (h : s.Current ≤ s.Source.length) :
    matchToken (s.withTail (34 :: r)) [e] two one
      = (matchToken s [e] two one).withTail (34 :: r) := by
  obtain ⟨h1, h2, _, _⟩ := match_withTail s e r he h
  unfold matchToken
  rw [h1]
  cases hm : s.Match [e] with
  | mk b s1 =>
    rw [hm] at h2
    cases b
    · exact addToken_withTail s1 _ _ h2
    · exact addToken_withTail s1 _ _ h2

theorem resolveId_withTail (s : Scanner) (r : GoString) (h : s.Current ≤ s.Source.length) :
    (s.withTail (34 :: r)).ResolveIdAndKeyword = s.ResolveIdAndKeyword.withTail (34 :: r) := by
  unfold ResolveIdAndKeyword
  dsimp only
  rw [skipWhile_withTail isIdChar (by decide) (by decide) s r h]
  obtain ⟨h1, _, _, _, _, _, h7⟩ := skipWhile_spec isIdChar (s.Source.length - s.Current) s
  have hle : (skipWhile isIdChar (s.Source.length - s.Current) s).Current
      ≤ (skipWhile isIdChar (s.Source.length - s.Current) s).Source.length := by
    rw [h1]
    omega
  rw [string_withTail _ _ hle]
  split <;> exact addToken_withTail _ _ _ hle

theorem fractionPart_tail (d r : GoString) :
    fractionPart (d ++ 34 :: r) = fractionPart d := by
  match d with
  | [] => rfl
  | [y] =>
    by_cases hy : y = 46
    · subst hy
      rfl
    · show fractionPart (y :: 34 :: r) = fractionPart [y]
      unfold fractionPart
      split
      · rename_i heq
        cases heq
        exact absurd rfl hy
      · split
        · rename_i heq
          cases heq
        · rfl
  | y :: x :: xs =>
    by_cases hy : y = 46
    · subst hy
      show (if isDigit x then 46 :: ((x :: xs) ++ 34 :: r).takeWhile isDigit else [])
        = if isDigit x then 46 :: (x :: xs).takeWhile isDigit else []
      rw [takeWhile_tail isDigit (x :: xs) 34 r (by decide)]
    · show fractionPart (y :: x :: (xs ++ 34 :: r)) = fractionPart (y :: x :: xs)
      unfold fractionPart
      split
      · rename_i heq
        cases heq
        exact absurd rfl hy
      · split
        · rename_i heq
          cases heq
          exact absurd rfl hy
        · rfl

theorem numberTail_tail (rest r : GoString) :
    numberTail (rest ++ 34 :: r) = numberTail rest := by
  unfold numberTail
  rw [takeWhile_tail isDigit rest 34 r (by decide), dropWhile_tail isDigit rest 34 r (by decide),
    fractionPart_tail]

theorem resolveNum_withTail (s : Scanner) (r : GoString) (h : s.Current ≤ s.Source.length) :
    (s.withTail (34 :: r)).ResolveNum = s.ResolveNum.withTail (34 :: r) := by
  rw [resolveNum_eq s (s.Source.take s.Current) (s.Source.drop s.Current)
      (List.take_append_drop _ _).symm (by rw [List.length_take]; omega),
    resolveNum_eq (s.withTail (34 :: r)) (s.Source.take s.Current)
      (s.Source.drop s.Current ++ 34 :: r)
      (by show s.Source ++ 34 :: r = _; rw [← List.append_assoc, List.take_append_drop])
      (by show s.Current = _; rw [List.length_take]; omega),
    numberTail_tail]
  refine addToken_withTail { s with Current := s.Current
    + (numberTail (s.Source.drop s.Current)).length } (34 :: r) _ ?_
  have hp := (numberTail_initial (s.Source.drop s.Current)).length_le
  rw [List.length_drop] at hp
  show s.Current + _ ≤ s.Source.length
  omega

/-- The `/` case of `ScanToken` before a `"`, where a comment that starts
here ends with a line feed. -/
theorem slash_withTail (s : Scanner) (r : GoString) (h : s.Current ≤ s.Source.length)
    (hc : (s.Source.drop s.Current).take 1 = [47] → 10 ∈ s.Source.drop (s.Current + 1)) :
    (match (s.withTail (34 :: r)).Match [47] with
      | (true, s1) => s1.SkipOneLineComment
      | (false, s1) => s1.AddToken TokenType.TK_SLASH)
      = (match s.Match [47] with
          | (true, s1) => s1.SkipOneLineComment
          | (false, s1) => s1.AddToken TokenType.TK_SLASH).withTail (34 :: r) := by
  obtain ⟨h1, h2, h3, h4⟩ := match_withTail s 47 r (by decide) h
  rw [h1]
  cases hm : s.Match [47] with
  | mk b s1 =>
    rw [hm] at h2 h3 h4
    cases b
    · exact addToken_withTail s1 _ _ h2
    · obtain ⟨h5, h6⟩ := h4 rfl
      dsimp only at h2 h3 h5 h6 ⊢
      have hnl : 10 ∈ s1.Source.drop s1.Current := by
        rw [h3, h6]
        exact hc h5
      unfold SkipOneLineComment
      have hd : (s1.withTail (34 :: r)).Source.drop (s1.withTail (34 :: r)).Current
          = s1.Source.drop s1.Current ++ 34 :: r := drop_withTail s1 _ _ h2
      rw [commentLoop_cursor s1 h2, commentLoop_cursor _ (withTail_length s1 _ h2), hd,
        if_pos hnl, if_pos (List.mem_append_left _ hnl), takeWhile_ne_mem 10 _ _ hnl]
      rfl

/-- The `"` case of `ScanToken` before another `"`, where the string that
starts here is closed. -/
theorem quote_withTail (s : Scanner) (r : GoString) (h : s.Current ≤ s.Source.length)
    (hc : 34 ∈ s.Source.drop s.Current) :
    (match (s.withTail (34 :: r)).FindChar 34 with
      | (true, s1) => s1.AddToken TokenType.TK_STRING
      | (false, s1) => s1)
      = (match s.FindChar 34 with
          | (true, s1) => s1.AddToken TokenType.TK_STRING
          | (false, s1) => s1).withTail (34 :: r) := by
  unfold FindChar
  have hd : (s.withTail (34 :: r)).Source.drop (s.withTail (34 :: r)).Current
      = s.Source.drop s.Current ++ 34 :: r := drop_withTail s _ _ h
  rw [findLoop_cursor 34 s h, findLoop_cursor 34 _ (withTail_length s _ h), hd,
    if_pos hc, if_pos (List.mem_append_left _ hc), takeWhile_ne_mem 34 _ _ hc]
  dsimp only
  refine addToken_withTail { s with Current := s.Current
    + ((s.Source.drop s.Current).takeWhile (fun x => x != 34)).length + 1 } (34 :: r) _ ?_
  have hl := takeWhile_ne_length 34 _ hc
  rw [List.length_drop] at hl
  show s.Current + _ + 1 ≤ s.Source.length
  omega

end Scanner
namespace Scanner

theorem withTail_ite {q : GoString} (c : Prop) [Decidable c] {a b a1 b1 : Scanner}
    (ha : c → a1 = a.withTail q) (hb : ¬ c → b1 = b.withTail q) :
    (if c then a1 else b1) = (if c then a else b).withTail q := by
  split
  · rename_i h; exact ha h
  · rename_i h; exact hb h

/-- The `switch` of `ScanToken` before a `"`: what it does on the source
alone, where a string or comment that starts here ends inside the source. -/
theorem scanSwitch_withTail (c : Nat) (s : Scanner) (r : GoString)
    (h : s.Current ≤ s.Source.length)
    (h34 : c = 34 → 34 ∈ s.Source.drop s.Current)
    (h47 : c = 47 → (s.Source.drop s.Current).take 1 = [47] →
      10 ∈ s.Source.drop (s.Current + 1)) :
    scanSwitch c (s.withTail (34 :: r)) = (scanSwitch c s).withTail (34 :: r) := by
  unfold scanSwitch
  repeat' (refine withTail_ite _ (fun hcond => ?_) (fun _ => ?_))
  all_goals first
    | exact addToken_withTail _ _ _ h
    | rfl
    | exact matchToken_withTail _ _ _ _ _ (by decide) h
    | exact resolveNum_withTail _ _ h
    | exact resolveId_withTail _ _ h
    | exact slash_withTail _ _ h (h47 (by assumption))
    | exact quote_withTail _ _ h (h34 (by assumption))

theorem cur_withTail (s : Scanner) (q : GoString) (h : s.Current < s.Source.length) :
    (s.withTail q).cur = s.cur := by
  unfold cur
  show (s.Source ++ q).getD s.Current 0 = _
  rw [List.getD_eq_getElem?_getD, List.getD_eq_getElem?_getD, List.getElem?_append_left h]

theorem scanToken_withTail (s : Scanner) (r : GoString) (h : s.Current < s.Source.length)
    (hopen : s.roundOpen = false) :
    (s.withTail (34 :: r)).ScanToken = s.ScanToken.withTail (34 :: r) := by
  have he : s.IsEnd = false := by
    unfold IsEnd
    exact decide_eq_false (by omega)
  have he2 : (s.withTail (34 :: r)).IsEnd = false := by
    unfold IsEnd
    apply decide_eq_false
    show ¬ s.Current ≥ (s.Source ++ 34 :: r).length
    rw [List.length_append]
    omega
  unfold roundOpen at hopen
  simp only [Bool.or_eq_false_iff, Bool.and_eq_false_iff, beq_eq_false_iff_ne, ne_eq,
    decide_eq_false_iff_not, not_not, beq_iff_eq] at hopen
  obtain ⟨ho1, ho2⟩ := hopen
  unfold ScanToken Advance
  rw [he, he2, cur_withTail s _ h]
  refine scanSwitch_withTail s.cur { s with Current := s.Current + 1 } r
    (by show s.Current + 1 ≤ s.Source.length; omega) ?_ ?_
  · intro hc
    rcases ho1 with h1 | h1
    · exact absurd hc h1
    · exact h1
  · intro hc ht
    rcases ho2 with (h1 | h1) | h1
    · exact absurd hc h1
    · exact absurd ht h1
    · exact h1

theorem scanSwitch_quote (s : Scanner) :
    scanSwitch 34 s
      = match s.FindChar 34 with
        | (true, s1) => s1.AddToken TokenType.TK_STRING
        | (false, s1) => s1 := rfl

/-- The round on a `"` that no `"` follows: the rest of the source is read,
the error is reported and no token is added. -/
theorem scanLoop_unterminated (s : Scanner) (r : GoString) (hc : s.Current = s.Source.length)
    (hr : 34 ∉ r) (k : Nat) :
    scanLoop (k + 1) (s.withTail (34 :: r))
      = some (({ s with Start := s.Current, Current := s.Current + 1 + r.length,
                        HasErr := true } : Scanner).withTail (34 :: r)) := by
  rw [scanLoop_step k (s.withTail (34 :: r)) s.Source r 34 rfl hc, scanSwitch_quote]
  unfold FindChar
  have hlen : s.Current + 1 ≤ (s.Source ++ 34 :: r).length := by
    rw [List.length_append, List.length_cons]
    omega
  have hd : (s.Source ++ 34 :: r).drop (s.Current + 1) = r := by
    rw [hc]
    simp
  have hloop := findLoop_cursor 34
    { s.withTail (34 :: r) with Start := (s.withTail (34 :: r)).Current,
                                Current := (s.withTail (34 :: r)).Current + 1 } hlen
  dsimp only at hloop ⊢
  rw [hloop]
  have hd2 : List.drop ((s.withTail (34 :: r)).Current + 1) (s.withTail (34 :: r)).Source = r :=
    hd
  rw [hd2, if_neg hr]
  dsimp only
  refine scanLoop_end k _ ?_
  unfold IsEnd Report
  apply decide_eq_true
  show (s.Source ++ 34 :: r).length ≤ s.Current + 1 + r.length
  rw [List.length_append, List.length_cons]
  omega

/-- The loop of `ScanTokens` on a source followed by a `"` that no `"`
follows: the rounds on the source are those on the source alone, and the
last round reads the rest and reports the error. -/
theorem scanLoop_withTail (r : GoString) (hr : 34 ∉ r) (fuel : Nat) (s : Scanner)
    (h : s.Current ≤ s.Source.length) (hf : s.Source.length - s.Current ≤ fuel)
    (hopen : endsOpen fuel s = false) (m : Nat) :
    ∃ s1, scanLoop fuel s = some s1 ∧ s1.Source = s.Source ∧
      s1.Current = s.Source.length ∧
      scanLoop (fuel + 1 + m) (s.withTail (34 :: r))
        = some (({ s1 with Start := s1.Current, Current := s1.Current + 1 + r.length,
                           HasErr := true } : Scanner).withTail (34 :: r)) := by
  induction fuel generalizing s with
  | zero =>
    have hc : s.Current = s.Source.length := by omega
    refine ⟨s, scanLoop_end 0 s ?_, rfl, hc, ?_⟩
    · unfold IsEnd
      exact decide_eq_true (by omega)
    · have := scanLoop_unterminated s r hc hr m
      rw [show 0 + 1 + m = m + 1 by omega]
      exact this
  | succ n ih =>
    by_cases hend : s.Current ≥ s.Source.length
    · have hc : s.Current = s.Source.length := by omega
      refine ⟨s, scanLoop_end _ s ?_, rfl, hc, ?_⟩
      · unfold IsEnd
        exact decide_eq_true hend
      · have := scanLoop_unterminated s r hc hr (n + 1 + m)
        rw [show n + 1 + 1 + m = n + 1 + m + 1 by omega]
        exact this
    · have hlt : s.Current < s.Source.length := by omega
      have hne : s.IsEnd = false := by
        unfold IsEnd
        exact decide_eq_false hend
      have hne2 : (s.withTail (34 :: r)).IsEnd = false := by
        unfold IsEnd
        apply decide_eq_false
        show ¬ s.Current ≥ (s.Source ++ 34 :: r).length
        rw [List.length_append]
        omega
      unfold endsOpen at hopen
      rw [hne] at hopen
      simp only [Bool.false_eq_true, if_false] at hopen
      have hro : s.roundOpen = false := by
        cases hx : s.roundOpen
        · rfl
        · rw [hx] at hopen
          simp at hopen
      rw [hro] at hopen
      simp only [Bool.false_eq_true, if_false] at hopen
      obtain ⟨hext, hprog⟩ := extends_scanToken { s with Start := s.Current } hlt
      obtain ⟨hsrc, _, hin, _⟩ := hext
      dsimp only at hsrc hin hprog
      obtain ⟨s1, h1, h2, h3, h4⟩ := ih (ScanToken { s with Start := s.Current })
        (by rw [hsrc]; exact hin h) (by rw [hsrc]; omega) hopen
      refine ⟨s1, ?_, h2.trans hsrc, h3.trans (by rw [hsrc]), ?_⟩
      · conv => lhs; unfold scanLoop
        rw [hne]
        exact h1
      · rw [show n + 1 + 1 + m = (n + 1 + m) + 1 by omega]
        conv => lhs; unfold scanLoop
        rw [hne2]
        have hst := scanToken_withTail { s with Start := s.Current } r hlt hro
        have hst2 : ScanToken { s.withTail (34 :: r) with
              Start := (s.withTail (34 :: r)).Current }
            = (ScanToken { s with Start := s.Current }).withTail (34 :: r) := hst
        simp only [Bool.false_eq_true, if_false]
        rw [hst2]
        exact h4

end Scanner
/-- C18: where `r` has no `"` and no round of the scan of `p` ends inside a
string or a comment, the source `p"r` scans with the error flag set to the
tokens of `p` and nothing else, the EOF token of `p` being the last one; and
the source `"r"` scans without error to one STRING token whose lexeme is the
whole source, then EOF. -/
theorem C18_string_literals (p r : GoString) (hr : 34 ∉ r)
    (hp : Scanner.endsOpen p.length (NewScanner p) = false) :
    (∃ sp s, (NewScanner p).ScanTokens = some sp ∧
      (NewScanner (p ++ 34 :: r)).ScanTokens = some s ∧
      s.HasErr = true ∧ s.Tokens = sp.Tokens ∧
      ∃ init line, s.Tokens = init ++ [⟨line, [], TokenType.TK_EOF⟩] ∧
        ∀ t ∈ init, t.Typ ≠ TokenType.TK_EOF) ∧
    (∃ s, (NewScanner (34 :: (r ++ [34]))).ScanTokens = some s ∧ s.HasErr = false ∧
      s.Tokens = [⟨1, 34 :: (r ++ [34]), TokenType.TK_STRING⟩, ⟨1, [], TokenType.TK_EOF⟩]) := by
  refine ⟨?_, ?_⟩
  · obtain ⟨s1, h1, h2, h3, h4⟩ :=
      Scanner.scanLoop_withTail r hr p.length (NewScanner p) (Nat.zero_le _) (Nat.le_refl _)
        hp r.length
    obtain ⟨s0, h0, hext, _⟩ :=
      Scanner.scanLoop_spec p.length (NewScanner p) (Nat.zero_le _) (Nat.le_refl _)
    rw [h1] at h0
    cases h0
    obtain ⟨_, _, _, new, hnew, hall⟩ := hext
    refine ⟨Scanner.AddToken { s1 with Start := s1.Current } TokenType.TK_EOF,
      Scanner.AddToken
        { ({ s1 with Start := s1.Current, Current := s1.Current + 1 + r.length,
                     HasErr := true } : Scanner).withTail (34 :: r) with
          Start := s1.Current + 1 + r.length } TokenType.TK_EOF, ?_, ?_, rfl, ?_, new, s1.Line,
      ?_, hall⟩
    · unfold Scanner.ScanTokens
      show (match Scanner.scanLoop p.length (NewScanner p) with
        | some s1 => some (Scanner.AddToken { s1 with Start := s1.Current } TokenType.TK_EOF)
        | none => none) = _
      rw [h1]
    · unfold Scanner.ScanTokens
      have hlen : (NewScanner (p ++ 34 :: r)).Source.length - (NewScanner (p ++ 34 :: r)).Current
          = p.length + 1 + r.length := by
        simp [NewScanner]
        omega
      have h5 : Scanner.scanLoop (p.length + 1 + r.length) (NewScanner (p ++ 34 :: r)) = _ := h4
      rw [hlen, h5]
      rfl
    · simp [Scanner.AddToken, Scanner.String, Scanner.withTail]
    · simp [Scanner.AddToken, Scanner.String, Scanner.withTail, hnew, NewScanner]
  · have hfind := Scanner.findLoop_cursor 34 ⟨34 :: (r ++ [34]), 0, 1, 1, [], false⟩
      (by show 1 ≤ (34 :: (r ++ [34])).length; simp)
    have hall : ∀ x ∈ r, (fun x => x != 34) x = true := by
      intro x hx
      have : x ≠ 34 := fun h => hr (h ▸ hx)
      simpa using this
    have hd : List.drop 1 (34 :: (r ++ [34])) = r ++ [34] := rfl
    dsimp only at hfind
    rw [hd, if_pos (by simp),
      Scanner.takeWhile_stop (fun x => x != 34) r 34 [] hall (by decide)] at hfind
    have hsw : Scanner.scanSwitch 34 ⟨34 :: (r ++ [34]), 0, 1, 1, [], false⟩
        = Scanner.AddToken ⟨34 :: (r ++ [34]), 0, 1 + r.length + 1, 1, [], false⟩
            TokenType.TK_STRING := by
      rw [Scanner.scanSwitch_quote]
      unfold Scanner.FindChar
      rw [hfind]
    have hstep := Scanner.scanLoop_step (r.length + 1) (NewScanner (34 :: (r ++ [34]))) []
      (r ++ [34]) 34 rfl rfl
    have hstep2 : Scanner.scanLoop (r.length + 1 + 1) (NewScanner (34 :: (r ++ [34])))
        = Scanner.scanLoop (r.length + 1)
            (Scanner.scanSwitch 34 ⟨34 :: (r ++ [34]), 0, 1, 1, [], false⟩) := hstep
    have hend : (Scanner.AddToken ⟨34 :: (r ++ [34]), 0, 1 + r.length + 1, 1, [], false⟩
        TokenType.TK_STRING).IsEnd = true := by
      unfold Scanner.IsEnd
      apply decide_eq_true
      show (34 :: (r ++ [34])).length ≤ 1 + r.length + 1
      simp
      omega
    refine ⟨Scanner.AddToken
      { Scanner.AddToken ⟨34 :: (r ++ [34]), 0, 1 + r.length + 1, 1, [], false⟩
          TokenType.TK_STRING with Start := 1 + r.length + 1 } TokenType.TK_EOF, ?_, rfl, ?_⟩
    · unfold Scanner.ScanTokens
      have hlen : (NewScanner (34 :: (r ++ [34]))).Source.length
          - (NewScanner (34 :: (r ++ [34]))).Current = r.length + 1 + 1 := by
        simp [NewScanner]
      rw [hlen, hstep2, hsw, Scanner.scanLoop_end _ _ hend]
      rfl
    · simp [Scanner.AddToken, Scanner.String]
      omega

/-- C18 at `1 "ab`, where the string is not closed, and at `"ab"`. -/
theorem C18_string_literals_witness :
    (∃ sp s, (NewScanner (ascii "1 ")).ScanTokens = some sp ∧
      (NewScanner (ascii "1 \"ab")).ScanTokens = some s ∧
      s.HasErr = true ∧ s.Tokens = sp.Tokens ∧
      ∃ init line, s.Tokens = init ++ [⟨line, [], TokenType.TK_EOF⟩] ∧
        ∀ t ∈ init, t.Typ ≠ TokenType.TK_EOF) ∧
    (∃ s, (NewScanner (ascii "\"ab\"")).ScanTokens = some s ∧ s.HasErr = false ∧
      s.Tokens = [⟨1, ascii "\"ab\"", TokenType.TK_STRING⟩, ⟨1, [], TokenType.TK_EOF⟩]) :=
  C18_string_literals [49, 32] [97, 98] (by decide) (by decide!)

/-! ## Evaluation order and frame -/

/-- C22: in `BinaryExpr.Eval` the left operand is evaluated against the
incoming `globals` and the right operand against the `globals` the left one
leaves. An error of the left operand is returned with the `globals` the left
operand leaves, whatever the right operand is; an error of the right operand is
returned and no operator is applied; with two values the result is what the
operator switch gives on them. -/
theorem C22_binary_strict_left_to_right (lib : Float64Lib) (left right : Expr)
    (optr : Token) (g : Env) :
    (∀ err g1, Expr.Eval lib left g = (Result.error err, g1) →
      Expr.Eval lib (Expr.BinaryExpr left right optr) g = (Result.error err, g1)) ∧
    (∀ lhs g1 err g2, Expr.Eval lib left g = (Result.ok lhs, g1) →
      Expr.Eval lib right g1 = (Result.error err, g2) →
      Expr.Eval lib (Expr.BinaryExpr left right optr) g = (Result.error err, g2)) ∧
    (∀ lhs g1 rhs g2, Expr.Eval lib left g = (Result.ok lhs, g1) →
      Expr.Eval lib right g1 = (Result.ok rhs, g2) →
      Expr.Eval lib (Expr.BinaryExpr left right optr) g
        = (BinaryExpr.apply lib optr lhs rhs, g2)) := by
  refine ⟨?_, ?_, ?_⟩
  · intro err g1 hl
    simp only [Expr.Eval, hl]
  · intro lhs g1 err g2 hl hr
    simp only [Expr.Eval, hl, hr]
  · intro lhs g1 rhs g2 hl hr
    simp only [Expr.Eval, hl, hr]

/-- C22 where `a` is bound to Nil and `b` is not bound: in `b + (a = 1)` the
assignment is not run, in `(a = 1) + b` it is run before the error, and in
`(a = 1) + a` the right operand reads the value the left one assigned. -/
theorem C22_binary_strict_left_to_right_witness :
    (Expr.Eval natLib
        (Expr.BinaryExpr (Expr.VarExpr (ident "b")) (Expr.AssignmentExpr (ident "a") litOne)
          (tok TokenType.TK_PLUS "+")) envA
      = (Result.error (Error.UndefinedVariable (ascii "b")), envA)) ∧
    (Expr.Eval natLib
        (Expr.BinaryExpr (Expr.AssignmentExpr (ident "a") litOne) (Expr.VarExpr (ident "b"))
          (tok TokenType.TK_PLUS "+")) envA
      = (Result.error (Error.UndefinedVariable (ascii "b")),
          envA.set (ascii "a") (ValueType.NumberType (F64.ofNat 1)))) ∧
    (Expr.Eval natLib
        (Expr.BinaryExpr (Expr.AssignmentExpr (ident "a") litOne) (Expr.VarExpr (ident "a"))
          (tok TokenType.TK_PLUS "+")) envA
      = (BinaryExpr.apply natLib (tok TokenType.TK_PLUS "+")
          (ValueType.NumberType (F64.ofNat 1)) (ValueType.NumberType (F64.ofNat 1)),
          envA.set (ascii "a") (ValueType.NumberType (F64.ofNat 1)))) :=
  ⟨(C22_binary_strict_left_to_right natLib (Expr.VarExpr (ident "b"))
      (Expr.AssignmentExpr (ident "a") litOne) (tok TokenType.TK_PLUS "+") envA).1 _ _ rfl,
   (C22_binary_strict_left_to_right natLib (Expr.AssignmentExpr (ident "a") litOne)
      (Expr.VarExpr (ident "b")) (tok TokenType.TK_PLUS "+") envA).2.1 _ _ _ _ rfl rfl,
   (C22_binary_strict_left_to_right natLib (Expr.AssignmentExpr (ident "a") litOne)
      (Expr.VarExpr (ident "a")) (tok TokenType.TK_PLUS "+") envA).2.2 _ _ _ _ rfl rfl⟩

/-- C25: for all values `lhs` and `rhs`, the operator switch of
`BinaryExpr.Eval` returns a Boolean for `==` and for `!=`, and the Boolean of
`!=` is the negation of the Boolean of `==`; hence a binary expression whose
operands evaluate to `lhs` and `rhs` evaluates without error under both
operators, to these Booleans. -/
theorem C25_bang_equal_negates_equal_equal (lib : Float64Lib) (eqTok neTok : Token)
    (heq : eqTok.Typ = TokenType.TK_EQUAL_EQUAL) (hne : neTok.Typ = TokenType.TK_BANG_EQUAL)
    (lhs rhs : ValueType) :
    ∃ b : Bool,
      BinaryExpr.apply lib eqTok lhs rhs = Result.ok (ValueType.BoolType b) ∧
      BinaryExpr.apply lib neTok lhs rhs = Result.ok (ValueType.BoolType (!b)) ∧
      ∀ (left right : Expr) (g g1 g2 : Env),
        Expr.Eval lib left g = (Result.ok lhs, g1) →
        Expr.Eval lib right g1 = (Result.ok rhs, g2) →
        Expr.Eval lib (Expr.BinaryExpr left right eqTok) g
            = (Result.ok (ValueType.BoolType b), g2) ∧
          Expr.Eval lib (Expr.BinaryExpr left right neTok) g
            = (Result.ok (ValueType.BoolType (!b)), g2) := by
  have hval : ∃ b : Bool,
      BinaryExpr.apply lib eqTok lhs rhs = Result.ok (ValueType.BoolType b) ∧
      BinaryExpr.apply lib neTok lhs rhs = Result.ok (ValueType.BoolType (!b)) := by
    cases lhs <;> cases rhs <;>
      simp [BinaryExpr.apply, heq, hne, ValueType.Typ, EvalIfMatch, EvalEqualEqual,
        EvalBangEqual, EvalGeneric, ValueType.isA, FalseValue, TrueValue, F64.ne, bne]
  obtain ⟨b, h1, h2⟩ := hval
  refine ⟨b, h1, h2, ?_⟩
  intro left right g g1 g2 hl hr
  constructor
  · simp only [Expr.Eval, hl, hr, h1]
  · simp only [Expr.Eval, hl, hr, h2]

/-- C25 at `nil == nil`, at two equal numbers and at two different strings. -/
theorem C25_bang_equal_negates_equal_equal_witness :
    (∃ b : Bool,
      BinaryExpr.apply natLib (tok TokenType.TK_EQUAL_EQUAL "==") NilValue NilValue
        = Result.ok (ValueType.BoolType b) ∧
      BinaryExpr.apply natLib (tok TokenType.TK_BANG_EQUAL "!=") NilValue NilValue
        = Result.ok (ValueType.BoolType (!b))) ∧
    (∃ b : Bool,
      BinaryExpr.apply natLib (tok TokenType.TK_EQUAL_EQUAL "==")
          (ValueType.NumberType (F64.ofNat 1)) (ValueType.NumberType (F64.ofNat 1))
        = Result.ok (ValueType.BoolType b) ∧
      BinaryExpr.apply natLib (tok TokenType.TK_BANG_EQUAL "!=")
          (ValueType.NumberType (F64.ofNat 1)) (ValueType.NumberType (F64.ofNat 1))
        = Result.ok (ValueType.BoolType (!b))) ∧
    (∃ b : Bool,
      BinaryExpr.apply natLib (tok TokenType.TK_EQUAL_EQUAL "==")
          (ValueType.StringType (ascii "a")) (ValueType.StringType (ascii "b"))
        = Result.ok (ValueType.BoolType b) ∧
      BinaryExpr.apply natLib (tok TokenType.TK_BANG_EQUAL "!=")
          (ValueType.StringType (ascii "a")) (ValueType.StringType (ascii "b"))
        = Result.ok (ValueType.BoolType (!b))) :=
  ⟨(C25_bang_equal_negates_equal_equal natLib _ _ rfl rfl NilValue NilValue).imp
      fun _ h => ⟨h.1, h.2.1⟩,
   (C25_bang_equal_negates_equal_equal natLib _ _ rfl rfl _ _).imp fun _ h => ⟨h.1, h.2.1⟩,
   (C25_bang_equal_negates_equal_equal natLib _ _ rfl rfl _ _).imp fun _ h => ⟨h.1, h.2.1⟩⟩

/-- C26: evaluating an expression tree without Assignment node returns the
`globals` it was given, whether the result is a value, an error or a panic;
hence `ExprStmt.Run` and `PrintStmt.Run` on such an expression leave `globals`
as they found it, and `ExprStmt.Run` leaves the output as well. -/
theorem C26_no_assignment_no_effect (lib : Float64Lib) (e : Expr)
    (h : e.hasAssignment = false) (g : Env) (w : World) :
    (Expr.Eval lib e g).2 = g ∧
      (Stmt.Run lib (Stmt.ExprStmt e) w).2.globals = w.globals ∧
      (Stmt.Run lib (Stmt.ExprStmt e) w).2.stdout = w.stdout ∧
      (Stmt.Run lib (Stmt.PrintStmt e) w).2.globals = w.globals := by
  have hw := Expr.Eval_no_assignment lib e w.globals h
  refine ⟨Expr.Eval_no_assignment lib e g h, ?_, ?_, ?_⟩
  · simp only [Stmt.Run]
    rcases hev : Expr.Eval lib e w.globals with ⟨r, g1⟩
    rw [hev] at hw
    cases r <;> exact hw
  · simp only [Stmt.Run]
    rcases hev : Expr.Eval lib e w.globals with ⟨r, g1⟩
    cases r <;> rfl
  · simp only [Stmt.Run]
    rcases hev : Expr.Eval lib e w.globals with ⟨r, g1⟩
    rw [hev] at hw
    cases r <;> exact hw

/-- C26 at `a + b`, which fails where `b` is not bound, and at `!a`. -/
theorem C26_no_assignment_no_effect_witness :
    ((Expr.Eval natLib
        (Expr.BinaryExpr (Expr.VarExpr (ident "a")) (Expr.VarExpr (ident "b"))
          (tok TokenType.TK_PLUS "+")) envA).2 = envA ∧
      (Expr.Eval natLib
        (Expr.BinaryExpr (Expr.VarExpr (ident "a")) (Expr.VarExpr (ident "b"))
          (tok TokenType.TK_PLUS "+")) envA).1
        = Result.error (Error.UndefinedVariable (ascii "b"))) ∧
    (Stmt.Run natLib
        (Stmt.PrintStmt (Expr.UnaryExpr (Expr.VarExpr (ident "a")) (tok TokenType.TK_BANG "!")))
        ⟨envA, []⟩).2.globals = envA :=
  ⟨⟨(C26_no_assignment_no_effect natLib
        (Expr.BinaryExpr (Expr.VarExpr (ident "a")) (Expr.VarExpr (ident "b"))
          (tok TokenType.TK_PLUS "+")) rfl envA ⟨envA, []⟩).1, rfl⟩,
   (C26_no_assignment_no_effect natLib
      (Expr.UnaryExpr (Expr.VarExpr (ident "a")) (tok TokenType.TK_BANG "!")) rfl envA
      ⟨envA, []⟩).2.2.2⟩

/-! ## The lexemes of STRING tokens -/

theorem ReservedKws_ne_string (w : GoString) (kw : TokenType) (h : ReservedKws w = some kw) :
    kw ≠ TokenType.TK_STRING := by
  unfold ReservedKws at h
  simp only [List.lookup] at h
  repeat' split at h
  all_goals first
    | (cases h; decide)
    | (simp at h)

namespace Scanner

/-- The loop of `ScanTokens` keeps a property of the tokens that every round
keeps. -/
theorem adds_scanLoop_of (P : Token → Prop)
    (hsw : ∀ (c : Nat) (s : Scanner), s.Current = s.Start + 1 →
      s.Current ≤ s.Source.length → s.Source.getD s.Start 0 = c → Adds P s (scanSwitch c s))
    (fuel : Nat) (s : Scanner) (hc : s.Current ≤ s.Source.length)
    (hf : s.Source.length - s.Current ≤ fuel) :
    ∃ s1, scanLoop fuel s = some s1 ∧ Adds P s s1 := by
  induction fuel generalizing s with
  | zero =>
    refine ⟨s, ?_, adds_refl _ s⟩
    unfold scanLoop IsEnd
    rw [if_pos (decide_eq_true (by omega))]
  | succ n ih =>
    by_cases hend : s.Current ≥ s.Source.length
    · refine ⟨s, ?_, adds_refl _ s⟩
      unfold scanLoop IsEnd
      rw [if_pos (decide_eq_true hend)]
    · have hlt : s.Current < s.Source.length := by omega
      have hsplit : s.Source = s.Source.take s.Current
          ++ s.Source.getD s.Current 0 :: s.Source.drop (s.Current + 1) := by
        rw [← drop_getD _ _ hlt, List.take_append_drop]
      rw [scanLoop_step n s _ _ _ hsplit (by rw [List.length_take]; omega)]
      have h1 := hsw (s.Source.getD s.Current 0)
        { s with Start := s.Current, Current := s.Current + 1 } rfl
        (by show s.Current + 1 ≤ s.Source.length; omega) rfl
      have hext := extends_scanSwitch (s.Source.getD s.Current 0)
        { s with Start := s.Current, Current := s.Current + 1 }
      obtain ⟨hsrc, hle, hin, _⟩ := hext
      dsimp only at hsrc hle hin
      obtain ⟨s1, h2, h3⟩ := ih _ (by rw [hsrc]; exact hin (by omega)) (by rw [hsrc]; omega)
      exact ⟨s1, h2, adds_trans (adds_trans (adds_of_eq rfl) h1) h3⟩

theorem adds_matchToken_of (P : Token → Prop) (s : Scanner) (expect : GoString)
    (two one : TokenType) (h2 : ∀ line lexeme, P ⟨line, lexeme, two⟩)
    (h1 : ∀ line lexeme, P ⟨line, lexeme, one⟩) :
    Adds P s (matchToken s expect two one) := by
  have h := match_tokens s expect
  unfold Scanner.matchToken
  split
  · rename_i s1 heq
    rw [heq] at h
    exact adds_trans (adds_of_eq h) (adds_addToken P _ _ (h2 _ _))
  · rename_i s1 heq
    rw [heq] at h
    exact adds_trans (adds_of_eq h) (adds_addToken P _ _ (h1 _ _))

theorem adds_resolveId_of (P : Token → Prop)
    (hP : ∀ (line : Nat) (lexeme w : GoString) (kw : TokenType),
      ReservedKws w = some kw ∨ kw = TokenType.TK_IDENTIFIER → P ⟨line, lexeme, kw⟩)
    (s : Scanner) : Adds P s s.ResolveIdAndKeyword := by
  have h := (skipWhile_spec isIdChar (s.Source.length - s.Current) s).2.1
  unfold ResolveIdAndKeyword
  dsimp only
  split
  · rename_i kw hk
    exact adds_trans (adds_of_eq h) (adds_addToken P _ _ (hP _ _ _ _ (Or.inl hk)))
  · exact adds_trans (adds_of_eq h) (adds_addToken P _ _ (hP _ _ [] _ (Or.inr rfl)))

theorem adds_slash_of (P : Token → Prop)
    (hP : ∀ line lexeme, P ⟨line, lexeme, TokenType.TK_SLASH⟩) (s : Scanner) :
    Adds P s
      (match s.Match [47] with
       | (true, s1) => s1.SkipOneLineComment
       | (false, s1) => s1.AddToken TokenType.TK_SLASH) := by
  have h := match_tokens s [47]
  split
  · rename_i s1 heq
    rw [heq] at h
    refine adds_of_eq ?_
    unfold SkipOneLineComment
    rw [(commentLoop_spec _ s1).2.1]
    exact h
  · rename_i s1 heq
    rw [heq] at h
    exact adds_trans (adds_of_eq h) (adds_addToken P _ _ (hP _ _))

theorem takeWhile_ne_not_mem (ch : Nat) (a : GoString) :
    ch ∉ a.takeWhile (fun x => x != ch) := by
  intro h
  have := List.mem_takeWhile_imp h
  simp at this

theorem take_through (ch : Nat) (a : GoString) (h : ch ∈ a) :
    a.take ((a.takeWhile (fun x => x != ch)).length + 1)
      = a.takeWhile (fun x => x != ch) ++ [ch] := by
  induction a with
  | nil => simp at h
  | cons x xs ih =>
    rw [List.takeWhile_cons]
    by_cases hx : x = ch
    · simp [hx]
    · have hm : ch ∈ xs := by
        rcases List.mem_cons.1 h with h1 | h1
        · exact absurd h1.symm hx
        · exact h1
      have hb : (x != ch) = true := by simpa using hx
      rw [hb, if_pos rfl, List.length_cons, List.take_succ_cons, ih hm]
      rfl

/-- The `"` case of `ScanToken`, when the byte before the cursor is the `"`
read by `Advance`: either no token is added, or a STRING token whose lexeme
is that `"`, the bytes up to the next `"`, and that `"`. -/
theorem quote_lexeme (s : Scanner) (hstart : s.Current = s.Start + 1)
    (hlen : s.Current ≤ s.Source.length) (hc : s.Source.getD s.Start 0 = 34) :
    (match s.FindChar 34 with
      | (true, s1) => s1.AddToken TokenType.TK_STRING
      | (false, s1) => s1).Tokens = s.Tokens ∨
    (match s.FindChar 34 with
      | (true, s1) => s1.AddToken TokenType.TK_STRING
      | (false, s1) => s1).Tokens
      = s.Tokens ++ [⟨s.Line,
          34 :: ((s.Source.drop s.Current).takeWhile (fun x => x != 34) ++ [34]),
          TokenType.TK_STRING⟩] := by
  unfold FindChar
  rw [findLoop_cursor 34 s hlen]
  by_cases hm : 34 ∈ s.Source.drop s.Current
  · right
    rw [if_pos hm]
    dsimp only
    unfold AddToken String
    dsimp only
    rw [drop_getD s.Source s.Start (by omega), hc, ← hstart]
    have h2 : s.Current + ((s.Source.drop s.Current).takeWhile (fun x => x != 34)).length + 1
        - s.Start
        = ((s.Source.drop s.Current).takeWhile (fun x => x != 34)).length + 1 + 1 := by omega
    rw [h2, List.take_succ_cons, take_through 34 _ hm]
  · left
    rw [if_neg hm]
    rfl

end Scanner
namespace Scanner

theorem adds_ite_of {P : Token → Prop} {s a b : Scanner} (c : Prop) [Decidable c]
    (ha : c → Adds P s a) (hb : ¬ c → Adds P s b) : Adds P s (if c then a else b) := by
  split
  · rename_i h; exact ha h
  · rename_i h; exact hb h

theorem adds_resolveNum_of (P : Token → Prop)
    (hP : ∀ line lexeme, P ⟨line, lexeme, TokenType.TK_NUMBER⟩) (s : Scanner)
    (hstart : s.Current = s.Start + 1) (hlen : s.Current ≤ s.Source.length) :
    Adds P s s.ResolveNum := by
  rw [resolveNum_lexeme s hstart hlen]
  refine ⟨_, rfl, ?_⟩
  intro t ht
  rw [List.mem_singleton.1 ht]
  exact hP _ _

/-- Every round of the loop of `ScanTokens` adds no STRING token, or one with
the lexeme of a string literal. -/
theorem adds_scanSwitch_string (c : Nat) (s : Scanner) (hstart : s.Current = s.Start + 1)
    (hlen : s.Current ≤ s.Source.length) (hc : s.Source.getD s.Start 0 = c) :
    Adds (fun t => t.Typ = TokenType.TK_STRING → isStringLexeme t.Lexeme) s
      (scanSwitch c s) := by
  have hP : ∀ (typ : TokenType), typ ≠ TokenType.TK_STRING → ∀ (line : Nat)
      (lexeme : GoString),
      (fun t : Token => t.Typ = TokenType.TK_STRING → isStringLexeme t.Lexeme)
        ⟨line, lexeme, typ⟩ :=
    fun typ h line lexeme h2 => absurd h2 h
  unfold scanSwitch
  repeat' (refine adds_ite_of _ (fun hcond => ?_) (fun _ => ?_))
  all_goals first
    | exact adds_addToken _ _ _ (hP _ (by decide) _ _)
    | exact adds_refl _ _
    | exact adds_of_eq rfl
    | exact adds_matchToken_of _ _ _ _ _ (hP _ (by decide)) (hP _ (by decide))
    | exact adds_resolveNum_of _ (hP _ (by decide)) _ hstart hlen
    | exact adds_resolveId_of _ (fun line lexeme w kw hk => hP kw
        (by
          rcases hk with h | h
          · exact ReservedKws_ne_string w kw h
          · rw [h]; decide) line lexeme) _
    | exact adds_slash_of _ (hP _ (by decide)) _
    | skip
  -- the `"` case
  rw [hcond] at hc
  rcases quote_lexeme s hstart hlen hc with h | h
  · exact adds_of_eq h
  · refine ⟨_, h, ?_⟩
    intro t ht _
    rw [List.mem_singleton.1 ht]
    exact ⟨_, takeWhile_ne_not_mem 34 _, rfl⟩

end Scanner

/-- The slice `Lexeme[1:len(Lexeme)-1]` of the lexeme of a string literal. -/
theorem slice_stringLexeme (r : GoString) :
    slice (34 :: (r ++ [34])) 1 (((34 :: (r ++ [34]) : GoString).length : Int) - 1)
      = some r := by
  unfold slice
  have hlen : ((34 :: (r ++ [34]) : GoString).length : Int) - 1 = (r.length : Int) + 1 := by
    simp
  rw [hlen, if_pos ⟨by omega, by omega, by simp⟩]
  have h1 : ((1 : Int).toNat) = 1 := rfl
  have h2 : ((r.length : Int) + 1).toNat = r.length + 1 := by omega
  rw [h1, h2]
  simp

/-- C27: on every source text `ScanTokens` returns, and every STRING token it
returns has a lexeme made of a `"`, bytes other than `"`, and a `"`; so the
lexeme has at least two bytes, and `Literal` and `LiteralString` on the token
do not slice out of range and return the lexeme without its first and last
byte. -/
theorem C27_string_lexemes (lib : Float64Lib) (source : GoString) :
    ∃ s, (NewScanner source).ScanTokens = some s ∧
      ∀ t ∈ s.Tokens, t.Typ = TokenType.TK_STRING →
        ∃ r : GoString, 34 ∉ r ∧ t.Lexeme = 34 :: (r ++ [34]) ∧ 2 ≤ t.Lexeme.length ∧
          t.Literal lib = Result.ok (ValueType.StringType r) ∧
          t.LiteralString lib = some r ∧
          r = (t.Lexeme.drop 1).take (t.Lexeme.length - 2) := by
  obtain ⟨s1, h1, new, hnew, hall⟩ :=
    Scanner.adds_scanLoop_of _ Scanner.adds_scanSwitch_string (source.length - 0)
      (NewScanner source) (Nat.zero_le _) (Nat.le_refl _)
  refine ⟨Scanner.AddToken { s1 with Start := s1.Current } TokenType.TK_EOF, ?_, ?_⟩
  · unfold Scanner.ScanTokens
    show (match Scanner.scanLoop (source.length - 0) (NewScanner source) with
      | some s1 => some (Scanner.AddToken { s1 with Start := s1.Current } TokenType.TK_EOF)
      | none => none) = _
    rw [h1]
  · intro t ht hstr
    have hmem : t ∈ new ∨ t = ⟨s1.Line, [], TokenType.TK_EOF⟩ := by
      simpa [Scanner.AddToken, Scanner.String, hnew, NewScanner] using ht
    rcases hmem with h | h
    · obtain ⟨r, hr, hlex⟩ := hall t h hstr
      refine ⟨r, hr, hlex, ?_, ?_, ?_, ?_⟩
      · rw [hlex]
        simp
      · unfold Token.Literal
        rw [hstr]
        dsimp only
        rw [hlex, slice_stringLexeme]
      · unfold Token.LiteralString
        rw [if_pos hstr, hlex, slice_stringLexeme]
      · rw [hlex]
        simp
    · rw [h] at hstr
      exact absurd hstr (by simp)

/-! ## Lines of tokens -/

/-- C21 fails on the code: in the source made of the string literal `"a`,
line feed, `b"`, a space and `x`, the lexeme `x` starts after one line feed,
and the token `x` and the EOF token are on line 1: the line feed read by
`FindChar` inside the string literal is not counted, while the one that ends
a comment is counted by `SkipOneLineComment`. -/
theorem C21_line_feed_in_string_not_counted :
    ((NewScanner (ascii "\"a\nb\" x")).ScanTokens).map (fun s => s.Tokens)
      = some [⟨1, ascii "\"a\nb\"", TokenType.TK_STRING⟩,
          ⟨1, ascii "x", TokenType.TK_IDENTIFIER⟩, ⟨1, [], TokenType.TK_EOF⟩] ∧
    ascii "\"a\nb\" x" = ascii "\"a\nb\" " ++ ascii "x" ∧
    1 + (ascii "\"a\nb\" ").count 10 = 2 ∧
    ((NewScanner (ascii "// c\nx")).ScanTokens).map (fun s => s.Tokens)
      = some [⟨2, ascii "x", TokenType.TK_IDENTIFIER⟩, ⟨2, [], TokenType.TK_EOF⟩] := by
  refine ⟨by decide!, by decide!, by decide!, by decide!⟩

/-! ## The rounds of the scanner, by the text they read -/

namespace Scanner

theorem applyRound_ite (s : Scanner) (c : Prop) [Decidable c] {a b : Scanner} {ra rb : Round}
    (ha : a = s.applyRound ra) (hb : b = s.applyRound rb) :
    (if c then a else b) = s.applyRound (if c then ra else rb) := by
  split
  · exact ha
  · exact hb

/-- `AddToken` after the cursor has moved over `size` bytes from the start of
the round. -/
theorem addToken_round (s : Scanner) (k size : Nat) (typ : TokenType)
    (hk : k = s.Current + size) :
    ({ s with Start := s.Current, Current := k } : Scanner).AddToken typ
      = s.applyRound ⟨size, 0, some typ, false⟩ := by
  subst hk
  unfold AddToken String applyRound
  simp

theorem drop_after (pre rest : GoString) (c : Nat) :
    (pre ++ c :: rest).drop (pre.length + 1) = rest := by
  simp

/-- The text after the first byte of the round. -/
theorem drop_round (s : Scanner) (pre rest : GoString) (c : Nat)
    (hs : s.Source = pre ++ c :: rest) (hc : s.Current = pre.length) :
    s.Source.drop (s.Current + 1) = rest := by
  rw [hs, hc, drop_after]

theorem length_round (s : Scanner) (pre rest : GoString) (c : Nat)
    (hs : s.Source = pre ++ c :: rest) (hc : s.Current = pre.length) :
    s.Current + 1 ≤ s.Source.length := by
  rw [hs, hc]
  simp

/-- `Match` on one byte right after the first byte of the round. -/
theorem match_round (s : Scanner) (pre rest : GoString) (c e : Nat)
    (hs : s.Source = pre ++ c :: rest) (hc : s.Current = pre.length) :
    ({ s with Start := s.Current, Current := s.Current + 1 } : Scanner).Match [e]
      = if rest.take 1 = [e] then
          (true, { s with Start := s.Current, Current := s.Current + 1 + 1 })
        else (false, { s with Start := s.Current, Current := s.Current + 1 }) := by
  have hd := drop_round s pre rest c hs hc
  have hl : s.Source.length = s.Current + 1 + rest.length := by
    rw [hs, hc]
    simp
    omega
  unfold Match
  dsimp only
  rw [hd, hl]
  cases rest with
  | nil => simp
  | cons x xs =>
    have h1 : ¬ (s.Current + 1 + [e].length > s.Current + 1 + (x :: xs).length) := by
      simp
    rw [if_neg h1]
    by_cases hx : x = e
    · subst hx
      simp
    · have h2 : ¬ ([e] = List.take [e].length (x :: xs)) := by
        simp
        exact fun h => hx h.symm
      have h3 : ¬ (List.take 1 (x :: xs) = [e]) := by
        simp
        exact hx
      rw [if_neg h2, if_neg h3]

theorem matchToken_round (s : Scanner) (pre rest : GoString) (c : Nat) (two one : TokenType)
    (hs : s.Source = pre ++ c :: rest) (hc : s.Current = pre.length) :
    matchToken { s with Start := s.Current, Current := s.Current + 1 } [61] two one
      = s.applyRound (Round.matchRound rest two one) := by
  unfold matchToken Round.matchRound
  rw [match_round s pre rest c 61 hs hc]
  by_cases hm : rest.take 1 = [61]
  · rw [if_pos hm, if_pos hm]
    exact addToken_round s _ 2 two rfl
  · rw [if_neg hm, if_neg hm]
    exact addToken_round s _ 1 one rfl

theorem slash_round (s : Scanner) (pre rest : GoString) (c : Nat)
    (hs : s.Source = pre ++ c :: rest) (hc : s.Current = pre.length) :
    (match ({ s with Start := s.Current, Current := s.Current + 1 } : Scanner).Match [47] with
      | (true, s1) => s1.SkipOneLineComment
      | (false, s1) => s1.AddToken TokenType.TK_SLASH)
      = s.applyRound (Round.slashRound rest) := by
  have hd := drop_round s pre rest c hs hc
  have hl := length_round s pre rest c hs hc
  unfold Round.slashRound
  rw [match_round s pre rest c 47 hs hc]
  by_cases hm : rest.take 1 = [47]
  · rw [if_pos hm, if_pos hm]
    dsimp only
    have hrl : 1 ≤ rest.length := by
      cases rest with
      | nil => simp at hm
      | cons x xs => simp
    have hl2 : s.Current + 1 + 1 ≤ s.Source.length := by
      rw [hs, hc]
      simp
      omega
    have hd2 : s.Source.drop (s.Current + 1 + 1) = rest.drop 1 := by
      rw [← hd, List.drop_drop]
    unfold SkipOneLineComment
    have hloop := commentLoop_cursor
      { s with Start := s.Current, Current := s.Current + 1 + 1 } hl2
    dsimp only at hloop ⊢
    rw [hloop, hd2]
    unfold applyRound
    by_cases hn : 10 ∈ rest.drop 1
    · rw [if_pos hn, if_pos hn]
      simp
      omega
    · rw [if_neg hn, if_neg hn]
      simp
      omega
  · rw [if_neg hm, if_neg hm]
    exact addToken_round s _ 1 _ rfl

theorem quote_round (s : Scanner) (pre rest : GoString) (c : Nat)
    (hs : s.Source = pre ++ c :: rest) (hc : s.Current = pre.length) :
    (match ({ s with Start := s.Current, Current := s.Current + 1 } : Scanner).FindChar 34 with
      | (true, s1) => s1.AddToken TokenType.TK_STRING
      | (false, s1) => s1)
      = s.applyRound (Round.quoteRound rest) := by
  have hd := drop_round s pre rest c hs hc
  have hl := length_round s pre rest c hs hc
  unfold Round.quoteRound FindChar
  have hloop := findLoop_cursor 34 { s with Start := s.Current, Current := s.Current + 1 } hl
  dsimp only at hloop ⊢
  rw [hloop, hd]
  by_cases hm : 34 ∈ rest
  · rw [if_pos hm, if_pos hm]
    exact addToken_round s _ _ _ (by omega)
  · rw [if_neg hm, if_neg hm]
    dsimp only
    unfold Report applyRound
    simp
    omega

theorem resolveNum_round (s : Scanner) (pre rest : GoString) (c : Nat)
    (hs : s.Source = pre ++ c :: rest) (hc : s.Current = pre.length) :
    ({ s with Start := s.Current, Current := s.Current + 1 } : Scanner).ResolveNum
      = s.applyRound ⟨1 + (numberTail rest).length, 0, some TokenType.TK_NUMBER, false⟩ := by
  rw [resolveNum_eq { s with Start := s.Current, Current := s.Current + 1 } (pre ++ [c]) rest
    (by rw [hs]; simp) (by simp [hc])]
  exact addToken_round s _ _ _ (by dsimp only; omega)

theorem string_round (s : Scanner) (pre rest w : GoString) (c : Nat)
    (hs : s.Source = pre ++ c :: rest) (hc : s.Current = pre.length) (hw : w <+: rest) :
    ({ s with Start := s.Current, Current := s.Current + 1 + w.length } : Scanner).String
      = c :: w := by
  unfold String
  dsimp only
  have h1 : s.Current + 1 + w.length - s.Current = w.length + 1 := by omega
  rw [h1, hs, hc, List.drop_left, List.take_succ_cons, ← List.prefix_iff_eq_take.1 hw]

theorem resolveId_round (s : Scanner) (pre rest : GoString) (c : Nat)
    (hs : s.Source = pre ++ c :: rest) (hc : s.Current = pre.length) :
    ({ s with Start := s.Current, Current := s.Current + 1 } : Scanner).ResolveIdAndKeyword
      = s.applyRound (Round.wordRound c rest) := by
  have hd := drop_round s pre rest c hs hc
  have hl := length_round s pre rest c hs hc
  unfold ResolveIdAndKeyword Round.wordRound
  have hskip := skipWhile_cursor isIdChar (by decide)
    { s with Start := s.Current, Current := s.Current + 1 } hl
  dsimp only at hskip ⊢
  rw [hskip, hd, string_round s pre rest _ c hs hc (List.takeWhile_prefix _)]
  cases ReservedKws (c :: rest.takeWhile isIdChar) with
  | none => exact addToken_round s _ _ _ (by omega)
  | some kw => exact addToken_round s _ _ _ (by omega)

end Scanner
namespace Scanner

/-- The `switch` of `ScanToken` after `Advance` has read the byte `c`: the
round read off the text. -/
theorem scanSwitch_round (s : Scanner) (pre rest : GoString) (c : Nat)
    (hs : s.Source = pre ++ c :: rest) (hc : s.Current = pre.length) :
    scanSwitch c { s with Start := s.Current, Current := s.Current + 1 }
      = s.applyRound (roundOf c rest) := by
  unfold scanSwitch roundOf
  repeat' apply applyRound_ite
  all_goals first
    | exact addToken_round s _ 1 _ rfl
    | rfl
    | exact matchToken_round s pre rest c _ _ hs hc
    | exact slash_round s pre rest c hs hc
    | exact quote_round s pre rest c hs hc
    | exact resolveNum_round s pre rest c hs hc
    | exact resolveId_round s pre rest c hs hc

/-- One round of the loop of `ScanTokens`, by the text at the cursor. -/
theorem scanLoop_round (n : Nat) (s : Scanner) (pre rest : GoString) (c : Nat)
    (hs : s.Source = pre ++ c :: rest) (hc : s.Current = pre.length) :
    scanLoop (n + 1) s = scanLoop n (s.applyRound (roundOf c rest)) := by
  rw [scanLoop_step n s pre rest c hs hc, scanSwitch_round s pre rest c hs hc]

/-- The sizes of a round: at least the first byte, at most the text. -/
theorem roundOf_size (c : Nat) (rest : GoString) :
    1 ≤ (roundOf c rest).size ∧ (roundOf c rest).size ≤ 1 + rest.length := by
  have h := scanSwitch_round ⟨c :: rest, 0, 0, 1, [], false⟩ [] rest c rfl rfl
  have hext := extends_scanSwitch c
    ({ (⟨c :: rest, 0, 0, 1, [], false⟩ : Scanner) with Start := 0, Current := 0 + 1 })
  obtain ⟨_, h2, h3, _⟩ := hext
  have h4 := h3 (by simp)
  have h5 : (scanSwitch c
      ({ (⟨c :: rest, 0, 0, 1, [], false⟩ : Scanner) with Start := 0, Current := 0 + 1 })).Current
      = 0 + (roundOf c rest).size := by
    have := congrArg Scanner.Current h
    exact this
  rw [h5] at h2 h4
  simp at h2 h4
  exact ⟨by omega, by omega⟩

end Scanner
namespace Scanner

theorem fractionPart_stop (u y : GoString) (d : Nat) (hd : isDigit d = false) (h46 : d ≠ 46) :
    fractionPart (u ++ d :: y) = fractionPart u := by
  match u with
  | [] =>
    show fractionPart (d :: y) = []
    unfold fractionPart
    split
    · rename_i heq
      cases heq
      exact absurd rfl h46
    · rfl
  | [z] =>
    by_cases hz : z = 46
    · subst hz
      show (if isDigit d then 46 :: (d :: y).takeWhile isDigit else []) = []
      rw [hd]
      rfl
    · show fractionPart (z :: d :: y) = fractionPart [z]
      unfold fractionPart
      split
      · rename_i heq
        cases heq
        exact absurd rfl hz
      · split
        · rename_i heq
          cases heq
        · rfl
  | z :: x :: xs =>
    by_cases hz : z = 46
    · subst hz
      show (if isDigit x then 46 :: ((x :: xs) ++ d :: y).takeWhile isDigit else [])
        = if isDigit x then 46 :: (x :: xs).takeWhile isDigit else []
      rw [takeWhile_tail isDigit (x :: xs) d y hd]
    · show fractionPart (z :: x :: (xs ++ d :: y)) = fractionPart (z :: x :: xs)
      unfold fractionPart
      split
      · rename_i heq
        cases heq
        exact absurd rfl hz
      · split
        · rename_i heq
          cases heq
          exact absurd rfl hz
        · rfl

theorem numberTail_stop (rest y : GoString) (d : Nat) (hd : isDigit d = false)
    (h46 : d ≠ 46) : numberTail (rest ++ d :: y) = numberTail rest := by
  unfold numberTail
  rw [takeWhile_tail isDigit rest d y hd, dropWhile_tail isDigit rest d y hd,
    fractionPart_stop _ _ _ hd h46]

theorem matchRound_stop (rest y : GoString) (d : Nat) (two one : TokenType) (h61 : d ≠ 61) :
    Round.matchRound (rest ++ d :: y) two one = Round.matchRound rest two one := by
  unfold Round.matchRound
  cases rest with
  | nil =>
    have h1 : ¬ (List.take 1 ([] ++ d :: y) = [61]) := by simpa using h61
    have h2 : ¬ (List.take 1 ([] : GoString) = [61]) := by simp
    rw [if_neg h1, if_neg h2]
  | cons x xs => rfl

/-- A round that starts at a byte other than `"` and `/` does not depend on
a byte further on that is no identifier byte, `=` or `.`, nor on what
follows that byte. -/
theorem roundOf_stop (h : Nat) (x y : GoString) (d : Nat) (h34 : h ≠ 34) (h47 : h ≠ 47)
    (hd : isIdChar d = false) (h61 : d ≠ 61) (h46 : d ≠ 46) :
    roundOf h (x ++ d :: y) = roundOf h x := by
  have hdig : isDigit d = false := by
    unfold isIdChar at hd
    unfold isDigit
    simp only [Bool.or_eq_false_iff] at hd
    exact hd.1.2
  unfold roundOf
  repeat' (first
    | rfl
    | exact matchRound_stop x y d _ _ h61
    | (exfalso; omega)
    | rw [numberTail_stop x y d hdig h46]
    | (unfold Round.wordRound; rw [takeWhile_tail isIdChar x d y hd])
    | refine ite_congr rfl (fun hcond => ?_) (fun _ => ?_))

theorem roundOf_invalid (c : Nat) (rest : GoString) (hc : startsNoLexeme c = true) :
    roundOf c rest = ⟨1, 0, none, true⟩ := by
  unfold startsNoLexeme at hc
  simp only [Bool.not_eq_true', Bool.or_eq_false_iff, decide_eq_false_iff_not,
    List.mem_cons, List.mem_singleton, List.not_mem_nil, or_false, not_or] at hc
  obtain ⟨⟨⟨⟨hl, h1⟩, h2⟩, h3⟩, h4⟩ := hc
  unfold roundOf
  repeat rw [if_neg (by omega)]

theorem invalid_stop (c : Nat) (hc : startsNoLexeme c = true) :
    isIdChar c = false ∧ c ≠ 61 ∧ c ≠ 46 := by
  unfold startsNoLexeme at hc
  simp only [Bool.not_eq_true', Bool.or_eq_false_iff, decide_eq_false_iff_not,
    List.mem_cons, List.mem_singleton, List.not_mem_nil, or_false, not_or] at hc
  obtain ⟨⟨⟨⟨hl, h1⟩, h2⟩, h3⟩, h4⟩ := hc
  refine ⟨?_, by omega, by omega⟩
  unfold isIdChar
  simp
  omega

end Scanner
namespace Scanner

theorem sameScan_applyRound (s1 s2 : Scanner) (r1 r2 : Round) (h : SameScan s1 s2)
    (hsize : r2.size = r1.size) (hlines : r2.lines = r1.lines) (htyp : r2.typ = r1.typ)
    (hlex : ∀ typ, r1.typ = some typ →
      (s2.Source.drop s1.Current).take r1.size = (s1.Source.drop s1.Current).take r1.size) :
    SameScan (s1.applyRound r1) (s2.applyRound r2) := by
  obtain ⟨h1, h2, h3, h4⟩ := h
  unfold applyRound
  refine ⟨h2, by dsimp only; rw [h2, hsize], by dsimp only; rw [h3, hlines], ?_⟩
  dsimp only
  rw [htyp]
  cases ht : r1.typ with
  | none => exact h4
  | some typ =>
    dsimp only
    rw [h4, h3, h2, hsize, hlex typ ht]

/-- The loop of `ScanTokens` on two sources that differ in one byte, a
byte that starts no lexeme in the first source and a space in the second,
where no `"` and no `/` stands before that byte: the rounds read the same
bytes and add the same tokens, and the first scan reports an error. -/
theorem scanLoop_blank (a b : GoString) (c : Nat) (ha1 : 34 ∉ a) (ha2 : 47 ∉ a)
    (hc : startsNoLexeme c = true) (fuel : Nat) (s1 s2 : Scanner)
    (hs1 : s1.Source = a ++ c :: b) (hs2 : s2.Source = a ++ 32 :: b) (h : SameScan s1 s2)
    (hlen : s1.Current ≤ a.length + 1 + b.length)
    (hf : a.length + 1 + b.length - s1.Current ≤ fuel)
    (herr : a.length < s1.Current → s1.HasErr = true) :
    ∃ t1 t2, scanLoop fuel s1 = some t1 ∧ scanLoop fuel s2 = some t2 ∧ SameScan t1 t2 ∧
      t1.HasErr = true := by
  have hl1 : s1.Source.length = a.length + 1 + b.length := by
    rw [hs1]; simp; omega
  have hl2 : s2.Source.length = a.length + 1 + b.length := by
    rw [hs2]; simp; omega
  induction fuel generalizing s1 s2 with
  | zero =>
    have he1 : s1.IsEnd = true := by
      unfold IsEnd
      exact decide_eq_true (by omega)
    have he2 : s2.IsEnd = true := by
      unfold IsEnd
      exact decide_eq_true (by rw [h.2.1]; omega)
    exact ⟨s1, s2, scanLoop_end 0 s1 he1, scanLoop_end 0 s2 he2, h, herr (by omega)⟩
  | succ n ih =>
    by_cases hend : s1.Current ≥ a.length + 1 + b.length
    · have he1 : s1.IsEnd = true := by
        unfold IsEnd
        exact decide_eq_true (by omega)
      have he2 : s2.IsEnd = true := by
        unfold IsEnd
        exact decide_eq_true (by rw [h.2.1]; omega)
      exact ⟨s1, s2, scanLoop_end _ s1 he1, scanLoop_end _ s2 he2, h, herr (by omega)⟩
    · have hk2 : s2.Current = s1.Current := h.2.1
      rcases Nat.lt_trichotomy s1.Current a.length with hlt | heq | hgt
      · -- a round inside `a`
        have ha : a = a.take s1.Current ++ a.getD s1.Current 0 :: a.drop (s1.Current + 1) := by
          rw [← drop_getD _ _ hlt, List.take_append_drop]
        have hmem : a.getD s1.Current 0 ∈ a := by
          rw [List.getD_eq_getElem _ _ hlt]
          exact List.getElem_mem _
        have h34 : a.getD s1.Current 0 ≠ 34 := fun hx => ha1 (hx ▸ hmem)
        have h47 : a.getD s1.Current 0 ≠ 47 := fun hx => ha2 (hx ▸ hmem)
        have hsplit : ∀ d : Nat, a ++ d :: b
            = a.take s1.Current ++ a.getD s1.Current 0
              :: (a.drop (s1.Current + 1) ++ d :: b) := by
          intro d
          conv => lhs; rw [ha]
          simp
        have hpre : s1.Current = (a.take s1.Current).length := by
          rw [List.length_take]
          omega
        obtain ⟨hst1, hst2, hst3⟩ := invalid_stop c hc
        have hr1 := scanLoop_round n s1 _ _ _ (hs1.trans (hsplit c)) hpre
        have hr2 := scanLoop_round n s2 _ _ _ (hs2.trans (hsplit 32)) (hk2.trans hpre)
        rw [roundOf_stop _ _ _ _ h34 h47 hst1 hst2 hst3] at hr1
        rw [roundOf_stop _ _ _ _ h34 h47 (by decide) (by decide) (by decide)] at hr2
        obtain ⟨hsz1, hsz2⟩ := roundOf_size (a.getD s1.Current 0) (a.drop (s1.Current + 1))
        rw [List.length_drop] at hsz2
        have hlex : ∀ d : Nat,
            ((a ++ d :: b).drop s1.Current).take
                (roundOf (a.getD s1.Current 0) (a.drop (s1.Current + 1))).size
              = (a.drop s1.Current).take
                (roundOf (a.getD s1.Current 0) (a.drop (s1.Current + 1))).size := by
          intro d
          rw [List.drop_append_of_le_length (by omega),
            List.take_append_of_le_length (by rw [List.length_drop]; omega)]
        obtain ⟨t1, t2, e1, e2, e3, e4⟩ := ih
          (s1.applyRound (roundOf (a.getD s1.Current 0) (a.drop (s1.Current + 1))))
          (s2.applyRound (roundOf (a.getD s1.Current 0) (a.drop (s1.Current + 1))))
          hs1 hs2
          (sameScan_applyRound s1 s2 _ _ h rfl rfl rfl
            (fun _ _ => by rw [hs1, hs2, hlex c, hlex 32]))
          (by show s1.Current + _ ≤ _; omega) (by show _ - (s1.Current + _) ≤ _; omega)
          (fun hx => by
            have : a.length < s1.Current + _ := hx
            omega)
          hl1 hl2
        exact ⟨t1, t2, hr1.trans e1, hr2.trans e2, e3, e4⟩
      · -- the round on the byte itself
        have hr1 := scanLoop_round n s1 a b c hs1 heq
        have hr2 := scanLoop_round n s2 a b 32 hs2 (hk2.trans heq)
        rw [roundOf_invalid c b hc] at hr1
        have h32 : roundOf 32 b = ⟨1, 0, none, false⟩ := rfl
        rw [h32] at hr2
        obtain ⟨t1, t2, e1, e2, e3, e4⟩ := ih
          (s1.applyRound ⟨1, 0, none, true⟩) (s2.applyRound ⟨1, 0, none, false⟩) hs1 hs2
          (sameScan_applyRound s1 s2 _ _ h rfl rfl rfl (fun _ hx => by cases hx))
          (by show s1.Current + 1 ≤ _; omega) (by show _ - (s1.Current + 1) ≤ _; omega)
          (fun _ => rfl) hl1 hl2
        exact ⟨t1, t2, hr1.trans e1, hr2.trans e2, e3, e4⟩
      · -- a round inside `b`
        obtain ⟨j, hj⟩ : ∃ j, s1.Current = a.length + 1 + j :=
          ⟨s1.Current - (a.length + 1), by omega⟩
        have hjb : j < b.length := by omega
        have hb : b = b.take j ++ b.getD j 0 :: b.drop (j + 1) := by
          rw [← drop_getD _ _ hjb, List.take_append_drop]
        have hsplit : ∀ d : Nat, a ++ d :: b
            = (a ++ d :: b.take j) ++ b.getD j 0 :: b.drop (j + 1) := by
          intro d
          conv => lhs; rw [hb]
          simp
        have hpl : ∀ d : Nat, (a ++ d :: b.take j).length = a.length + 1 + j := by
          intro d
          rw [List.length_append, List.length_cons, List.length_take]
          omega
        have hr1 := scanLoop_round n s1 _ _ _ (hs1.trans (hsplit c)) (hj.trans (hpl c).symm)
        have hr2 := scanLoop_round n s2 _ _ _ (hs2.trans (hsplit 32))
          (hk2.trans (hj.trans (hpl 32).symm))
        obtain ⟨hsz1, hsz2⟩ := roundOf_size (b.getD j 0) (b.drop (j + 1))
        rw [List.length_drop] at hsz2
        have hdrop : ∀ d : Nat, (a ++ d :: b).drop s1.Current
            = b.getD j 0 :: b.drop (j + 1) := by
          intro d
          rw [hj, hsplit d, ← hpl d]
          exact List.drop_left _ _
        obtain ⟨t1, t2, e1, e2, e3, e4⟩ := ih
          (s1.applyRound (roundOf (b.getD j 0) (b.drop (j + 1))))
          (s2.applyRound (roundOf (b.getD j 0) (b.drop (j + 1))))
          hs1 hs2
          (sameScan_applyRound s1 s2 _ _ h rfl rfl rfl
            (fun _ _ => by rw [hs1, hs2, hdrop c, hdrop 32]))
          (by show s1.Current + _ ≤ _; omega) (by show _ - (s1.Current + _) ≤ _; omega)
          (fun _ => by
            show (_ || s1.HasErr) = true
            rw [herr hgt, Bool.or_true])
          hl1 hl2
        exact ⟨t1, t2, hr1.trans e1, hr2.trans e2, e3, e4⟩

end Scanner

/-- C23: where `a` has no `"` and no `/` and the byte `c` starts no lexeme,
scanning `a`, `c`, `b` returns with the error flag set, and its tokens, with
their types, lexemes and lines, are those of scanning `a`, a space, `b`. -/
theorem C23_lexical_errors_not_fatal (a b : GoString) (c : Nat) (ha1 : 34 ∉ a)
    (ha2 : 47 ∉ a) (hc : startsNoLexeme c = true) :
    ∃ s1 s2, (NewScanner (a ++ c :: b)).ScanTokens = some s1 ∧
      (NewScanner (a ++ 32 :: b)).ScanTokens = some s2 ∧
      s1.HasErr = true ∧ s1.Tokens = s2.Tokens := by
  obtain ⟨t1, t2, e1, e2, e3, e4⟩ :=
    Scanner.scanLoop_blank a b c ha1 ha2 hc (a.length + 1 + b.length)
      (NewScanner (a ++ c :: b)) (NewScanner (a ++ 32 :: b)) rfl rfl ⟨rfl, rfl, rfl, rfl⟩
      (Nat.zero_le _) (Nat.le_refl _) (fun hx => absurd hx (Nat.not_lt_zero _))
  obtain ⟨_, h2, h3, h4⟩ := e3
  have hfuel : ∀ d : Nat, (NewScanner (a ++ d :: b)).Source.length
      - (NewScanner (a ++ d :: b)).Current = a.length + 1 + b.length := by
    intro d
    simp [NewScanner]
    omega
  refine ⟨Scanner.AddToken { t1 with Start := t1.Current } TokenType.TK_EOF,
    Scanner.AddToken { t2 with Start := t2.Current } TokenType.TK_EOF, ?_, ?_, e4, ?_⟩
  · unfold Scanner.ScanTokens
    rw [hfuel c, e1]
  · unfold Scanner.ScanTokens
    rw [hfuel 32, e2]
  · simp [Scanner.AddToken, Scanner.String, h3, h4]

/-- C23 at `1 @ 2` against `1   2`, and at `a#` against `a `. -/
theorem C23_lexical_errors_not_fatal_witness :
    (∃ s1 s2, (NewScanner (ascii "1 @ 2")).ScanTokens = some s1 ∧
      (NewScanner (ascii "1   2")).ScanTokens = some s2 ∧
      s1.HasErr = true ∧ s1.Tokens = s2.Tokens) ∧
    (∃ s1 s2, (NewScanner (ascii "a#")).ScanTokens = some s1 ∧
      (NewScanner (ascii "a ")).ScanTokens = some s2 ∧
      s1.HasErr = true ∧ s1.Tokens = s2.Tokens) :=
  ⟨C23_lexical_errors_not_fatal [49, 32] [32, 50] 64 (by decide) (by decide) (by decide),
   C23_lexical_errors_not_fatal [97] [] 35 (by decide) (by decide) (by decide)⟩

/-! ## The parser stays inside the token slice -/

namespace Parser

theorem inRange_at {tokens : List Token} {p : Parser} (h : InRange tokens p) :
    ∃ t, p.Tokens.get? p.Current = some t := by
  obtain ⟨h1, h2⟩ := h
  rw [h1]
  exact ⟨tokens.get ⟨p.Current, h2⟩, List.get?_eq_get h2⟩

/-- A token that is not EOF is not the last one. -/
theorem inRange_next {tokens : List Token} (hE : endsWithEOF tokens) {p : Parser}
    (h : InRange tokens p) (t : Token) (hat : p.Tokens.get? p.Current = some t)
    (hne : t.Typ ≠ TokenType.TK_EOF) :
    InRange tokens { p with Current := p.Current + 1 } := by
  obtain ⟨h1, h2⟩ := h
  refine ⟨h1, ?_⟩
  show p.Current + 1 < tokens.length
  by_contra hge
  have hlast : p.Current = tokens.length - 1 := by omega
  obtain ⟨t1, ht1, he⟩ := hE
  rw [h1, hlast, ht1] at hat
  cases hat
  exact hne he

theorem safeStep_mono {α : Type} {tokens : List Token} {k c : Nat} {x : Result α × Parser}
    (k1 c1 : Nat) (h : safeStep tokens k c x) (hk : k1 ≤ k) (hc : c1 ≤ c) :
    safeStep tokens k1 c1 x := by
  obtain ⟨h1, h2, h3, h4⟩ := h
  exact ⟨h1, h2, by omega, fun v hv => by have := h4 v hv; omega⟩

theorem safe_mono {α : Type} {tokens : List Token} {k c : Nat} {x : PRes α}
    (k1 c1 : Nat) (h : Safe tokens k c x) (hk : k1 ≤ k) (hc : c1 ≤ c) :
    Safe tokens k1 c1 x := by
  obtain ⟨y, hy, hs⟩ := h
  exact ⟨y, hy, safeStep_mono k1 c1 hs hk hc⟩

theorem safe_some {α : Type} {tokens : List Token} {k c : Nat} {x : Result α × Parser}
    (h : safeStep tokens k c x) : Safe tokens k c (some x) :=
  ⟨x, rfl, h⟩

/-- Sequencing after a step that returned without panic. -/
theorem safe_andThen {α β : Type} {tokens : List Token} {k c : Nat}
    {x : Result α × Parser} (k2 : Nat) {f : α → Parser → PRes β}
    (hx : safeStep tokens k c x)
    (hf : ∀ v q, x = (Result.ok v, q) → InRange tokens q → c + k ≤ q.Current →
      Safe tokens k2 q.Current (f v q)) :
    Safe tokens (k + k2) c (Golox.andThen x f) := by
  obtain ⟨h1, h2, h3, h4⟩ := hx
  rcases x with ⟨r, q⟩
  cases r with
  | ok v =>
    have hq := h4 v rfl
    obtain ⟨y, hy, hs⟩ := hf v q rfl h2 hq
    refine ⟨y, hy, ?_⟩
    obtain ⟨g1, g2, g3, g4⟩ := hs
    dsimp only at hq
    exact ⟨g1, g2, by omega, fun w hw => by have := g4 w hw; omega⟩
  | error e =>
    exact ⟨(Result.error e, q), rfl, by simp, h2, h3, fun v hv => by cases hv⟩
  | panic => exact absurd rfl h1

/-- Sequencing after a recursive call that returned without panic. -/
theorem safe_bind {α β : Type} {tokens : List Token} {k c : Nat}
    {x : PRes α} (k2 : Nat) {f : α → Parser → PRes β}
    (hx : Safe tokens k c x)
    (hf : ∀ v q, x = some (Result.ok v, q) → InRange tokens q → c + k ≤ q.Current →
      Safe tokens k2 q.Current (f v q)) :
    Safe tokens (k + k2) c (x.andThen f) := by
  obtain ⟨y, hy, hs⟩ := hx
  subst hy
  exact safe_andThen k2 hs (fun v q hv => hf v q (by rw [hv]))

/-- `MatchAny` with types other than EOF: either nothing is read, or the
token at the cursor is read, the cursor stays inside the slice, and
`Previous` returns that token. -/
theorem matchAny_cases {tokens : List Token} (hE : endsWithEOF tokens) {p : Parser}
    (h : InRange tokens p) (types : List TokenType) (heof : TokenType.TK_EOF ∉ types) :
    p.MatchAny types = (Result.ok false, p) ∨
      ∃ t, p.Tokens.get? p.Current = some t ∧ t.Typ ∈ types ∧
        p.MatchAny types = (Result.ok true, { p with Current := p.Current + 1 }) ∧
        InRange tokens { p with Current := p.Current + 1 } ∧
        ({ p with Current := p.Current + 1 } : Parser).Previous
          = (Result.ok t, { p with Current := p.Current + 1 }) := by
  obtain ⟨t, hat⟩ := inRange_at h
  by_cases hin : t.Typ ∈ types
  · right
    have hne : t.Typ ≠ TokenType.TK_EOF := fun he => heof (he ▸ hin)
    exact ⟨t, hat, hin, matchAny_hit p t types hat hne hin, inRange_next hE h t hat hne,
      previous_after p t hat⟩
  · left
    exact matchAny_miss p t types hat hin heof

/-- `Expect` with a type other than EOF returns without panic. -/
theorem expect_safe {tokens : List Token} (hE : endsWithEOF tokens) {p : Parser}
    (h : InRange tokens p) (tk : TokenType) (msg : String) (htk : tk ≠ TokenType.TK_EOF) :
    safeStep tokens 1 p.Current (p.Expect tk msg) := by
  obtain ⟨t, hat⟩ := inRange_at h
  unfold Expect
  by_cases he : t.Typ = TokenType.TK_EOF
  · rw [check_at_eof p t tk hat he, decide_eq_false htk]
    exact ⟨by simp, h, Nat.le_refl _, fun v hv => by cases hv⟩
  · rw [check_of_at p t tk hat he]
    by_cases hm : t.Typ = tk
    · rw [decide_eq_true hm]
      dsimp only
      rw [advance_of_at p t hat he]
      exact ⟨by simp, inRange_next hE h t hat he, Nat.le_succ _, fun _ _ => Nat.le_refl _⟩
    · rw [decide_eq_false hm]
      exact ⟨by simp, h, Nat.le_refl _, fun v hv => by cases hv⟩

end Parser
namespace Parser

/-- The loop of a binary level returns without panic when its operand does,
given one round per token left. -/
theorem binaryLoop_safe {tokens : List Token} (hE : endsWithEOF tokens)
    (types : List TokenType) (heof : TokenType.TK_EOF ∉ types)
    (operand : Parser → PRes Expr) (c : Nat)
    (hop : ∀ q, InRange tokens q → c ≤ q.Current → Safe tokens 1 q.Current (operand q))
    (m : Nat) (e : Expr) (p : Parser) (h : InRange tokens p) (hc : c ≤ p.Current)
    (hm : tokens.length - p.Current ≤ m) :
    Safe tokens 0 p.Current (binaryLoop types operand m e p) := by
  induction m generalizing e p with
  | zero =>
    have := h.2
    omega
  | succ n ih =>
    unfold binaryLoop
    rcases matchAny_cases hE h types heof with hmiss | ⟨t, _, _, hhit, hin, hprev⟩
    · rw [hmiss]
      exact safe_some ⟨by simp, h, Nat.le_refl _, fun _ _ => Nat.le_refl _⟩
    · rw [hhit]
      simp only [andThen, if_true]
      rw [hprev]
      dsimp only
      have hoper := hop _ hin (by show c ≤ p.Current + 1; omega)
      refine safe_mono 0 p.Current (safe_bind 0 hoper (fun v q _ hq hcq => ?_)) (Nat.zero_le _)
        (by show p.Current ≤ p.Current + 1; omega)
      have hcq2 : p.Current + 1 + 1 ≤ q.Current := hcq
      exact ih _ q hq (by omega) (by omega)

/-- A binary level returns without panic when its operand does. -/
theorem level_safe {tokens : List Token} (hE : endsWithEOF tokens)
    (types : List TokenType) (heof : TokenType.TK_EOF ∉ types)
    (operand : Parser → PRes Expr) (m : Nat) (p : Parser) (h : InRange tokens p)
    (hop : ∀ q, InRange tokens q → p.Current ≤ q.Current →
      Safe tokens 1 q.Current (operand q))
    (hm : tokens.length - p.Current ≤ m) :
    Safe tokens 1 p.Current
      ((operand p).andThen fun expr p1 => binaryLoop types operand m expr p1) := by
  refine safe_bind 0 (hop p h (Nat.le_refl _)) (fun v q _ hq hcq => ?_)
  exact binaryLoop_safe hE types heof operand p.Current hop m v q hq (by omega)
    (by have := hq.2; omega)

end Parser
namespace Parser

/-- The expression methods return without panic when the depth of calls
they are given is at least eight per token left, and one per method from
`ParsePrimary` up to the method called. -/
theorem expr_safe {tokens : List Token} (hE : endsWithEOF tokens) (f : Nat) :
    (∀ p, InRange tokens p → 8 * (tokens.length - 1 - p.Current) + 1 ≤ f →
      Safe tokens 1 p.Current (ParsePrimary f p)) ∧
    (∀ p, InRange tokens p → 8 * (tokens.length - 1 - p.Current) + 2 ≤ f →
      Safe tokens 1 p.Current (ParseUnary f p)) ∧
    (∀ p, InRange tokens p → 8 * (tokens.length - 1 - p.Current) + 3 ≤ f →
      Safe tokens 1 p.Current (ParseFactor f p)) ∧
    (∀ p, InRange tokens p → 8 * (tokens.length - 1 - p.Current) + 4 ≤ f →
      Safe tokens 1 p.Current (ParseTerm f p)) ∧
    (∀ p, InRange tokens p → 8 * (tokens.length - 1 - p.Current) + 5 ≤ f →
      Safe tokens 1 p.Current (ParseComparsion f p)) ∧
    (∀ p, InRange tokens p → 8 * (tokens.length - 1 - p.Current) + 6 ≤ f →
      Safe tokens 1 p.Current (ParseEquality f p)) ∧
    (∀ p, InRange tokens p → 8 * (tokens.length - 1 - p.Current) + 7 ≤ f →
      Safe tokens 1 p.Current (ParseAssignment f p)) ∧
    (∀ p, InRange tokens p → 8 * (tokens.length - 1 - p.Current) + 8 ≤ f →
      Safe tokens 1 p.Current (ParseExpression f p)) := by
  induction f with
  | zero =>
    refine ⟨?_, ?_, ?_, ?_, ?_, ?_, ?_, ?_⟩ <;> intro p _ hf <;> omega
  | succ n ih =>
    obtain ⟨ihPrimary, ihUnary, ihFactor, ihTerm, ihCmp, ihEq, ihAssign, ihExpr⟩ := ih
    refine ⟨?_, ?_, ?_, ?_, ?_, ?_, ?_, ?_⟩
    · -- ParsePrimary
      intro p h hf
      unfold ParsePrimary
      rcases matchAny_cases hE h [TokenType.TK_NUMBER, TokenType.TK_STRING, TokenType.KW_TRUE,
        TokenType.KW_FALSE, TokenType.KW_NIL] (by decide)
        with hmiss | ⟨t, _, _, hhit, hin, hprev⟩
      · rw [hmiss]
        simp only [andThen, Bool.false_eq_true, if_false]
        rcases matchAny_cases hE h [TokenType.TK_LEFT_PAREN] (by decide)
          with hmiss2 | ⟨t, _, _, hhit2, hin2, _⟩
        · rw [hmiss2]
          simp only [andThen, Bool.false_eq_true, if_false]
          rcases matchAny_cases hE h [TokenType.TK_IDENTIFIER] (by decide)
            with hmiss3 | ⟨t, _, _, hhit3, hin3, hprev3⟩
          · rw [hmiss3]
            simp only [andThen, Bool.false_eq_true, if_false]
            obtain ⟨t, hat⟩ := inRange_at h
            unfold Peek
            rw [hat]
            exact safe_some ⟨by simp, h, Nat.le_refl _, fun v hv => by cases hv⟩
          · rw [hhit3]
            simp only [andThen, if_true]
            rw [hprev3]
            exact safe_some ⟨by simp, hin3, Nat.le_succ _, fun _ _ => Nat.le_refl _⟩
        · rw [hhit2]
          simp only [andThen, if_true]
          have hexp := ihExpr _ hin2 (by show 8 * (tokens.length - 1 - (p.Current + 1)) + 8 ≤ n;
                                         have := hin2.2; dsimp only at this; omega)
          refine safe_mono 1 p.Current (safe_bind 0 hexp (fun v q _ hq hcq => ?_)) (by omega)
            (by show p.Current ≤ p.Current + 1; omega)
          rcases matchAny_cases hE hq [TokenType.TK_RIGHT_PAREN] (by decide)
            with hmiss4 | ⟨t, _, _, hhit4, hin4, _⟩
          · rw [hmiss4]
            exact safe_some ⟨by simp, hq, Nat.le_refl _, fun v hv => by cases hv⟩
          · rw [hhit4]
            exact safe_some ⟨by simp, hin4, Nat.le_succ _,
              fun _ _ => by show q.Current + 0 ≤ q.Current + 1; omega⟩
      · rw [hhit]
        simp only [andThen, if_true]
        rw [hprev]
        exact safe_some ⟨by simp, hin, Nat.le_succ _, fun _ _ => Nat.le_refl _⟩
    · -- ParseUnary
      intro p h hf
      unfold ParseUnary
      rcases matchAny_cases hE h [TokenType.TK_BANG, TokenType.TK_MINUS] (by decide)
        with hmiss | ⟨t, _, _, hhit, hin, hprev⟩
      · rw [hmiss]
        simp only [andThen, Bool.false_eq_true, if_false]
        exact ihPrimary p h (by omega)
      · rw [hhit]
        simp only [andThen, if_true]
        rw [hprev]
        dsimp only
        have hun := ihUnary _ hin (by show 8 * (tokens.length - 1 - (p.Current + 1)) + 2 ≤ n;
                                      have := hin.2; dsimp only at this; omega)
        refine safe_mono 1 p.Current (safe_bind 0 hun (fun v q _ hq hcq => ?_)) (by omega)
          (by show p.Current ≤ p.Current + 1; omega)
        exact safe_some ⟨by simp, hq, Nat.le_refl _, fun _ _ => Nat.le_refl _⟩
    · -- ParseFactor
      intro p h hf
      unfold ParseFactor
      exact level_safe hE _ (by decide) _ n p h
        (fun q hq hc => ihUnary q hq (by omega)) (by have := h.2; omega)
    · -- ParseTerm
      intro p h hf
      unfold ParseTerm
      exact level_safe hE _ (by decide) _ n p h
        (fun q hq hc => ihFactor q hq (by omega)) (by have := h.2; omega)
    · -- ParseComparsion
      intro p h hf
      unfold ParseComparsion
      exact level_safe hE _ (by decide) _ n p h
        (fun q hq hc => ihTerm q hq (by omega)) (by have := h.2; omega)
    · -- ParseEquality
      intro p h hf
      unfold ParseEquality
      exact level_safe hE _ (by decide) _ n p h
        (fun q hq hc => ihCmp q hq (by omega)) (by have := h.2; omega)
    · -- ParseAssignment
      intro p h hf
      unfold ParseAssignment
      refine safe_bind 0 (ihEq p h (by omega)) (fun expr p1 _ hp1 hc1 => ?_)
      rcases matchAny_cases hE hp1 [TokenType.TK_EQUAL] (by decide)
        with hmiss | ⟨t, _, _, hhit, hin, _⟩
      · rw [hmiss]
        exact safe_some ⟨by simp, hp1, Nat.le_refl _, fun _ _ => Nat.le_refl _⟩
      · rw [hhit]
        simp only [andThen, if_true]
        have has := ihAssign _ hin (by show 8 * (tokens.length - 1 - (p1.Current + 1)) + 7 ≤ n;
                                       have := hin.2; dsimp only at this; omega)
        refine safe_mono 0 p1.Current (safe_bind 0 has (fun v q _ hq hcq => ?_)) (by omega)
          (by show p1.Current ≤ p1.Current + 1; omega)
        cases expr <;>
          exact safe_some ⟨by simp, hq, Nat.le_refl _, fun _ _ => Nat.le_refl _⟩
    · -- ParseExpression
      intro p h hf
      unfold ParseExpression
      exact ihAssign p h (by omega)

end Parser
namespace Parser

theorem printStatement_safe {tokens : List Token} (hE : endsWithEOF tokens) (f : Nat)
    (p : Parser) (h : InRange tokens p) (hf : 8 * (tokens.length - 1 - p.Current) + 8 ≤ f) :
    Safe tokens 1 p.Current (ParsePrintStatement f p) := by
  unfold ParsePrintStatement
  refine safe_mono 1 p.Current
    (safe_bind 1 ((expr_safe hE f).2.2.2.2.2.2.2 p h hf) (fun expr p1 _ hp1 _ => ?_))
    (by omega) (Nat.le_refl _)
  exact safe_andThen 0 (expect_safe hE hp1 _ _ (by decide))
    (fun _ q _ hq _ => safe_some ⟨by simp, hq, Nat.le_refl _, fun _ _ => Nat.le_refl _⟩)

theorem expressionStatement_safe {tokens : List Token} (hE : endsWithEOF tokens) (f : Nat)
    (p : Parser) (h : InRange tokens p) (hf : 8 * (tokens.length - 1 - p.Current) + 8 ≤ f) :
    Safe tokens 1 p.Current (ParseExpressionStatement f p) := by
  unfold ParseExpressionStatement
  refine safe_mono 1 p.Current
    (safe_bind 1 ((expr_safe hE f).2.2.2.2.2.2.2 p h hf) (fun expr p1 _ hp1 _ => ?_))
    (by omega) (Nat.le_refl _)
  exact safe_andThen 0 (expect_safe hE hp1 _ _ (by decide))
    (fun _ q _ hq _ => safe_some ⟨by simp, hq, Nat.le_refl _, fun _ _ => Nat.le_refl _⟩)

theorem varStatement_safe {tokens : List Token} (hE : endsWithEOF tokens) (f : Nat)
    (p : Parser) (h : InRange tokens p) (hf : 8 * (tokens.length - 1 - p.Current) + 8 ≤ f) :
    Safe tokens 1 p.Current (ParseVarStatement f p) := by
  unfold ParseVarStatement
  refine safe_mono 1 p.Current
    (safe_andThen 0 (expect_safe hE h _ _ (by decide)) (fun tk p1 _ hp1 hc1 => ?_))
    (by omega) (Nat.le_refl _)
  rcases matchAny_cases hE hp1 [TokenType.TK_EQUAL] (by decide)
    with hmiss | ⟨t, _, _, hhit, hin, _⟩
  · rw [hmiss]
    simp only [andThen, Bool.false_eq_true, if_false]
    refine safe_mono 0 p1.Current
      (safe_andThen 0 (expect_safe hE hp1 _ _ (by decide)) (fun _ q _ hq _ =>
        safe_some ⟨by simp, hq, Nat.le_refl _, fun _ _ => Nat.le_refl _⟩))
      (by omega) (Nat.le_refl _)
  · rw [hhit]
    simp only [andThen, if_true]
    have hexp := (expr_safe hE f).2.2.2.2.2.2.2 _ hin
      (by show 8 * (tokens.length - 1 - (p1.Current + 1)) + 8 ≤ f; omega)
    refine safe_mono 0 p1.Current (safe_bind 1 hexp (fun expr p3 _ hp3 _ => ?_)) (by omega)
      (by show p1.Current ≤ p1.Current + 1; omega)
    exact safe_andThen 0 (expect_safe hE hp3 _ _ (by decide))
      (fun _ q _ hq _ => safe_some ⟨by simp, hq, Nat.le_refl _, fun _ _ => Nat.le_refl _⟩)

/-- The statement methods return without panic when the depth of calls they
are given is at least eight per token left and eleven more. -/
theorem stmt_safe {tokens : List Token} (hE : endsWithEOF tokens) (f : Nat) :
    (∀ p, InRange tokens p → 8 * (tokens.length - 1 - p.Current) + 9 ≤ f →
      Safe tokens 1 p.Current (ParseStatement f p)) ∧
    (∀ stmts p, InRange tokens p → 8 * (tokens.length - 1 - p.Current) + 10 ≤ f →
      Safe tokens 0 p.Current (blockLoop f stmts p)) ∧
    (∀ p, InRange tokens p → 8 * (tokens.length - 1 - p.Current) + 11 ≤ f →
      Safe tokens 1 p.Current (ParseBlock f p)) := by
  induction f with
  | zero =>
    refine ⟨?_, ?_, ?_⟩
    · intro p _ hf; omega
    · intro _ p _ hf; omega
    · intro p _ hf; omega
  | succ n ih =>
    obtain ⟨ihStmt, ihLoop, ihBlock⟩ := ih
    refine ⟨?_, ?_, ?_⟩
    · intro p h hf
      unfold ParseStatement
      rcases matchAny_cases hE h [TokenType.KW_PRINT, TokenType.KW_VAR,
        TokenType.TK_LEFT_BRACE] (by decide) with hmiss | ⟨t, _, _, hhit, hin, hprev⟩
      · rw [hmiss]
        simp only [andThen, Bool.false_eq_true, if_false]
        exact expressionStatement_safe hE n p h (by omega)
      · rw [hhit]
        simp only [andThen, if_true]
        rw [hprev]
        dsimp only
        have hp2 := hin.2
        dsimp only at hp2
        refine safe_mono 1 p.Current (c := p.Current + 1) ?_ (Nat.le_refl _) (Nat.le_succ _)
        split
        · exact printStatement_safe hE n _ hin
            (by show 8 * (tokens.length - 1 - (p.Current + 1)) + 8 ≤ n; omega)
        · exact varStatement_safe hE n _ hin
            (by show 8 * (tokens.length - 1 - (p.Current + 1)) + 8 ≤ n; omega)
        · exact ihBlock _ hin
            (by show 8 * (tokens.length - 1 - (p.Current + 1)) + 11 ≤ n; omega)
        · exact expressionStatement_safe hE n _ hin
            (by show 8 * (tokens.length - 1 - (p.Current + 1)) + 8 ≤ n; omega)
    · intro stmts p h hf
      unfold blockLoop
      obtain ⟨t, hat⟩ := inRange_at h
      rw [isEnd_of_at p t hat]
      by_cases he : t.Typ = TokenType.TK_EOF
      · rw [decide_eq_true he, if_pos rfl]
        exact safe_some ⟨by simp, h, Nat.le_refl _, fun _ _ => Nat.le_refl _⟩
      · rw [decide_eq_false he]
        simp only [Bool.false_eq_true, if_false]
        rw [check_of_at p t _ hat he]
        by_cases hb : t.Typ = TokenType.TK_RIGHT_BRACE
        · rw [decide_eq_true hb]
          simp only [andThen, if_true]
          exact safe_some ⟨by simp, h, Nat.le_refl _, fun _ _ => Nat.le_refl _⟩
        · rw [decide_eq_false hb]
          simp only [andThen, Bool.false_eq_true, if_false]
          refine safe_mono 0 p.Current
            (safe_bind 0 (ihStmt p h (by omega)) (fun stmt q _ hq hcq => ?_))
            (by omega) (Nat.le_refl _)
          have := hq.2
          exact ihLoop _ q hq (by omega)
    · intro p h hf
      unfold ParseBlock
      refine safe_mono 1 p.Current
        (safe_bind 1 (ihLoop [] p h (by omega)) (fun stmts p1 _ hp1 _ => ?_))
        (by omega) (Nat.le_refl _)
      exact safe_andThen 0 (expect_safe hE hp1 _ _ (by decide))
        (fun _ q _ hq _ => safe_some ⟨by simp, hq, Nat.le_refl _, fun _ _ => Nat.le_refl _⟩)

/-- The method `Parse` returns without panic when the depth of calls it is
given is at least eight per token left and ten more. -/
theorem parse_safe {tokens : List Token} (hE : endsWithEOF tokens) (f : Nat)
    (stmts : List Stmt) (p : Parser) (h : InRange tokens p)
    (hf : 8 * (tokens.length - 1 - p.Current) + 10 ≤ f) :
    Safe tokens 0 p.Current (Parse f stmts p) := by
  induction f generalizing stmts p with
  | zero => omega
  | succ n ih =>
    unfold Parse
    obtain ⟨t, hat⟩ := inRange_at h
    rw [isEnd_of_at p t hat]
    by_cases he : t.Typ = TokenType.TK_EOF
    · rw [decide_eq_true he, if_pos rfl]
      exact safe_some ⟨by simp, h, Nat.le_refl _, fun _ _ => Nat.le_refl _⟩
    · rw [decide_eq_false he]
      simp only [Bool.false_eq_true, if_false]
      refine safe_mono 0 p.Current
        (safe_bind 0 ((stmt_safe hE n).1 p h (by omega)) (fun stmt q _ hq hcq => ?_))
        (by omega) (Nat.le_refl _)
      have := hq.2
      exact ih _ q hq (by omega)

/-- `Advance` returns a token and leaves the cursor inside the slice. -/
theorem advance_safe {tokens : List Token} (hE : endsWithEOF tokens) (p : Parser)
    (h : InRange tokens p) : safeStep tokens 0 p.Current p.Advance := by
  obtain ⟨t, hat⟩ := inRange_at h
  by_cases he : t.Typ = TokenType.TK_EOF
  · unfold Advance
    rw [isEnd_of_at p t hat, decide_eq_true he, if_pos rfl]
    cases hl : p.Tokens.getLast? with
    | none =>
      rw [List.getLast?_eq_none_iff] at hl
      have := h.2
      rw [← h.1, hl] at this
      simp at this
    | some x => exact ⟨by simp, h, Nat.le_refl _, fun _ _ => Nat.le_refl _⟩
  · rw [advance_of_at p t hat he]
    exact ⟨by simp, inRange_next hE h t hat he, Nat.le_succ _, fun _ _ => Nat.le_succ _⟩

end Parser
/-- The tokens `ScanTokens` returns are not empty and end with EOF. -/
theorem scanTokens_endsWithEOF (source : GoString) :
    ∃ s, (NewScanner source).ScanTokens = some s ∧ 0 < s.Tokens.length ∧
      endsWithEOF s.Tokens := by
  obtain ⟨s1, h1, _, _⟩ :=
    Scanner.scanLoop_spec (source.length - 0) (NewScanner source) (Nat.zero_le _)
      (Nat.le_refl _)
  refine ⟨Scanner.AddToken { s1 with Start := s1.Current } TokenType.TK_EOF, ?_, ?_, ?_⟩
  · unfold Scanner.ScanTokens
    show (match Scanner.scanLoop (source.length - 0) (NewScanner source) with
      | some s1 => some (Scanner.AddToken { s1 with Start := s1.Current } TokenType.TK_EOF)
      | none => none) = _
    rw [h1]
  · simp [Scanner.AddToken]
  · refine ⟨⟨s1.Line, ({ s1 with Start := s1.Current } : Scanner).String, TokenType.TK_EOF⟩,
      ?_, rfl⟩
    show (s1.Tokens ++ [_]).get? ((s1.Tokens ++ [_]).length - 1) = _
    rw [List.length_append, List.length_singleton, Nat.add_sub_cancel]
    exact get?_mid s1.Tokens _ []

/-- C24: on the tokens `ScanTokens` returns for any source, which are not
empty and end with EOF, `ParseExpression` and `Parse` return without panic,
that is without an index out of range in `Peek`, `Previous` or `Advance`,
whenever the bound on the depth of calls is at least eight per token and ten
more, as the bound of `parseSource` and `parseProgram` is; the parser they
leave is on the same slice with its cursor at most at the last index, and from
every cursor inside the slice `Peek` finds a token and `Advance` returns one
and leaves the cursor inside the slice. -/
theorem C24_parser_stays_in_range (source : GoString) :
    ∃ s, (NewScanner source).ScanTokens = some s ∧ 0 < s.Tokens.length ∧
      endsWithEOF s.Tokens ∧
      (∀ fuel, 8 * s.Tokens.length + 10 ≤ fuel →
        (∃ r q, Parser.ParseExpression fuel (NewParser s.Tokens) = some (r, q) ∧
          r ≠ Result.panic ∧ q.Tokens = s.Tokens ∧ q.Current ≤ s.Tokens.length - 1) ∧
        (∃ r q, Parser.Parse fuel [] (NewParser s.Tokens) = some (r, q) ∧
          r ≠ Result.panic ∧ q.Tokens = s.Tokens ∧ q.Current ≤ s.Tokens.length - 1)) ∧
      (∃ r q, parseSource source = some (r, q) ∧ r ≠ Result.panic) ∧
      (∃ r q, parseProgram source = some (r, q) ∧ r ≠ Result.panic) ∧
      (∀ p : Parser, p.Tokens = s.Tokens → p.Current ≤ s.Tokens.length - 1 →
        p.Peek ≠ none ∧ p.Advance.1 ≠ Result.panic ∧
          p.Advance.2.Current ≤ s.Tokens.length - 1) := by
  obtain ⟨s, hs, hpos, hE⟩ := scanTokens_endsWithEOF source
  have h0 : Parser.InRange s.Tokens (NewParser s.Tokens) := ⟨rfl, hpos⟩
  have hexpr : ∀ fuel, 8 * s.Tokens.length + 10 ≤ fuel →
      ∃ r q, Parser.ParseExpression fuel (NewParser s.Tokens) = some (r, q) ∧
        r ≠ Result.panic ∧ q.Tokens = s.Tokens ∧ q.Current ≤ s.Tokens.length - 1 := by
    intro fuel hf
    obtain ⟨y, hy, h1, h2, _, _⟩ := (Parser.expr_safe hE fuel).2.2.2.2.2.2.2 _ h0
      (by show 8 * (s.Tokens.length - 1 - 0) + 8 ≤ fuel; omega)
    exact ⟨y.1, y.2, hy, h1, h2.1, by have := h2.2; omega⟩
  have hparse : ∀ fuel, 8 * s.Tokens.length + 10 ≤ fuel →
      ∃ r q, Parser.Parse fuel [] (NewParser s.Tokens) = some (r, q) ∧
        r ≠ Result.panic ∧ q.Tokens = s.Tokens ∧ q.Current ≤ s.Tokens.length - 1 := by
    intro fuel hf
    obtain ⟨y, hy, h1, h2, _, _⟩ := Parser.parse_safe hE fuel [] _ h0
      (by show 8 * (s.Tokens.length - 1 - 0) + 10 ≤ fuel; omega)
    exact ⟨y.1, y.2, hy, h1, h2.1, by have := h2.2; omega⟩
  have hbudget : 8 * s.Tokens.length + 10 ≤ Parser.budget s.Tokens := by
    unfold Parser.budget
    omega
  refine ⟨s, hs, hpos, hE, fun fuel hf => ⟨hexpr fuel hf, hparse fuel hf⟩, ?_, ?_, ?_⟩
  · obtain ⟨r, q, h1, h2, _⟩ := hexpr _ hbudget
    refine ⟨r, q, ?_, h2⟩
    unfold parseSource
    rw [hs]
    exact h1
  · obtain ⟨r, q, h1, h2, _⟩ := hparse _ hbudget
    refine ⟨r, q, ?_, h2⟩
    unfold parseProgram
    rw [hs]
    exact h1
  · intro p hp hc
    have hin : Parser.InRange s.Tokens p := ⟨hp, by omega⟩
    obtain ⟨t, hat⟩ := Parser.inRange_at hin
    obtain ⟨h1, h2, _, _⟩ := Parser.advance_safe hE p hin
    refine ⟨?_, h1, by have := h2.2; omega⟩
    unfold Parser.Peek
    rw [hat]
    simp

end Golox
